import Mathlib

/-!
# Deep-copy generator (`gen/gen.go`)

A shallow embedding of the generator of `Copy()` procedures and the properties
proved about it.

* `reflect.Type` is an external interface: the types are an arbitrary carrier `τ`
  with decidable equality (Go compares `reflect.Type` values by identity) and
  the methods the generator calls are the fields of `TypeInfo`.
* Go leaves the order of `range` over a map unspecified: the order is supplied
  by `Runtime`, which is valid when it enumerates exactly the keys of the map.
* `fmt.Printf` / `fmt.Println` write to standard output: every operation
  returns the text it writes together with the next generator state.
* `field`, `_slice` and `_sliceItem` call each other through the element type of
  a slice or array; the embedding bounds the depth of that recursion by a
  natural number (the stack). A call that exceeds the bound does not return:
  its result is the text printed so far and no generator (`none`).
* The names obtained from `nextVar` and the types on whose values `.Copy()` is
  called are read off a list of events (`fieldEvents`, `runEvents`) that follows
  the control flow of the handlers.
* The statements that make up the printed text are listed by `fieldPieces` and
  `runPieces`: one entry per call of `fmt.Printf` or `fmt.Println`, with its
  arguments. The text printed is proved to be the rendering of that list
  (`run_render`), so that calls of `.Copy()` and procedure headers are read off
  the output itself.
* `Run` receives the content of the writer `out` and returns it with the error;
  the text it prints goes to standard output.
-/

namespace gen

/-! ## The reflection interface -/

/-- Kinds of types, the enumeration `reflect.Kind`. -/
inductive Kind
  | Invalid | Bool | Int | Int8 | Int16 | Int32 | Int64
  | Uint | Uint8 | Uint16 | Uint32 | Uint64 | Uintptr
  | Float32 | Float64 | Complex64 | Complex128
  | Array | Chan | Func | Interface | Map | Ptr | Slice | String | Struct
  | UnsafePointer
  deriving DecidableEq

/-- Struct tag of a field (`reflect.StructTag`), by its `key:"value"` pairs. -/
abbrev StructTag := List (String × String)

/-- Value of a key in a struct tag (`StructTag.Get`): the value of the first pair with that
key, the empty string when the key is absent. -/
def StructTag.Get (tag : StructTag) (key : String) : String :=
  match tag.find? (fun e => e.1 = key) with
  | some e => e.2
  | none => ""

/-- Field descriptor: `type structField reflect.StructField`, with the three members the
generator reads. A literal `structField{Type: e, Name: n}` has the empty tag. -/
structure structField (τ : Type) where
  Name : String
  Typ : τ
  Tag : StructTag
  deriving DecidableEq

/-- Methods of `reflect.Type` used by the generator. `Fields t` lists
`t.Field(0)`, ..., `t.Field(t.NumField()-1)`. `Elem` is only called on pointer, slice and
array types. -/
structure TypeInfo (τ : Type) where
  PkgPath : τ → String
  Name : τ → String
  Fields : τ → List (structField τ)
  Elem : τ → τ
  String : τ → String
  Kind : τ → Kind

/-- Result of `strconv.ParseBool`: the value and the error, if any. -/
def ParseBool (str : String) : Bool × Option String :=
  if str = "1" ∨ str = "t" ∨ str = "T" ∨ str = "true" ∨ str = "TRUE" ∨ str = "True" then
    (true, none)
  else if str = "0" ∨ str = "f" ∨ str = "F" ∨ str = "false" ∨ str = "FALSE"
      ∨ str = "False" then
    (false, none)
  else
    (false, some ("strconv.ParseBool: parsing " ++ str ++ ": invalid syntax"))

/-- Go runtime behaviour the generator depends on: the order in which `range` visits the
keys of `g.types` and the entries of `g.imports`, and the `%q` verb of `fmt`. -/
structure Runtime (τ : Type) where
  rangeTypes : List (τ × Bool) → List τ
  rangeImports : List (String × String) → List (String × String)
  quote : String → String

/-- A runtime is valid when `range` visits every key of the map exactly as often as it
occurs. -/
def Runtime.Valid {τ : Type} (O : Runtime τ) : Prop :=
  (∀ m, (O.rangeTypes m).Perm (m.map Prod.fst)) ∧ (∀ m, (O.rangeImports m).Perm m)

/-! ## Generator state -/

/-- The generator: `imports` maps a package path to its alias, `types` is the queue
(type ↦ already selected), `varIndex` is an `int64`. -/
structure generator (τ : Type) where
  imports : List (String × String)
  types : List (τ × Bool)
  varIndex : Int
  pkgName : String
  pkgPath : String
  deriving DecidableEq

variable {τ : Type} [DecidableEq τ]

/-- Test `_, ok := m[t]`. -/
def mapHas (m : List (τ × Bool)) (t : τ) : Bool :=
  m.any (fun e => decide (e.1 = t))

/-- Read `m[t]`, the zero value `false` when the key is absent. -/
def mapGet (m : List (τ × Bool)) (t : τ) : Bool :=
  match m.find? (fun e => decide (e.1 = t)) with
  | some e => e.2
  | none => false

/-- Assignment `m[t] = b`. -/
def mapSet : List (τ × Bool) → τ → Bool → List (τ × Bool)
  | [], t, b => [(t, b)]
  | (k, v) :: m, t, b => if k = t then (k, b) :: m else (k, v) :: mapSet m t b

/-- Keys of the queue. -/
def keys (m : List (τ × Bool)) : List τ := m.map Prod.fst

/-- Arithmetic of `int64`: wrap a mathematical integer into `[-2^63, 2^63)`. -/
def wrapInt64 (x : Int) : Int := (x + 2 ^ 63) % 2 ^ 64 - 2 ^ 63

def InPrefix : String := "in."

def OutPrefix : String := "out."

def NewGenerator : generator τ :=
  { imports := [], types := [], varIndex := 0, pkgName := "", pkgPath := "" }

def SetPkg (name path : String) (g : generator τ) : generator τ :=
  { g with pkgName := name, pkgPath := path }

def addType (R : TypeInfo τ) (t : τ) (g : generator τ) : generator τ :=
  if g.pkgPath ≠ R.PkgPath t then g
  else if mapHas g.types t then g
  else { g with types := mapSet g.types t false }

/-- Seed `Add(obj)`; `obj` is the dynamic type of the argument, `none` for a nil interface
value, on which `reflect.TypeOf(obj).Kind()` panics (result `none`). -/
def Add (R : TypeInfo τ) (obj : Option τ) (g : generator τ) : Option (generator τ) :=
  match obj with
  | none => none
  | some t =>
    let t := if R.Kind t = Kind.Ptr then R.Elem t else t
    some (addType R t g)

def nextType (O : Runtime τ) (g : generator τ) : Option τ × generator τ :=
  match (O.rangeTypes g.types).find? (fun t => mapGet g.types t == false) with
  | some t => (some t, { g with types := mapSet g.types t true })
  | none => (none, g)

/-- Text written by `printHeader`. -/
def printHeader (O : Runtime τ) (g : generator τ) : String :=
  let order := O.rangeImports g.imports
  let aliases := order.map (fun e => e.2)
  let byAlias := fun (a : String) =>
    match order.reverse.find? (fun e => e.2 = a) with
    | some e => e.1
    | none => ""
  let aliases := aliases.insertionSort (fun a b => a ≤ b)
  "// Code generated by rti-generator for copy struct. DO NOT EDIT.\n" ++ "\n"
    ++ ("package " ++ " " ++ g.pkgName ++ "\n") ++ "\n"
    ++ "import (\n"
    ++ String.join (aliases.map (fun a => "  " ++ a ++ " " ++ O.quote (byAlias a) ++ "\n"))
    ++ ")\n" ++ "\n"

def isPtr (R : TypeInfo τ) (p : τ) : Bool :=
  if R.Kind p = Kind.Ptr then true else false

def isSlice (R : TypeInfo τ) (p : τ) : Bool :=
  if R.Kind p = Kind.Slice then true else false

def nextVar (g : generator τ) : String × generator τ :=
  let g1 := { g with varIndex := wrapInt64 (g.varIndex + 1) }
  ("v" ++ toString g1.varIndex, g1)

def isBaseType (k : Kind) : Bool :=
  if k ≠ Kind.Slice ∧ k ≠ Kind.Map ∧ k ≠ Kind.Ptr ∧ k ≠ Kind.Struct ∧ k ≠ Kind.Array then true
  else false

def structField.in_ (s : structField τ) : String := InPrefix ++ s.Name

def structField.out (s : structField τ) : String := OutPrefix ++ s.Name

/-! ## Strategy handlers

A handler that always returns gives the text it prints and the generator it leaves. A
handler that may recurse gives the text it prints and the generator it leaves when it
returns, `none` when it does not return within the stack bound. -/

/-- Loop `for i := 0; i < t.NumField(); i++ { g.field(t.Field(i)) }` of `_object`, over
a field emitter `emit`. -/
def fieldsLoop (emit : structField τ → generator τ → String × Option (generator τ)) :
    List (structField τ) → generator τ → String × Option (generator τ)
  | [], g => ("", some g)
  | f :: fs, g =>
    match emit f g with
    | (s1, none) => (s1, none)
    | (s1, some g1) =>
      let r2 := fieldsLoop emit fs g1
      (s1 ++ r2.1, r2.2)

def _struct (R : TypeInfo τ) (f : structField τ) (g : generator τ) : String × generator τ :=
  if R.Kind f.Typ ≠ Kind.Struct then ("", g)
  else if R.PkgPath f.Typ = g.pkgPath then
    (f.out ++ " = " ++ f.in_ ++ ".Copy()\n", addType R f.Typ g)
  else
    (f.out ++ " = " ++ f.in_ ++ "\n", g)

def _ptrStruct (R : TypeInfo τ) (f : structField τ) (g : generator τ) :
    String × generator τ :=
  if R.Kind f.Typ ≠ Kind.Struct then ("", g)
  else
    let v := nextVar g
    if R.PkgPath f.Typ = v.2.pkgPath then
      (v.1 ++ " := " ++ f.in_ ++ ".Copy()\n" ++ f.out ++ " = &" ++ v.1 ++ "\n",
        addType R f.Typ v.2)
    else
      (v.1 ++ " := *" ++ f.in_ ++ "\n" ++ f.out ++ " = &" ++ v.1 ++ "\n", v.2)

def _baseType (R : TypeInfo τ) (f : structField τ) (g : generator τ) :
    String × generator τ :=
  if ¬ isBaseType (R.Kind f.Typ) then ("", g)
  else (f.out ++ " = " ++ f.in_ ++ "\n", g)

def _ptrBaseType (R : TypeInfo τ) (f : structField τ) (g : generator τ) :
    String × generator τ :=
  if ¬ isBaseType (R.Kind f.Typ) then ("", g)
  else
    let v := nextVar g
    (v.1 ++ " := *" ++ f.in_ ++ "\n" ++ f.out ++ " = &" ++ v.1 ++ "\n", v.2)

def _ptr (R : TypeInfo τ) (f : structField τ) (g : generator τ) : String × generator τ :=
  if R.Kind f.Typ ≠ Kind.Ptr then ("", g)
  else
    let e := R.Elem f.Typ
    let sf : structField τ := { Typ := e, Name := f.Name, Tag := [] }
    let s0 := "if " ++ f.in_ ++ " != nil \x7b\n"
    let r1 := if isBaseType (R.Kind e) then _ptrBaseType R sf g else ("", g)
    let r2 := if R.Kind e = Kind.Struct then _ptrStruct R sf r1.2 else ("", r1.2)
    (s0 ++ r1.1 ++ r2.1 ++ "\x7d\n", r2.2)

/-- Handler `_sliceItem`; `recField` is the call `g.field` it makes. -/
def _sliceItem (R : TypeInfo τ)
    (recField : structField τ → generator τ → String × Option (generator τ))
    (f : structField τ) (index : String) (g : generator τ) :
    String × Option (generator τ) :=
  if R.Kind f.Typ ≠ Kind.Slice ∧ R.Kind f.Typ ≠ Kind.Array then ("", some g)
  else
    let e := R.Elem f.Typ
    recField { Typ := e, Name := f.Name ++ "[" ++ index ++ "]", Tag := [] } g

/-- Handler `_slice`; `recField` is the call `g.field` made by `_sliceItem`. -/
def _slice (R : TypeInfo τ)
    (recField : structField τ → generator τ → String × Option (generator τ))
    (f : structField τ) (g : generator τ) : String × Option (generator τ) :=
  if R.Kind f.Typ ≠ Kind.Slice ∧ R.Kind f.Typ ≠ Kind.Array then ("", some g)
  else
    let e0 := R.Elem f.Typ
    let ptr := if R.Kind e0 = Kind.Ptr then "*" else ""
    let e := if R.Kind e0 = Kind.Ptr then R.Elem e0 else e0
    let needEnd := decide (R.Kind f.Typ = Kind.Slice)
    let s1 :=
      if R.Kind f.Typ = Kind.Slice then
        let typ := R.Name e
        let typ := if R.Kind e = Kind.Interface then "interface\x7b\x7d" else typ
        let typ := if R.PkgPath e ≠ g.pkgPath then R.String e else typ
        "if len(" ++ f.out ++ ") > 0 \x7b\n"
          ++ (f.out ++ " = make([]" ++ ptr ++ typ ++ ", len(" ++ f.in_ ++ "))\n")
      else ""
    let lv := nextVar g
    let s2 := "for " ++ lv.1 ++ " := range " ++ f.in_ ++ " \x7b\n"
    match _sliceItem R recField f lv.1 lv.2 with
    | (s3, none) => (s1 ++ s2 ++ s3, none)
    | (s3, some g3) =>
      (s1 ++ s2 ++ s3 ++ "\x7d\n" ++ (if needEnd then "\x7d\n" else ""), some g3)

/-- Dispatcher `field`. The first argument bounds the nesting of `field` calls (through
`_slice` and `_sliceItem`): a call with no stack left prints nothing and does not
return. -/
def field (R : TypeInfo τ) :
    Nat → structField τ → generator τ → String × Option (generator τ)
  | 0, _, _ => ("", none)
  | n + 1, f, g =>
    if (ParseBool (f.Tag.Get "noCopy")).1 then ("", some g)
    else
      let r1 := _baseType R f g
      match _slice R (field R n) f r1.2 with
      | (s2, none) => (r1.1 ++ s2, none)
      | (s2, some g2) =>
        let r3 := _ptr R f g2
        let r4 := _struct R f r3.2
        (r1.1 ++ s2 ++ r3.1 ++ r4.1, some r4.2)

def _object (R : TypeInfo τ) (depth : Nat) (t : τ) (g : generator τ) :
    String × Option (generator τ) :=
  if R.Kind t ≠ Kind.Struct then ("", some g)
  else fieldsLoop (field R depth) (R.Fields t) g

/-! ## Driver -/

/-- Line printed by `Run` before the body of the procedure of `t`. -/
def procHeader (R : TypeInfo τ) (t : τ) : String :=
  "func (in *" ++ R.Name t ++ ") Copy() (out " ++ R.Name t ++ ") \x7b\n"

/-- Loop `for t := g.nextType(); t != nil; t = g.nextType() { ... }` of `Run`: `depth`
bounds the nesting inside `field`, the next argument bounds the number of calls of
`nextType`. -/
def runLoop (R : TypeInfo τ) (O : Runtime τ) (depth : Nat) :
    Nat → generator τ → String × Option (generator τ)
  | 0, _ => ("", none)
  | k + 1, g =>
    match nextType O g with
    | (none, g1) => ("", some g1)
    | (some t, g1) =>
      match _object R depth t g1 with
      | (body, none) => (procHeader R t ++ body, none)
      | (body, some g2) =>
        let r := runLoop R O depth k g2
        (procHeader R t ++ body ++ "return\n" ++ "\x7d\n" ++ r.1, r.2)

/-- What `Run(out)` leaves when it returns: the content of the writer `out`, the returned
error (`none` for nil) and the generator. -/
structure RunResult (τ : Type) where
  out : String
  err : Option String
  g : generator τ
  deriving DecidableEq

/-- Driver `Run(out)`, with `out` the content of the writer passed in; `fuel` bounds both
the nesting inside `field` and the number of calls of `nextType`. The first component is
the text written to standard output. -/
def Run (R : TypeInfo τ) (O : Runtime τ) (fuel : Nat) (out : String) (g : generator τ) :
    String × Option (RunResult τ) :=
  let hdr := printHeader O g
  match runLoop R O fuel fuel g with
  | (s, none) => (hdr ++ s, none)
  | (s, some g1) => (hdr ++ s, some { out := out, err := none, g := g1 })

/-- The types selected by the loop of `Run`, in order, each with the body `_object`
printed for it. -/
def runProcs (R : TypeInfo τ) (O : Runtime τ) (depth : Nat) :
    Nat → generator τ → List (τ × String)
  | 0, _ => []
  | k + 1, g =>
    match nextType O g with
    | (none, _) => []
    | (some t, g1) =>
      match _object R depth t g1 with
      | (body, none) => [(t, body)]
      | (body, some g2) => (t, body) :: runProcs R O depth k g2

/-- Text of one complete iteration of the loop of `Run`. -/
def procText (R : TypeInfo τ) (p : τ × String) : String :=
  procHeader R p.1 ++ p.2 ++ "return\n" ++ "\x7d\n"

/-- Seeding: `Add` called on each value in turn. -/
def AddAll (R : TypeInfo τ) : List (Option τ) → generator τ → Option (generator τ)
  | [], g => some g
  | o :: os, g =>
    match Add R o g with
    | none => none
    | some g1 => AddAll R os g1

/-- Element type of the slice or array type `t` after stripping one pointer, if there is
one: the type `e` that `_slice` names in `make`. -/
def sliceElem (R : TypeInfo τ) (t : τ) : τ :=
  if R.Kind (R.Elem t) = Kind.Ptr then R.Elem (R.Elem t) else R.Elem t

/-- The prefix `ptr` that `_slice` writes before the element type in `make`. -/
def slicePtr (R : TypeInfo τ) (t : τ) : String :=
  if R.Kind (R.Elem t) = Kind.Ptr then "*" else ""

/-! ## Names minted and calls printed

What the handlers do besides printing and changing the queue, recorded as a list of
events in the order of execution: each name obtained from `nextVar`, and each type on
whose value a call `.Copy()` is printed. Every function below follows the control flow of
the handler it is named after and takes the generator states from the handler itself. -/

/-- A name returned by `nextVar`, or the type of the value a printed `.Copy()` is called
on. -/
inductive Event (τ : Type) where
  | mint (name : String)
  | call (callee : τ)
  deriving DecidableEq

/-- Names minted, in order. -/
def minted : List (Event τ) → List String
  | [] => []
  | Event.mint v :: es => v :: minted es
  | Event.call _ :: es => minted es

/-- Types on which `.Copy()` is called, in order. -/
def callees : List (Event τ) → List τ
  | [] => []
  | Event.mint _ :: es => callees es
  | Event.call t :: es => t :: callees es

/-- Events of `_struct`: the call `in.F.Copy()` of its first branch. -/
def structEvents (R : TypeInfo τ) (f : structField τ) (g : generator τ) : List (Event τ) :=
  if R.Kind f.Typ ≠ Kind.Struct then []
  else if R.PkgPath f.Typ = g.pkgPath then [Event.call f.Typ]
  else []

/-- Events of `_ptrStruct`: the temporary, and the call `in.F.Copy()` of its first
branch. -/
def ptrStructEvents (R : TypeInfo τ) (f : structField τ) (g : generator τ) :
    List (Event τ) :=
  if R.Kind f.Typ ≠ Kind.Struct then []
  else
    let v := nextVar g
    if R.PkgPath f.Typ = v.2.pkgPath then [Event.mint v.1, Event.call f.Typ]
    else [Event.mint v.1]

/-- Events of `_ptrBaseType`: the temporary. -/
def ptrBaseTypeEvents (R : TypeInfo τ) (f : structField τ) (g : generator τ) :
    List (Event τ) :=
  if ¬ isBaseType (R.Kind f.Typ) then []
  else [Event.mint (nextVar g).1]

/-- Events of `_ptr`. -/
def ptrEvents (R : TypeInfo τ) (f : structField τ) (g : generator τ) : List (Event τ) :=
  if R.Kind f.Typ ≠ Kind.Ptr then []
  else
    let e := R.Elem f.Typ
    let sf : structField τ := { Typ := e, Name := f.Name, Tag := [] }
    let e1 := if isBaseType (R.Kind e) then ptrBaseTypeEvents R sf g else []
    let r1 := if isBaseType (R.Kind e) then _ptrBaseType R sf g else ("", g)
    let e2 := if R.Kind e = Kind.Struct then ptrStructEvents R sf r1.2 else []
    e1 ++ e2

/-- Events of `_slice`: the loop variable, then the events `recEvents` of the call of
`field` on the element made by `_sliceItem`. -/
def sliceEvents (R : TypeInfo τ)
    (recEvents : structField τ → generator τ → List (Event τ))
    (f : structField τ) (g : generator τ) : List (Event τ) :=
  if R.Kind f.Typ ≠ Kind.Slice ∧ R.Kind f.Typ ≠ Kind.Array then []
  else
    let lv := nextVar g
    Event.mint lv.1
      :: recEvents { Typ := R.Elem f.Typ, Name := f.Name ++ "[" ++ lv.1 ++ "]", Tag := [] } lv.2

/-- Events of `field`, under the stack bound of `field`. -/
def fieldEvents (R : TypeInfo τ) : Nat → structField τ → generator τ → List (Event τ)
  | 0, _, _ => []
  | n + 1, f, g =>
    if (ParseBool (f.Tag.Get "noCopy")).1 then []
    else
      let r1 := _baseType R f g
      let e2 := sliceEvents R (fieldEvents R n) f r1.2
      match (_slice R (field R n) f r1.2).2 with
      | none => e2
      | some g2 =>
        let r3 := _ptr R f g2
        e2 ++ ptrEvents R f g2 ++ structEvents R f r3.2

/-- Events of the loop over the fields in `_object`. -/
def fieldsEvents (emit : structField τ → generator τ → String × Option (generator τ))
    (events : structField τ → generator τ → List (Event τ)) :
    List (structField τ) → generator τ → List (Event τ)
  | [], _ => []
  | f :: fs, g =>
    events f g ++
      match (emit f g).2 with
      | none => []
      | some g1 => fieldsEvents emit events fs g1

/-- Events of `_object`. -/
def objectEvents (R : TypeInfo τ) (depth : Nat) (t : τ) (g : generator τ) :
    List (Event τ) :=
  if R.Kind t ≠ Kind.Struct then []
  else fieldsEvents (field R depth) (fieldEvents R depth) (R.Fields t) g

/-- Events of the loop of `Run`, under the bounds of `runLoop`. -/
def runEvents (R : TypeInfo τ) (O : Runtime τ) (depth : Nat) :
    Nat → generator τ → List (Event τ)
  | 0, _ => []
  | k + 1, g =>
    match nextType O g with
    | (none, _) => []
    | (some t, g1) =>
      objectEvents R depth t g1 ++
        match (_object R depth t g1).2 with
        | none => []
        | some g2 => runEvents R O depth k g2

/-- Counter after `m` calls of `nextVar` from the counter `c`. -/
def bump (c : Int) : Nat → Int
  | 0 => c
  | m + 1 => wrapInt64 (bump c m + 1)

/-- Names returned by `m` successive calls of `nextVar` from the counter `c`. -/
def mintNames (c : Int) (m : Nat) : List String :=
  (List.range m).map (fun k => "v" ++ toString (bump c (k + 1)))

/-! ## The output as a list of print statements

The calls of `fmt.Printf` and `fmt.Println` made by the handlers and by the loop of
`Run`, each with its arguments, in the order in which they are made. The text printed is
the concatenation of their renderings. The two statements whose format contains a call
of `Copy()` also carry the type of the value the call is made on, the procedure header
carries the type it is printed for. -/

/-- One call of `fmt.Printf` or `fmt.Println`, named after its format:
* `assign`: the format `%s = %s` of `_baseType` and of the second branch of `_struct`;
* `copyAssign`: the format `%s = %s.Copy()` of the first branch of `_struct`, a call on a
  value of type `callee`;
* `tmpCopy`: the format `%s := %s.Copy()`, `%s = &%s` of the first branch of
  `_ptrStruct`, a call on a value of type `callee`;
* `tmpDeref`: the format `%s := *%s`, `%s = &%s` of `_ptrBaseType` and of the second
  branch of `_ptrStruct`;
* `ifNotNil`: the test `if %s != nil` of `_ptr`;
* `closing`: a closing brace on its own line;
* `lenGuard`: the test `if len(%s) > 0` and `makeSlice`: the allocation
  `%s = make([]%s%s, len(%s))` of `_slice`;
* `forRange`: the loop header `for %s := range %s` of `_slice`;
* `funcHeader`: the procedure header `func (in *%s) Copy() (out %s)` of `Run`, printed
  for the type `t`;
* `ret`: the line `return` of `Run`. -/
inductive Piece (τ : Type) where
  | assign (dst src : String)
  | copyAssign (dst src : String) (callee : τ)
  | tmpCopy (v src dst : String) (callee : τ)
  | tmpDeref (v src dst : String)
  | ifNotNil (src : String)
  | closing
  | lenGuard (dst : String)
  | makeSlice (dst ptr typ src : String)
  | forRange (lv src : String)
  | funcHeader (t : τ)
  | ret
  deriving DecidableEq

/-- Text printed by one statement. -/
def Piece.render (R : TypeInfo τ) : Piece τ → String
  | Piece.assign dst src => dst ++ " = " ++ src ++ "\n"
  | Piece.copyAssign dst src _ => dst ++ " = " ++ src ++ ".Copy()\n"
  | Piece.tmpCopy v src dst _ =>
    v ++ " := " ++ src ++ ".Copy()\n" ++ dst ++ " = &" ++ v ++ "\n"
  | Piece.tmpDeref v src dst => v ++ " := *" ++ src ++ "\n" ++ dst ++ " = &" ++ v ++ "\n"
  | Piece.ifNotNil src => "if " ++ src ++ " != nil \x7b\n"
  | Piece.closing => "\x7d\n"
  | Piece.lenGuard dst => "if len(" ++ dst ++ ") > 0 \x7b\n"
  | Piece.makeSlice dst ptr typ src =>
    dst ++ " = make([]" ++ ptr ++ typ ++ ", len(" ++ src ++ "))\n"
  | Piece.forRange lv src => "for " ++ lv ++ " := range " ++ src ++ " \x7b\n"
  | Piece.funcHeader t => procHeader R t
  | Piece.ret => "return\n"

/-- Text printed by a list of statements. -/
def renderAll (R : TypeInfo τ) : List (Piece τ) → String
  | [] => ""
  | p :: ps => p.render R ++ renderAll R ps

/-- Types on whose value a statement of the list calls `.Copy()`, in order. -/
def copyCallees : List (Piece τ) → List τ
  | [] => []
  | Piece.copyAssign _ _ t :: ps => t :: copyCallees ps
  | Piece.tmpCopy _ _ _ t :: ps => t :: copyCallees ps
  | _ :: ps => copyCallees ps

/-- Types for which a statement of the list prints the header of a procedure, in
order. -/
def procHeaders : List (Piece τ) → List τ
  | [] => []
  | Piece.funcHeader t :: ps => t :: procHeaders ps
  | _ :: ps => procHeaders ps

/-- Statements printed by `_struct`. -/
def structPieces (R : TypeInfo τ) (f : structField τ) (g : generator τ) : List (Piece τ) :=
  if R.Kind f.Typ ≠ Kind.Struct then []
  else if R.PkgPath f.Typ = g.pkgPath then [Piece.copyAssign f.out f.in_ f.Typ]
  else [Piece.assign f.out f.in_]

/-- Statements printed by `_ptrStruct`. -/
def ptrStructPieces (R : TypeInfo τ) (f : structField τ) (g : generator τ) :
    List (Piece τ) :=
  if R.Kind f.Typ ≠ Kind.Struct then []
  else
    let v := nextVar g
    if R.PkgPath f.Typ = v.2.pkgPath then [Piece.tmpCopy v.1 f.in_ f.out f.Typ]
    else [Piece.tmpDeref v.1 f.in_ f.out]

/-- Statements printed by `_baseType`. -/
def baseTypePieces (R : TypeInfo τ) (f : structField τ) : List (Piece τ) :=
  if ¬ isBaseType (R.Kind f.Typ) then []
  else [Piece.assign f.out f.in_]

/-- Statements printed by `_ptrBaseType`. -/
def ptrBaseTypePieces (R : TypeInfo τ) (f : structField τ) (g : generator τ) :
    List (Piece τ) :=
  if ¬ isBaseType (R.Kind f.Typ) then []
  else [Piece.tmpDeref (nextVar g).1 f.in_ f.out]

/-- Statements printed by `_ptr`. -/
def ptrPieces (R : TypeInfo τ) (f : structField τ) (g : generator τ) : List (Piece τ) :=
  if R.Kind f.Typ ≠ Kind.Ptr then []
  else
    let e := R.Elem f.Typ
    let sf : structField τ := { Typ := e, Name := f.Name, Tag := [] }
    let p1 := if isBaseType (R.Kind e) then ptrBaseTypePieces R sf g else []
    let r1 := if isBaseType (R.Kind e) then _ptrBaseType R sf g else ("", g)
    let p2 := if R.Kind e = Kind.Struct then ptrStructPieces R sf r1.2 else []
    Piece.ifNotNil f.in_ :: (p1 ++ p2 ++ [Piece.closing])

/-- Statements printed by `_slice`: `recPieces` are those of the call of `field` on the
element made by `_sliceItem`, `recField` is that call; the closing braces are printed
when that call returns. -/
def slicePieces (R : TypeInfo τ)
    (recPieces : structField τ → generator τ → List (Piece τ))
    (recField : structField τ → generator τ → String × Option (generator τ))
    (f : structField τ) (g : generator τ) : List (Piece τ) :=
  if R.Kind f.Typ ≠ Kind.Slice ∧ R.Kind f.Typ ≠ Kind.Array then []
  else
    let e0 := R.Elem f.Typ
    let ptr := if R.Kind e0 = Kind.Ptr then "*" else ""
    let e := if R.Kind e0 = Kind.Ptr then R.Elem e0 else e0
    let p1 :=
      if R.Kind f.Typ = Kind.Slice then
        let typ := R.Name e
        let typ := if R.Kind e = Kind.Interface then "interface\x7b\x7d" else typ
        let typ := if R.PkgPath e ≠ g.pkgPath then R.String e else typ
        [Piece.lenGuard f.out, Piece.makeSlice f.out ptr typ f.in_]
      else []
    let lv := nextVar g
    let item : structField τ := { Typ := e0, Name := f.Name ++ "[" ++ lv.1 ++ "]", Tag := [] }
    p1 ++ Piece.forRange lv.1 f.in_ :: recPieces item lv.2 ++
      match (recField item lv.2).2 with
      | none => []
      | some _ => Piece.closing :: (if R.Kind f.Typ = Kind.Slice then [Piece.closing] else [])

/-- Statements printed by `field`, under the stack bound of `field`. -/
def fieldPieces (R : TypeInfo τ) : Nat → structField τ → generator τ → List (Piece τ)
  | 0, _, _ => []
  | n + 1, f, g =>
    if (ParseBool (f.Tag.Get "noCopy")).1 then []
    else
      let r1 := _baseType R f g
      let p2 := slicePieces R (fieldPieces R n) (field R n) f r1.2
      match (_slice R (field R n) f r1.2).2 with
      | none => baseTypePieces R f ++ p2
      | some g2 =>
        let r3 := _ptr R f g2
        baseTypePieces R f ++ p2 ++ ptrPieces R f g2 ++ structPieces R f r3.2

/-- Statements printed by the loop over the fields in `_object`. -/
def fieldsPieces (emit : structField τ → generator τ → String × Option (generator τ))
    (pieces : structField τ → generator τ → List (Piece τ)) :
    List (structField τ) → generator τ → List (Piece τ)
  | [], _ => []
  | f :: fs, g =>
    pieces f g ++
      match (emit f g).2 with
      | none => []
      | some g1 => fieldsPieces emit pieces fs g1

/-- Statements printed by `_object`. -/
def objectPieces (R : TypeInfo τ) (depth : Nat) (t : τ) (g : generator τ) :
    List (Piece τ) :=
  if R.Kind t ≠ Kind.Struct then []
  else fieldsPieces (field R depth) (fieldPieces R depth) (R.Fields t) g

/-- Statements printed by the loop of `Run`, under the bounds of `runLoop`. -/
def runPieces (R : TypeInfo τ) (O : Runtime τ) (depth : Nat) :
    Nat → generator τ → List (Piece τ)
  | 0, _ => []
  | k + 1, g =>
    match nextType O g with
    | (none, _) => []
    | (some t, g1) =>
      Piece.funcHeader t :: objectPieces R depth t g1 ++
        match (_object R depth t g1).2 with
        | none => []
        | some g2 => Piece.ret :: Piece.closing :: runPieces R O depth k g2

/-! ## Reachability of types

The relation the queue is compared with: which types a field makes `field` enqueue, and
which types are reached from the seeds. -/

/-- `Leads R pkg ft T`: a field of type `ft` leads to the struct `T` of package `pkg`:
`ft` is `T` itself, or a pointer to `T`, or a slice or array whose element type leads
to `T`. -/
inductive Leads (R : TypeInfo τ) (pkg : String) : τ → τ → Prop
  | direct (t : τ) : R.Kind t = Kind.Struct → R.PkgPath t = pkg → Leads R pkg t t
  | pointer (t : τ) : R.Kind t = Kind.Ptr → R.Kind (R.Elem t) = Kind.Struct →
      R.PkgPath (R.Elem t) = pkg → Leads R pkg t (R.Elem t)
  | item (t T : τ) : (R.Kind t = Kind.Slice ∨ R.Kind t = Kind.Array) →
      Leads R pkg (R.Elem t) T → Leads R pkg t T

/-- `Refers R pkg S T`: the struct `S` of package `pkg` has a field, not skipped, that
leads to `T`. -/
def Refers (R : TypeInfo τ) (pkg : String) (S T : τ) : Prop :=
  R.Kind S = Kind.Struct ∧ R.PkgPath S = pkg ∧
    ∃ f ∈ R.Fields S, (ParseBool (f.Tag.Get "noCopy")).1 = false ∧ Leads R pkg f.Typ T

/-- Type that `Add` enqueues for a seed of dynamic type `s`. -/
def seedType (R : TypeInfo τ) (s : τ) : τ :=
  if R.Kind s = Kind.Ptr then R.Elem s else s

/-- `Reachable R pkg seeds T`: `T` is the type of a seed of package `pkg`, or is reached
from one through `Refers`. -/
def Reachable (R : TypeInfo τ) (pkg : String) (seeds : List τ) (T : τ) : Prop :=
  ∃ s ∈ seeds, R.PkgPath (seedType R s) = pkg ∧
    Relation.ReflTransGen (Refers R pkg) (seedType R s) T

/-- `LeadsAny R ft T`: a field of type `ft` leads to the struct `T`, of whatever package:
`ft` is `T` itself, or a pointer to `T`, or a slice or array whose element type leads
to `T`. -/
inductive LeadsAny (R : TypeInfo τ) : τ → τ → Prop
  | direct (t : τ) : R.Kind t = Kind.Struct → LeadsAny R t t
  | pointer (t : τ) : R.Kind t = Kind.Ptr → R.Kind (R.Elem t) = Kind.Struct →
      LeadsAny R t (R.Elem t)
  | item (t T : τ) : (R.Kind t = Kind.Slice ∨ R.Kind t = Kind.Array) →
      LeadsAny R (R.Elem t) T → LeadsAny R t T

/-- `RefersAny R S T`: the struct `S`, of whatever package, has a field, not skipped, that
leads to `T`. -/
def RefersAny (R : TypeInfo τ) (S T : τ) : Prop :=
  R.Kind S = Kind.Struct ∧
    ∃ f ∈ R.Fields S, (ParseBool (f.Tag.Get "noCopy")).1 = false ∧ LeadsAny R f.Typ T

/-- `ReachableAny R seeds T`: `T` is the type of a seed or is reached from one through
`RefersAny`, that is through the fields of structs of any package. -/
def ReachableAny (R : TypeInfo τ) (seeds : List τ) (T : τ) : Prop :=
  ∃ s ∈ seeds, Relation.ReflTransGen (RefersAny R) (seedType R s) T

/-- Element nesting is finite: some measure decreases from every slice or array type to
its element type. -/
def FiniteNesting (R : TypeInfo τ) : Prop :=
  ∃ rank : τ → Nat, ∀ t, (R.Kind t = Kind.Slice ∨ R.Kind t = Kind.Array) →
    rank (R.Elem t) < rank t

/-- `Grows g g1 P`: `g1` has the package path of `g`, reads every flag as `g` does, and
its queue has the keys of `g` and, besides, exactly the types satisfying `P`. -/
def Grows (g g1 : generator τ) (P : τ → Prop) : Prop :=
  g1.pkgPath = g.pkgPath ∧ (∀ u, mapGet g1.types u = mapGet g.types u) ∧
    ∀ T, T ∈ keys g1.types ↔ (T ∈ keys g.types ∨ P T)

/-- Number of types whose flag reads pending (absent types included): the measure that
decreases with every selection of `nextType`. -/
def pendingCount [Fintype τ] (m : List (τ × Bool)) : Nat :=
  (Finset.univ.filter (fun t => mapGet m t = false)).card

/-! ## Sample type tables -/

namespace Demo

/-- Types met by package `pkg` below.
```
type A struct { X int; Next *B; Kids []A; E other.Ext; Skip B `noCopy:"true"`; M map[string]int }
type B struct { Ps []*B; A A; Grid [2][]int; Any interface{} }
type C struct { Inner struct { B B } }
type MyInt int
type Shape interface { Area() float64 }
type Canvas struct { Shapes []Shape }
```
`anonB` is the unnamed type `struct { B B }`, `ptrSliceA` the type `*[]A`.
-/
inductive Ty
  | int | A | B | ptrA | ptrB | sliceA | slicePtrB | MyInt | Ext | mapSI | sliceInt
  | arrSliceInt | iface | C | anonB | Shape | sliceShape | Canvas | ptrSliceA
  deriving DecidableEq, Fintype

def info : TypeInfo Ty where
  PkgPath := fun t =>
    match t with
    | Ty.A => "pkg" | Ty.B => "pkg" | Ty.MyInt => "pkg" | Ty.C => "pkg"
    | Ty.Shape => "pkg" | Ty.Canvas => "pkg"
    | Ty.Ext => "other"
    | _ => ""
  Name := fun t =>
    match t with
    | Ty.A => "A" | Ty.B => "B" | Ty.MyInt => "MyInt" | Ty.Ext => "Ext" | Ty.int => "int"
    | Ty.C => "C" | Ty.Shape => "Shape" | Ty.Canvas => "Canvas"
    | _ => ""
  String := fun t =>
    match t with
    | Ty.int => "int" | Ty.A => "pkg.A" | Ty.B => "pkg.B" | Ty.ptrA => "*pkg.A"
    | Ty.ptrB => "*pkg.B" | Ty.sliceA => "[]pkg.A" | Ty.slicePtrB => "[]*pkg.B"
    | Ty.MyInt => "pkg.MyInt" | Ty.Ext => "other.Ext" | Ty.mapSI => "map[string]int"
    | Ty.sliceInt => "[]int" | Ty.arrSliceInt => "[2][]int" | Ty.iface => "interface \x7b\x7d"
    | Ty.C => "pkg.C" | Ty.anonB => "struct \x7b B pkg.B \x7d"
    | Ty.Shape => "pkg.Shape" | Ty.sliceShape => "[]pkg.Shape" | Ty.Canvas => "pkg.Canvas"
    | Ty.ptrSliceA => "*[]pkg.A"
  Kind := fun t =>
    match t with
    | Ty.int => Kind.Int | Ty.MyInt => Kind.Int
    | Ty.A => Kind.Struct | Ty.B => Kind.Struct | Ty.Ext => Kind.Struct
    | Ty.C => Kind.Struct | Ty.anonB => Kind.Struct | Ty.Canvas => Kind.Struct
    | Ty.ptrA => Kind.Ptr | Ty.ptrB => Kind.Ptr | Ty.ptrSliceA => Kind.Ptr
    | Ty.sliceA => Kind.Slice | Ty.slicePtrB => Kind.Slice | Ty.sliceInt => Kind.Slice
    | Ty.sliceShape => Kind.Slice
    | Ty.arrSliceInt => Kind.Array
    | Ty.mapSI => Kind.Map
    | Ty.iface => Kind.Interface | Ty.Shape => Kind.Interface
  Elem := fun t =>
    match t with
    | Ty.ptrA => Ty.A | Ty.ptrB => Ty.B | Ty.sliceA => Ty.A | Ty.slicePtrB => Ty.ptrB
    | Ty.sliceInt => Ty.int | Ty.arrSliceInt => Ty.sliceInt | Ty.mapSI => Ty.int
    | Ty.sliceShape => Ty.Shape | Ty.ptrSliceA => Ty.sliceA
    | t => t
  Fields := fun t =>
    match t with
    | Ty.A =>
      [⟨"X", Ty.int, []⟩, ⟨"Next", Ty.ptrB, []⟩, ⟨"Kids", Ty.sliceA, []⟩, ⟨"E", Ty.Ext, []⟩,
        ⟨"Skip", Ty.B, [("noCopy", "true")]⟩, ⟨"M", Ty.mapSI, []⟩]
    | Ty.B =>
      [⟨"Ps", Ty.slicePtrB, []⟩, ⟨"A", Ty.A, []⟩, ⟨"Grid", Ty.arrSliceInt, []⟩,
        ⟨"Any", Ty.iface, []⟩]
    | Ty.C => [⟨"Inner", Ty.anonB, []⟩]
    | Ty.anonB => [⟨"B", Ty.B, []⟩]
    | Ty.Canvas => [⟨"Shapes", Ty.sliceShape, []⟩]
    | _ => []

/-- Nesting depth of the sample types. -/
def rank : Ty → Nat
  | Ty.sliceA => 1 | Ty.slicePtrB => 1 | Ty.sliceInt => 1 | Ty.arrSliceInt => 2
  | Ty.sliceShape => 1
  | _ => 0

/-- A runtime whose `range` visits a map in insertion order. -/
def runtime : Runtime Ty :=
  { rangeTypes := fun m => m.map Prod.fst
    rangeImports := fun m => m
    quote := fun s => "\"" ++ s ++ "\"" }

/-- A runtime whose `range` visits a map in reverse insertion order. -/
def runtimeRev : Runtime Ty :=
  { rangeTypes := fun m => (m.map Prod.fst).reverse
    rangeImports := fun m => m.reverse
    quote := fun s => "\"" ++ s ++ "\"" }

/-- Fresh generator for package `pkg`. -/
def g0 : generator Ty := SetPkg "pkg" "pkg" NewGenerator

end Demo

namespace Loop

/-- Types of a package with a slice type that is its own element type.
```
type Tree []Tree
type Node struct { Kids Tree }
type Leaf struct {}
type Root struct { Leaf Leaf; Kids Tree; Pair [2]Tree }
```
`arrTree` is the type `[2]Tree`.
-/
inductive Ty
  | Node | Tree | Leaf | Root | arrTree
  deriving DecidableEq, Fintype

def info : TypeInfo Ty where
  PkgPath := fun _ => "pkg"
  Name := fun t =>
    match t with
    | Ty.Node => "Node" | Ty.Tree => "Tree" | Ty.Leaf => "Leaf" | Ty.Root => "Root"
    | Ty.arrTree => ""
  String := fun t =>
    match t with
    | Ty.Node => "pkg.Node" | Ty.Tree => "pkg.Tree" | Ty.Leaf => "pkg.Leaf"
    | Ty.Root => "pkg.Root" | Ty.arrTree => "[2]pkg.Tree"
  Kind := fun t =>
    match t with
    | Ty.Node => Kind.Struct | Ty.Tree => Kind.Slice | Ty.Leaf => Kind.Struct
    | Ty.Root => Kind.Struct | Ty.arrTree => Kind.Array
  Elem := fun _ => Ty.Tree
  Fields := fun t =>
    match t with
    | Ty.Node => [⟨"Kids", Ty.Tree, []⟩]
    | Ty.Root => [⟨"Leaf", Ty.Leaf, []⟩, ⟨"Kids", Ty.Tree, []⟩, ⟨"Pair", Ty.arrTree, []⟩]
    | _ => []

def runtime : Runtime Ty :=
  { rangeTypes := fun m => m.map Prod.fst
    rangeImports := fun m => m
    quote := fun s => "\"" ++ s ++ "\"" }

/-- Generator of package `pkg` seeded with a `Node`. -/
def g0 : generator Ty := addType info Ty.Node (SetPkg "pkg" "pkg" NewGenerator)

end Loop

/-! # Properties -/

set_option linter.unusedSectionVars false

set_option maxRecDepth 4000

/-! ## The queue as a map -/

theorem mapHas_iff_mem_keys (m : List (τ × Bool)) (t : τ) :
    mapHas m t = true ↔ t ∈ keys m := by
  simp [mapHas, keys]

theorem mapGet_nil (t : τ) : mapGet ([] : List (τ × Bool)) t = false := rfl

theorem mapGet_cons (k : τ) (v : Bool) (m : List (τ × Bool)) (t : τ) :
    mapGet ((k, v) :: m) t = if k = t then v else mapGet m t := by
  by_cases h : k = t <;> simp [mapGet, List.find?, h]

theorem mapGet_mapSet_self (m : List (τ × Bool)) (t : τ) (b : Bool) :
    mapGet (mapSet m t b) t = b := by
  induction m with
  | nil => simp [mapSet, mapGet_cons]
  | cons e m ih =>
    obtain ⟨k, v⟩ := e
    by_cases h : k = t <;> simp [mapSet, mapGet_cons, h, ih]

theorem mapGet_mapSet_ne (m : List (τ × Bool)) (t u : τ) (b : Bool) (h : u ≠ t) :
    mapGet (mapSet m t b) u = mapGet m u := by
  induction m with
  | nil =>
    have h1 : ¬ t = u := fun e => h e.symm
    simp [mapSet, mapGet_cons, h1, mapGet_nil]
  | cons e m ih =>
    obtain ⟨k, v⟩ := e
    by_cases hk : k = t
    · have h1 : ¬ t = u := fun e => h e.symm
      simp [mapSet, mapGet_cons, hk, h1]
    · simp [mapSet, mapGet_cons, hk, ih]

theorem keys_mapSet_of_mem (m : List (τ × Bool)) (t : τ) (b : Bool) (h : t ∈ keys m) :
    keys (mapSet m t b) = keys m := by
  induction m with
  | nil => simp [keys] at h
  | cons e m ih =>
    obtain ⟨k, v⟩ := e
    by_cases hk : k = t
    · simp [mapSet, keys, hk]
    · have h2 : t ∈ keys m := by
        simp only [keys, List.map_cons, List.mem_cons] at h
        rcases h with h | h
        · exact absurd h.symm hk
        · exact h
      have := ih h2
      simp only [keys] at this
      simp [mapSet, keys, hk, this]

theorem mapSet_of_not_mem (m : List (τ × Bool)) (t : τ) (b : Bool) (h : t ∉ keys m) :
    mapSet m t b = m ++ [(t, b)] := by
  induction m with
  | nil => rfl
  | cons e m ih =>
    obtain ⟨k, v⟩ := e
    simp only [keys, List.map_cons, List.mem_cons, not_or] at h
    have hk : ¬ k = t := fun e => h.1 e.symm
    have := ih h.2
    simp [mapSet, hk, this]

theorem mapGet_of_not_mem (m : List (τ × Bool)) (t : τ) (h : t ∉ keys m) :
    mapGet m t = false := by
  induction m with
  | nil => rfl
  | cons e m ih =>
    obtain ⟨k, v⟩ := e
    simp only [keys, List.map_cons, List.mem_cons, not_or] at h
    have hk : ¬ k = t := fun e => h.1 e.symm
    simp [mapGet_cons, hk, ih h.2]

theorem mapGet_append_new (m : List (τ × Bool)) (t u : τ) (h : t ∉ keys m) :
    mapGet (m ++ [(t, false)]) u = mapGet m u := by
  induction m with
  | nil =>
    by_cases htu : t = u <;> simp [mapGet_cons, mapGet_nil, htu]
  | cons e m ih =>
    obtain ⟨k, v⟩ := e
    simp only [keys, List.map_cons, List.mem_cons, not_or] at h
    by_cases hk : k = u
    · simp [mapGet_cons, hk]
    · simp [mapGet_cons, hk, ih h.2]

/-! ## `addType` -/

theorem addType_of_ne (R : TypeInfo τ) (t : τ) (g : generator τ)
    (h : g.pkgPath ≠ R.PkgPath t) : addType R t g = g := by
  simp [addType, h]

theorem addType_of_mem (R : TypeInfo τ) (t : τ) (g : generator τ)
    (h : t ∈ keys g.types) : addType R t g = g := by
  have := (mapHas_iff_mem_keys g.types t).2 h
  simp [addType, this]

theorem addType_of_new (R : TypeInfo τ) (t : τ) (g : generator τ)
    (h1 : g.pkgPath = R.PkgPath t) (h2 : t ∉ keys g.types) :
    addType R t g = { g with types := g.types ++ [(t, false)] } := by
  have h3 : mapHas g.types t = false := by
    cases hh : mapHas g.types t
    · rfl
    · exact absurd ((mapHas_iff_mem_keys g.types t).1 hh) h2
  simp [addType, h1, h3, mapSet_of_not_mem g.types t false h2]

theorem addType_pkgPath (R : TypeInfo τ) (t : τ) (g : generator τ) :
    (addType R t g).pkgPath = g.pkgPath := by
  unfold addType
  split
  · rfl
  · split <;> rfl

theorem addType_varIndex (R : TypeInfo τ) (t : τ) (g : generator τ) :
    (addType R t g).varIndex = g.varIndex := by
  unfold addType
  split
  · rfl
  · split <;> rfl

theorem addType_mapGet (R : TypeInfo τ) (t u : τ) (g : generator τ) :
    mapGet (addType R t g).types u = mapGet g.types u := by
  by_cases h1 : g.pkgPath = R.PkgPath t
  · by_cases h2 : t ∈ keys g.types
    · rw [addType_of_mem R t g h2]
    · rw [addType_of_new R t g h1 h2]
      exact mapGet_append_new g.types t u h2
  · rw [addType_of_ne R t g h1]

theorem mem_keys_addType (R : TypeInfo τ) (t u : τ) (g : generator τ) :
    u ∈ keys (addType R t g).types ↔
      u ∈ keys g.types ∨ (u = t ∧ R.PkgPath t = g.pkgPath) := by
  by_cases h1 : g.pkgPath = R.PkgPath t
  · by_cases h2 : t ∈ keys g.types
    · rw [addType_of_mem R t g h2]
      constructor
      · exact fun h => Or.inl h
      · rintro (h | ⟨rfl, _⟩)
        · exact h
        · exact h2
    · rw [addType_of_new R t g h1 h2]
      simp [keys, h1]
  · rw [addType_of_ne R t g h1]
    constructor
    · exact fun h => Or.inl h
    · rintro (h | ⟨_, h⟩)
      · exact h
      · exact absurd h.symm h1

/-- C4: `addType t` leaves the generator unchanged when the package path of `t` differs
from the target package path or when `t` is already a key of the queue (so its flag is
kept); otherwise it appends `t` with the flag pending, every other entry and every other
member of the generator staying as they were; and calling it twice with the same `t`
is the same as calling it once. -/
theorem addType_spec (R : TypeInfo τ) (t : τ) (g : generator τ) :
    ((g.pkgPath ≠ R.PkgPath t ∨ t ∈ keys g.types) → addType R t g = g) ∧
    ((g.pkgPath = R.PkgPath t ∧ t ∉ keys g.types) →
      addType R t g = { g with types := g.types ++ [(t, false)] } ∧
      mapHas (addType R t g).types t = true ∧
      mapGet (addType R t g).types t = false ∧
      ∀ u, u ≠ t → (mapHas (addType R t g).types u = mapHas g.types u ∧
        mapGet (addType R t g).types u = mapGet g.types u)) ∧
    (∀ u, mapGet g.types u = true → mapGet (addType R t g).types u = true) ∧
    addType R t (addType R t g) = addType R t g := by
  refine ⟨?_, ?_, ?_, ?_⟩
  · rintro (h | h)
    · exact addType_of_ne R t g h
    · exact addType_of_mem R t g h
  · rintro ⟨h1, h2⟩
    refine ⟨addType_of_new R t g h1 h2, ?_, ?_, ?_⟩
    · rw [mapHas_iff_mem_keys, mem_keys_addType]
      exact Or.inr ⟨rfl, h1.symm⟩
    · rw [addType_mapGet]
      exact mapGet_of_not_mem g.types t h2
    · intro u hu
      refine ⟨?_, addType_mapGet R t u g⟩
      rw [Bool.eq_iff_iff, mapHas_iff_mem_keys, mapHas_iff_mem_keys, mem_keys_addType]
      constructor
      · rintro (h | ⟨h, _⟩)
        · exact h
        · exact absurd h hu
      · exact fun h => Or.inl h
  · intro u hu
    rw [addType_mapGet]
    exact hu
  · by_cases h1 : g.pkgPath = R.PkgPath t
    · apply addType_of_mem
      rw [mem_keys_addType]
      by_cases h2 : t ∈ keys g.types
      · exact Or.inl h2
      · exact Or.inr ⟨rfl, h1.symm⟩
    · rw [addType_of_ne R t g h1, addType_of_ne R t g h1]

/-! ## `nextType` -/

theorem Demo.runtime_valid : Demo.runtime.Valid :=
  ⟨fun _ => List.Perm.refl _, fun _ => List.Perm.refl _⟩

theorem Demo.runtimeRev_valid : Demo.runtimeRev.Valid :=
  ⟨fun _ => List.reverse_perm _, fun _ => List.reverse_perm _⟩

theorem mem_rangeTypes (O : Runtime τ) (hO : O.Valid) (m : List (τ × Bool)) (t : τ) :
    t ∈ O.rangeTypes m ↔ t ∈ keys m :=
  (hO.1 m).mem_iff

theorem nextType_none_iff (O : Runtime τ) (hO : O.Valid) (g : generator τ) :
    (nextType O g).1 = none ↔ ∀ t ∈ keys g.types, mapGet g.types t = true := by
  unfold nextType
  cases h : (O.rangeTypes g.types).find? (fun t => mapGet g.types t == false) with
  | none =>
    simp only [true_iff]
    intro t ht
    have := List.find?_eq_none.1 h t ((mem_rangeTypes O hO g.types t).2 ht)
    simpa using this
  | some t =>
    simp only [reduceCtorEq, false_iff]
    intro hall
    have h1 := List.find?_some h
    have h2 := List.mem_of_find?_eq_some h
    have h3 := hall t ((mem_rangeTypes O hO g.types t).1 h2)
    simp [h3] at h1

theorem nextType_none (O : Runtime τ) (g : generator τ) (h : (nextType O g).1 = none) :
    (nextType O g).2 = g := by
  unfold nextType at h ⊢
  cases h1 : (O.rangeTypes g.types).find? (fun t => mapGet g.types t == false) with
  | none => rfl
  | some t =>
    rw [h1] at h
    simp at h

theorem nextType_some (O : Runtime τ) (hO : O.Valid) (g : generator τ) (t : τ)
    (h : (nextType O g).1 = some t) :
    t ∈ keys g.types ∧ mapGet g.types t = false ∧
      (nextType O g).2 = { g with types := mapSet g.types t true } := by
  unfold nextType at h ⊢
  cases h1 : (O.rangeTypes g.types).find? (fun t => mapGet g.types t == false) with
  | none =>
    rw [h1] at h
    simp at h
  | some u =>
    rw [h1] at h
    simp only [Option.some.injEq] at h
    subst h
    refine ⟨(mem_rangeTypes O hO g.types u).1 (List.mem_of_find?_eq_some h1), ?_, rfl⟩
    simpa using List.find?_some h1

/-- C5: with a `range` that visits exactly the keys of the queue, `nextType` returns nil
exactly when every entry is marked selected, and then leaves the generator as it was;
otherwise the type it returns was a pending entry, is marked selected afterwards, and
the keys of the queue and the flag of every other entry are unchanged. -/
theorem nextType_spec (O : Runtime τ) (hO : O.Valid) (g : generator τ) :
    ((nextType O g).1 = none ↔ ∀ t ∈ keys g.types, mapGet g.types t = true) ∧
    ((nextType O g).1 = none → (nextType O g).2 = g) ∧
    ∀ t, (nextType O g).1 = some t →
      t ∈ keys g.types ∧ mapGet g.types t = false ∧
      (nextType O g).2 = { g with types := mapSet g.types t true } ∧
      mapGet (nextType O g).2.types t = true ∧
      keys (nextType O g).2.types = keys g.types ∧
      ∀ u, u ≠ t → mapGet (nextType O g).2.types u = mapGet g.types u := by
  refine ⟨nextType_none_iff O hO g, nextType_none O g, ?_⟩
  intro t ht
  obtain ⟨h1, h2, h3⟩ := nextType_some O hO g t ht
  refine ⟨h1, h2, h3, ?_, ?_, ?_⟩
  · rw [h3]
    exact mapGet_mapSet_self g.types t true
  · rw [h3]
    exact keys_mapSet_of_mem g.types t true h1
  · intro u hu
    rw [h3]
    exact mapGet_mapSet_ne g.types t u true hu

/-- Witness of `nextType_spec`: a queue with `A` selected and `B` pending, visited in
reverse insertion order. -/
theorem nextType_spec_witness :
    Demo.runtimeRev.Valid ∧
    (nextType Demo.runtimeRev
        { Demo.g0 with types := [(Demo.Ty.A, true), (Demo.Ty.B, false)] }).1
      = some Demo.Ty.B ∧
    mapGet (nextType Demo.runtimeRev
        { Demo.g0 with types := [(Demo.Ty.A, true), (Demo.Ty.B, false)] }).2.types
      Demo.Ty.B = true :=
  ⟨Demo.runtimeRev_valid, by decide,
    ((nextType_spec Demo.runtimeRev Demo.runtimeRev_valid
      { Demo.g0 with types := [(Demo.Ty.A, true), (Demo.Ty.B, false)] }).2.2
        Demo.Ty.B (by decide)).2.2.2.1⟩

/-! ## Handlers, by the kind of the field -/

theorem string_ne_empty_of_length_pos (s : String) (h : 0 < s.length) : s ≠ "" := by
  intro e
  rw [e] at h
  exact absurd h (by decide)

theorem isBaseType_eq_true_iff (k : Kind) :
    isBaseType k = true ↔
      (k ≠ Kind.Slice ∧ k ≠ Kind.Map ∧ k ≠ Kind.Ptr ∧ k ≠ Kind.Struct ∧ k ≠ Kind.Array) := by
  cases k <;> simp [isBaseType]

theorem kind_cases (k : Kind) :
    isBaseType k = true ∨ k = Kind.Slice ∨ k = Kind.Array ∨ k = Kind.Ptr ∨ k = Kind.Struct
      ∨ k = Kind.Map := by
  cases k <;> simp [isBaseType]

theorem baseType_of_base (R : TypeInfo τ) (f : structField τ) (g : generator τ)
    (h : isBaseType (R.Kind f.Typ) = true) :
    _baseType R f g = (f.out ++ " = " ++ f.in_ ++ "\n", g) := by
  simp [_baseType, h]

theorem baseType_of_not (R : TypeInfo τ) (f : structField τ) (g : generator τ)
    (h : isBaseType (R.Kind f.Typ) = false) : _baseType R f g = ("", g) := by
  simp [_baseType, h]

theorem slice_of_not (R : TypeInfo τ)
    (rec : structField τ → generator τ → String × Option (generator τ))
    (f : structField τ) (g : generator τ)
    (h1 : R.Kind f.Typ ≠ Kind.Slice) (h2 : R.Kind f.Typ ≠ Kind.Array) :
    _slice R rec f g = ("", some g) := by
  simp [_slice, h1, h2]

theorem ptr_of_not (R : TypeInfo τ) (f : structField τ) (g : generator τ)
    (h : R.Kind f.Typ ≠ Kind.Ptr) : _ptr R f g = ("", g) := by
  simp [_ptr, h]

theorem struct_of_not (R : TypeInfo τ) (f : structField τ) (g : generator τ)
    (h : R.Kind f.Typ ≠ Kind.Struct) : _struct R f g = ("", g) := by
  simp [_struct, h]

theorem field_succ (R : TypeInfo τ) (n : Nat) (f : structField τ) (g : generator τ) :
    field R (n + 1) f g =
      if (ParseBool (f.Tag.Get "noCopy")).1 then ("", some g)
      else
        match _slice R (field R n) f (_baseType R f g).2 with
        | (s2, none) => ((_baseType R f g).1 ++ s2, none)
        | (s2, some g2) =>
          ((_baseType R f g).1 ++ s2 ++ (_ptr R f g2).1 ++ (_struct R f (_ptr R f g2).2).1,
            some (_struct R f (_ptr R f g2).2).2) := by
  rfl

theorem field_of_base (R : TypeInfo τ) (n : Nat) (f : structField τ) (g : generator τ)
    (hs : (ParseBool (f.Tag.Get "noCopy")).1 = false)
    (h : isBaseType (R.Kind f.Typ) = true) :
    field R (n + 1) f g = (f.out ++ " = " ++ f.in_ ++ "\n", some g) := by
  obtain ⟨h1, h2, h3, h4, h5⟩ := (isBaseType_eq_true_iff _).1 h
  rw [field_succ]
  simp [hs, baseType_of_base R f g h, slice_of_not R _ f g h1 h5, ptr_of_not R f g h3,
    struct_of_not R f g h4]

theorem field_of_slice (R : TypeInfo τ) (n : Nat) (f : structField τ) (g : generator τ)
    (hs : (ParseBool (f.Tag.Get "noCopy")).1 = false)
    (h : R.Kind f.Typ = Kind.Slice ∨ R.Kind f.Typ = Kind.Array) :
    field R (n + 1) f g = _slice R (field R n) f g := by
  have hb : isBaseType (R.Kind f.Typ) = false := by
    rcases h with h | h <;> simp [isBaseType, h]
  have hp : R.Kind f.Typ ≠ Kind.Ptr := by
    rcases h with h | h <;> simp [h]
  have hst : R.Kind f.Typ ≠ Kind.Struct := by
    rcases h with h | h <;> simp [h]
  rw [field_succ]
  simp only [hs, baseType_of_not R f g hb, Bool.false_eq_true, if_false]
  rcases hr : _slice R (field R n) f g with ⟨s2, _ | g2⟩
  · simp
  · simp [ptr_of_not R f g2 hp, struct_of_not R f g2 hst]

theorem field_of_ptr (R : TypeInfo τ) (n : Nat) (f : structField τ) (g : generator τ)
    (hs : (ParseBool (f.Tag.Get "noCopy")).1 = false) (h : R.Kind f.Typ = Kind.Ptr) :
    field R (n + 1) f g = ((_ptr R f g).1, some (_ptr R f g).2) := by
  have hb : isBaseType (R.Kind f.Typ) = false := by simp [isBaseType, h]
  rw [field_succ]
  simp [hs, baseType_of_not R f g hb, slice_of_not R _ f g (by simp [h]) (by simp [h]),
    struct_of_not R f _ (by simp [h] : R.Kind f.Typ ≠ Kind.Struct)]

theorem field_of_struct (R : TypeInfo τ) (n : Nat) (f : structField τ) (g : generator τ)
    (hs : (ParseBool (f.Tag.Get "noCopy")).1 = false) (h : R.Kind f.Typ = Kind.Struct) :
    field R (n + 1) f g = ((_struct R f g).1, some (_struct R f g).2) := by
  have hb : isBaseType (R.Kind f.Typ) = false := by simp [isBaseType, h]
  rw [field_succ]
  simp [hs, baseType_of_not R f g hb, slice_of_not R _ f g (by simp [h]) (by simp [h]),
    ptr_of_not R f g (by simp [h] : R.Kind f.Typ ≠ Kind.Ptr)]

theorem field_of_map (R : TypeInfo τ) (n : Nat) (f : structField τ) (g : generator τ)
    (hs : (ParseBool (f.Tag.Get "noCopy")).1 = false) (h : R.Kind f.Typ = Kind.Map) :
    field R (n + 1) f g = ("", some g) := by
  have hb : isBaseType (R.Kind f.Typ) = false := by simp [isBaseType, h]
  rw [field_succ]
  simp [hs, baseType_of_not R f g hb, slice_of_not R _ f g (by simp [h]) (by simp [h]),
    ptr_of_not R f g (by simp [h] : R.Kind f.Typ ≠ Kind.Ptr),
    struct_of_not R f g (by simp [h] : R.Kind f.Typ ≠ Kind.Struct)]

theorem slice_text_ne_empty (R : TypeInfo τ)
    (rec : structField τ → generator τ → String × Option (generator τ))
    (f : structField τ) (g : generator τ)
    (h : R.Kind f.Typ = Kind.Slice ∨ R.Kind f.Typ = Kind.Array) :
    (_slice R rec f g).1 ≠ "" := by
  apply string_ne_empty_of_length_pos
  have hk : ¬ (R.Kind f.Typ ≠ Kind.Slice ∧ R.Kind f.Typ ≠ Kind.Array) := by
    rcases h with h | h <;> simp [h]
  unfold _slice
  rw [if_neg hk]
  simp only
  rcases _sliceItem R rec f (nextVar g).1 (nextVar g).2 with ⟨s3, _ | g3⟩
  · simp only [String.length_append]
    have : 0 < (" \x7b\n" : String).length := by decide
    omega
  · simp only [String.length_append]
    have : 0 < (" \x7b\n" : String).length := by decide
    omega

theorem ptr_text_ne_empty (R : TypeInfo τ) (f : structField τ) (g : generator τ)
    (h : R.Kind f.Typ = Kind.Ptr) : (_ptr R f g).1 ≠ "" := by
  apply string_ne_empty_of_length_pos
  simp only [_ptr, h, ne_eq, not_true_eq_false, if_false, String.length_append]
  have : 0 < ("\x7d\n" : String).length := by decide
  omega

theorem struct_text_ne_empty (R : TypeInfo τ) (f : structField τ) (g : generator τ)
    (h : R.Kind f.Typ = Kind.Struct) : (_struct R f g).1 ≠ "" := by
  apply string_ne_empty_of_length_pos
  have h1 : 0 < ("\n" : String).length := by decide
  have h2 : 0 < (".Copy()\n" : String).length := by decide
  simp only [_struct, h, ne_eq, not_true_eq_false, if_false]
  split <;> simp only [String.length_append] <;> omega

theorem baseType_text_ne_empty (R : TypeInfo τ) (f : structField τ) (g : generator τ)
    (h : isBaseType (R.Kind f.Typ) = true) : (_baseType R f g).1 ≠ "" := by
  apply string_ne_empty_of_length_pos
  have h1 : 0 < ("\n" : String).length := by decide
  rw [baseType_of_base R f g h]
  simp only [String.length_append]
  omega

/-! ## The dispatcher `field` -/

theorem field_of_skipped (R : TypeInfo τ) (n : Nat) (f : structField τ) (g : generator τ)
    (h : (ParseBool (f.Tag.Get "noCopy")).1 = true) :
    field R (n + 1) f g = ("", some g) := by
  rw [field_succ]
  simp [h]

/-- C7: a field whose `noCopy` tag parses to true, whatever its kind, makes `field` print
nothing and return with the generator unchanged (queue and counter of temporaries
included), at every stack bound that admits the call. -/
theorem field_noCopy (R : TypeInfo τ) (n : Nat) (f : structField τ) (g : generator τ)
    (h : (ParseBool (f.Tag.Get "noCopy")).1 = true) :
    field R (n + 1) f g = ("", some g) :=
  field_of_skipped R n f g h

/-- Witness of `field_noCopy`: the field `Skip B` tagged `noCopy:"true"` of the sample
struct `A`, an in-unit struct that would otherwise be enqueued. -/
theorem field_noCopy_witness :
    (ParseBool (StructTag.Get [("noCopy", "true")] "noCopy")).1 = true ∧
    field Demo.info 1 ⟨"Skip", Demo.Ty.B, [("noCopy", "true")]⟩ Demo.g0 = ("", some Demo.g0) ∧
    (field Demo.info 1 ⟨"Skip", Demo.Ty.B, []⟩ Demo.g0).1 = "out.Skip = in.Skip.Copy()\n" :=
  ⟨by decide,
    field_noCopy Demo.info 0 ⟨"Skip", Demo.Ty.B, [("noCopy", "true")]⟩ Demo.g0 (by decide),
    by decide⟩

theorem parseBool_error_value (s : String) (h : (ParseBool s).2 ≠ none) :
    (ParseBool s).1 = false := by
  unfold ParseBool at h ⊢
  split
  · rename_i h1
    simp [h1] at h
  · split <;> rfl

theorem get_of_absent (tag : StructTag) (key : String) (h : ∀ e ∈ tag, e.1 ≠ key) :
    StructTag.Get tag key = "" := by
  unfold StructTag.Get
  have : tag.find? (fun e => decide (e.1 = key)) = none := by
    apply List.find?_eq_none.2
    intro e he
    simpa using h e he
  rw [this]

theorem field_congr (R : TypeInfo τ) (n : Nat) (f f1 : structField τ) (g : generator τ)
    (hn : f1.Name = f.Name) (ht : f1.Typ = f.Typ)
    (hs : (ParseBool (f1.Tag.Get "noCopy")).1 = (ParseBool (f.Tag.Get "noCopy")).1) :
    field R n f1 g = field R n f g := by
  cases n with
  | zero => rfl
  | succ n =>
    rw [field_succ, field_succ, hs]
    simp only [_baseType, _slice, _sliceItem, _ptr, _struct, structField.in_, structField.out,
      hn, ht]

/-- C8: a field whose `noCopy` tag value `strconv.ParseBool` rejects is treated by `field`
exactly as the field of the same name and type that carries no `noCopy` tag: same text,
same resulting generator, at every stack bound. -/
theorem field_unparseable (R : TypeInfo τ) (n : Nat) (f f1 : structField τ) (g : generator τ)
    (herr : (ParseBool (f.Tag.Get "noCopy")).2 ≠ none)
    (hn : f1.Name = f.Name) (ht : f1.Typ = f.Typ) (hno : ∀ e ∈ f1.Tag, e.1 ≠ "noCopy") :
    field R n f g = field R n f1 g := by
  symm
  apply field_congr R n f f1 g hn ht
  rw [parseBool_error_value _ herr, get_of_absent f1.Tag "noCopy" hno]
  decide

/-- Witness of `field_unparseable`: the field `Next *B` tagged `noCopy:"maybe"` against
the untagged one. -/
theorem field_unparseable_witness :
    (ParseBool (StructTag.Get [("noCopy", "maybe")] "noCopy")).2 ≠ none ∧
    field Demo.info 1 ⟨"Next", Demo.Ty.ptrB, [("noCopy", "maybe")]⟩ Demo.g0
      = field Demo.info 1 ⟨"Next", Demo.Ty.ptrB, []⟩ Demo.g0 ∧
    (field Demo.info 1 ⟨"Next", Demo.Ty.ptrB, []⟩ Demo.g0).1
      = "if in.Next != nil \x7b\nv1 := in.Next.Copy()\nout.Next = &v1\n\x7d\n" :=
  ⟨by decide,
    field_unparseable Demo.info 1 ⟨"Next", Demo.Ty.ptrB, [("noCopy", "maybe")]⟩
      ⟨"Next", Demo.Ty.ptrB, []⟩ Demo.g0 (by decide) rfl rfl (by simp),
    by decide⟩

/-- C9: for a field that is not skipped the guards of `_baseType`, `_slice`, `_ptr` and
`_struct` split the kinds: every kind is a base kind, slice, array, pointer, struct or
map; for each kind but map exactly one handler prints text, the other three print
nothing and leave the generator as it is, and `field` prints the text of that handler;
for a map none of the four prints and `field` prints nothing and leaves the generator
unchanged; interface, function and channel fields get the plain assignment
`out.F = in.F`. -/
theorem handlers_exclusive (R : TypeInfo τ) (n : Nat) (f : structField τ) (g : generator τ)
    (hs : (ParseBool (f.Tag.Get "noCopy")).1 = false) :
    (isBaseType (R.Kind f.Typ) = true ∨ R.Kind f.Typ = Kind.Slice ∨ R.Kind f.Typ = Kind.Array
      ∨ R.Kind f.Typ = Kind.Ptr ∨ R.Kind f.Typ = Kind.Struct ∨ R.Kind f.Typ = Kind.Map) ∧
    (isBaseType (R.Kind f.Typ) = true →
      (_baseType R f g).1 ≠ "" ∧ _slice R (field R n) f g = ("", some g) ∧
      _ptr R f g = ("", g) ∧ _struct R f g = ("", g) ∧
      field R (n + 1) f g = ((_baseType R f g).1, some (_baseType R f g).2)) ∧
    ((R.Kind f.Typ = Kind.Slice ∨ R.Kind f.Typ = Kind.Array) →
      _baseType R f g = ("", g) ∧ (_slice R (field R n) f g).1 ≠ "" ∧
      _ptr R f g = ("", g) ∧ _struct R f g = ("", g) ∧
      field R (n + 1) f g = _slice R (field R n) f g) ∧
    (R.Kind f.Typ = Kind.Ptr →
      _baseType R f g = ("", g) ∧ _slice R (field R n) f g = ("", some g) ∧
      (_ptr R f g).1 ≠ "" ∧ _struct R f g = ("", g) ∧
      field R (n + 1) f g = ((_ptr R f g).1, some (_ptr R f g).2)) ∧
    (R.Kind f.Typ = Kind.Struct →
      _baseType R f g = ("", g) ∧ _slice R (field R n) f g = ("", some g) ∧
      _ptr R f g = ("", g) ∧ (_struct R f g).1 ≠ "" ∧
      field R (n + 1) f g = ((_struct R f g).1, some (_struct R f g).2)) ∧
    (R.Kind f.Typ = Kind.Map →
      _baseType R f g = ("", g) ∧ _slice R (field R n) f g = ("", some g) ∧
      _ptr R f g = ("", g) ∧ _struct R f g = ("", g) ∧
      field R (n + 1) f g = ("", some g)) ∧
    ((R.Kind f.Typ = Kind.Interface ∨ R.Kind f.Typ = Kind.Func ∨ R.Kind f.Typ = Kind.Chan) →
      field R (n + 1) f g = (f.out ++ " = " ++ f.in_ ++ "\n", some g)) := by
  refine ⟨kind_cases _, ?_, ?_, ?_, ?_, ?_, ?_⟩
  · intro h
    obtain ⟨h1, h2, h3, h4, h5⟩ := (isBaseType_eq_true_iff _).1 h
    refine ⟨baseType_text_ne_empty R f g h, slice_of_not R _ f g h1 h5, ptr_of_not R f g h3,
      struct_of_not R f g h4, ?_⟩
    rw [field_of_base R n f g hs h, baseType_of_base R f g h]
  · intro h
    have hb : isBaseType (R.Kind f.Typ) = false := by
      rcases h with h | h <;> simp [isBaseType, h]
    refine ⟨baseType_of_not R f g hb, slice_text_ne_empty R _ f g h,
      ptr_of_not R f g (by rcases h with h | h <;> simp [h]),
      struct_of_not R f g (by rcases h with h | h <;> simp [h]), field_of_slice R n f g hs h⟩
  · intro h
    exact ⟨baseType_of_not R f g (by simp [isBaseType, h]),
      slice_of_not R _ f g (by simp [h]) (by simp [h]), ptr_text_ne_empty R f g h,
      struct_of_not R f g (by simp [h]), field_of_ptr R n f g hs h⟩
  · intro h
    exact ⟨baseType_of_not R f g (by simp [isBaseType, h]),
      slice_of_not R _ f g (by simp [h]) (by simp [h]), ptr_of_not R f g (by simp [h]),
      struct_text_ne_empty R f g h, field_of_struct R n f g hs h⟩
  · intro h
    exact ⟨baseType_of_not R f g (by simp [isBaseType, h]),
      slice_of_not R _ f g (by simp [h]) (by simp [h]), ptr_of_not R f g (by simp [h]),
      struct_of_not R f g (by simp [h]), field_of_map R n f g hs h⟩
  · intro h
    apply field_of_base R n f g hs
    rcases h with h | h | h <;> simp [isBaseType, h]

/-- Witness of `handlers_exclusive`: the interface field `Any` and the map field `M` of
the sample structs. -/
theorem handlers_exclusive_witness :
    (ParseBool (StructTag.Get [] "noCopy")).1 = false ∧
    field Demo.info 1 ⟨"Any", Demo.Ty.iface, []⟩ Demo.g0
      = ("out.Any = in.Any\n", some Demo.g0) ∧
    field Demo.info 1 ⟨"M", Demo.Ty.mapSI, []⟩ Demo.g0 = ("", some Demo.g0) :=
  ⟨by decide,
    (handlers_exclusive Demo.info 0 ⟨"Any", Demo.Ty.iface, []⟩ Demo.g0 (by decide)).2.2.2.2.2.2
      (Or.inl rfl),
    by decide⟩

/-! ## Struct fields and pointers to structs -/

theorem nextVar_types (g : generator τ) : (nextVar g).2.types = g.types := rfl

theorem nextVar_pkgPath (g : generator τ) : (nextVar g).2.pkgPath = g.pkgPath := rfl

theorem ptr_of_struct_elem (R : TypeInfo τ) (f : structField τ) (g : generator τ)
    (h : R.Kind f.Typ = Kind.Ptr) (he : R.Kind (R.Elem f.Typ) = Kind.Struct) :
    _ptr R f g =
      ("if " ++ f.in_ ++ " != nil \x7b\n"
          ++ (_ptrStruct R { Typ := R.Elem f.Typ, Name := f.Name, Tag := [] } g).1 ++ "\x7d\n",
        (_ptrStruct R { Typ := R.Elem f.Typ, Name := f.Name, Tag := [] } g).2) := by
  simp [_ptr, h, he, isBaseType]

/-- C10: for a field that is not skipped and whose type is a struct `S`, or a pointer to a
struct `S`: when the package path of `S` is the target package path the statement calls
`Copy()` of `S` and `S` is a key of the queue afterwards (`addType`); when it is not, the
statement is the plain value copy `out.F = in.F`, respectively `v := *in.F` then
`out.F = &v`, and the queue is unchanged. -/
theorem struct_delegation (R : TypeInfo τ) (n : Nat) (f : structField τ) (g : generator τ)
    (hs : (ParseBool (f.Tag.Get "noCopy")).1 = false) :
    (R.Kind f.Typ = Kind.Struct →
      (R.PkgPath f.Typ = g.pkgPath →
        field R (n + 1) f g
          = (f.out ++ " = " ++ f.in_ ++ ".Copy()\n", some (addType R f.Typ g)) ∧
        f.Typ ∈ keys (addType R f.Typ g).types) ∧
      (R.PkgPath f.Typ ≠ g.pkgPath →
        field R (n + 1) f g = (f.out ++ " = " ++ f.in_ ++ "\n", some g))) ∧
    (R.Kind f.Typ = Kind.Ptr → R.Kind (R.Elem f.Typ) = Kind.Struct →
      (R.PkgPath (R.Elem f.Typ) = g.pkgPath →
        field R (n + 1) f g
          = ("if " ++ f.in_ ++ " != nil \x7b\n"
              ++ ((nextVar g).1 ++ " := " ++ f.in_ ++ ".Copy()\n"
                ++ f.out ++ " = &" ++ (nextVar g).1 ++ "\n")
              ++ "\x7d\n",
            some (addType R (R.Elem f.Typ) (nextVar g).2)) ∧
        R.Elem f.Typ ∈ keys (addType R (R.Elem f.Typ) (nextVar g).2).types) ∧
      (R.PkgPath (R.Elem f.Typ) ≠ g.pkgPath →
        field R (n + 1) f g
          = ("if " ++ f.in_ ++ " != nil \x7b\n"
              ++ ((nextVar g).1 ++ " := *" ++ f.in_ ++ "\n"
                ++ f.out ++ " = &" ++ (nextVar g).1 ++ "\n")
              ++ "\x7d\n",
            some (nextVar g).2) ∧
        (nextVar g).2.types = g.types)) := by
  constructor
  · intro hk
    constructor
    · intro hp
      refine ⟨?_, ?_⟩
      · rw [field_of_struct R n f g hs hk]
        simp [_struct, hk, hp]
      · rw [mem_keys_addType]
        exact Or.inr ⟨rfl, hp⟩
    · intro hp
      rw [field_of_struct R n f g hs hk]
      simp [_struct, hk, hp]
  · intro hk he
    constructor
    · intro hp
      refine ⟨?_, ?_⟩
      · rw [field_of_ptr R n f g hs hk, ptr_of_struct_elem R f g hk he]
        simp [_ptrStruct, he, hp, nextVar_pkgPath, structField.in_, structField.out]
      · rw [mem_keys_addType]
        exact Or.inr ⟨rfl, hp⟩
    · intro hp
      refine ⟨?_, rfl⟩
      rw [field_of_ptr R n f g hs hk, ptr_of_struct_elem R f g hk he]
      simp [_ptrStruct, he, hp, nextVar_pkgPath, structField.in_, structField.out]

/-- Witness of `struct_delegation`: the fields `A A` (in-unit), `E other.Ext` (external)
and `Next *B` (pointer to an in-unit struct) of the sample structs. -/
theorem struct_delegation_witness :
    (ParseBool (StructTag.Get [] "noCopy")).1 = false ∧
    field Demo.info 1 ⟨"A", Demo.Ty.A, []⟩ Demo.g0
      = ("out.A = in.A.Copy()\n", some (addType Demo.info Demo.Ty.A Demo.g0)) ∧
    field Demo.info 1 ⟨"E", Demo.Ty.Ext, []⟩ Demo.g0 = ("out.E = in.E\n", some Demo.g0) ∧
    field Demo.info 1 ⟨"Next", Demo.Ty.ptrB, []⟩ Demo.g0
      = ("if in.Next != nil \x7b\nv1 := in.Next.Copy()\nout.Next = &v1\n\x7d\n",
          some (addType Demo.info Demo.Ty.B (nextVar Demo.g0).2)) :=
  ⟨by decide,
    ((struct_delegation Demo.info 0 ⟨"A", Demo.Ty.A, []⟩ Demo.g0 (by decide)).1 rfl).1 rfl
      |>.1,
    by decide, by decide⟩

/-! ## Behaviour at the inputs where the code departs from its description -/

/-- C2 (the code at a slice field): for the field `Kids []A` the guard printed by `_slice`
tests the length of the output collection `out.Kids`, not of the input `in.Kids`; the
allocation has length `len(in.Kids)`. -/
theorem slice_guard_tests_out :
    (_slice Demo.info (field Demo.info 1) ⟨"Kids", Demo.Ty.sliceA, []⟩ Demo.g0).1
      = "if len(out.Kids) > 0 \x7b\n"
        ++ "out.Kids = make([]A, len(in.Kids))\n"
        ++ "for v1 := range in.Kids \x7b\n"
        ++ "out.Kids[v1] = in.Kids[v1].Copy()\n"
        ++ "\x7d\n" ++ "\x7d\n" := by
  decide

/-- C6 (the code at a seed that is not a struct): with target package `pkg` and the seed
`MyInt` (`type MyInt int`, declared in `pkg`), `Run` returns and has printed a procedure
for `MyInt`, with an empty body. -/
theorem Run_nonstruct_seed :
    Demo.info.Kind Demo.Ty.MyInt = Kind.Int ∧
    (Add Demo.info (some Demo.Ty.MyInt) Demo.g0).map
        (fun g => (Run Demo.info Demo.runtime 2 "" g).1)
      = some ("// Code generated by rti-generator for copy struct. DO NOT EDIT.\n\n"
          ++ "package  pkg\n\nimport (\n)\n\n"
          ++ "func (in *MyInt) Copy() (out MyInt) \x7b\nreturn\n\x7d\n") ∧
    ((Add Demo.info (some Demo.Ty.MyInt) Demo.g0).map
        (fun g => (Run Demo.info Demo.runtime 2 "" g).2.isSome)) = some true := by
  decide

/-! ## Effect of the handlers on the queue -/

theorem Grows.same (g : generator τ) : Grows g g (fun _ => False) :=
  ⟨rfl, fun _ => rfl, fun _ => by simp⟩

theorem Grows.nextVar (g : generator τ) : Grows g (nextVar g).2 (fun _ => False) :=
  ⟨rfl, fun _ => rfl, fun _ => by simp [nextVar_types]⟩

theorem Grows.addType (R : TypeInfo τ) (t : τ) (g : generator τ) :
    Grows g (addType R t g) (fun T => T = t ∧ R.PkgPath t = g.pkgPath) :=
  ⟨addType_pkgPath R t g, fun u => addType_mapGet R t u g, fun T => mem_keys_addType R t T g⟩

theorem Grows.trans {g g1 g2 : generator τ} {P Q : τ → Prop}
    (h1 : Grows g g1 P) (h2 : Grows g1 g2 Q) : Grows g g2 (fun T => P T ∨ Q T) := by
  obtain ⟨a1, b1, c1⟩ := h1
  obtain ⟨a2, b2, c2⟩ := h2
  refine ⟨a2.trans a1, fun u => (b2 u).trans (b1 u), fun T => ?_⟩
  rw [c2, c1, or_assoc]

theorem Grows.congr {g g1 : generator τ} {P Q : τ → Prop}
    (h : Grows g g1 P) (hPQ : ∀ T, P T ↔ Q T) : Grows g g1 Q := by
  obtain ⟨a, b, c⟩ := h
  refine ⟨a, b, fun T => ?_⟩
  rw [c, hPQ]

theorem Leads.target {R : TypeInfo τ} {pkg : String} {t T : τ} (h : Leads R pkg t T) :
    R.Kind T = Kind.Struct ∧ R.PkgPath T = pkg := by
  induction h with
  | direct t h1 h2 => exact ⟨h1, h2⟩
  | pointer t _ h2 h3 => exact ⟨h2, h3⟩
  | item t T _ _ ih => exact ih

theorem leads_struct_iff (R : TypeInfo τ) (pkg : String) (t T : τ)
    (hk : R.Kind t = Kind.Struct) : Leads R pkg t T ↔ (T = t ∧ R.PkgPath t = pkg) := by
  constructor
  · intro h
    cases h with
    | direct _ _ h2 => exact ⟨rfl, h2⟩
    | pointer _ h1 _ _ => rw [hk] at h1; exact absurd h1 (by decide)
    | item _ _ h1 _ => rw [hk] at h1; exact absurd h1 (by decide)
  · rintro ⟨rfl, h⟩
    exact Leads.direct T hk h

theorem leads_ptr_iff (R : TypeInfo τ) (pkg : String) (t T : τ)
    (hk : R.Kind t = Kind.Ptr) :
    Leads R pkg t T ↔
      (T = R.Elem t ∧ R.Kind (R.Elem t) = Kind.Struct ∧ R.PkgPath (R.Elem t) = pkg) := by
  constructor
  · intro h
    cases h with
    | direct _ h1 _ => rw [hk] at h1; exact absurd h1 (by decide)
    | pointer _ _ h2 h3 => exact ⟨rfl, h2, h3⟩
    | item _ _ h1 _ => rw [hk] at h1; exact absurd h1 (by decide)
  · rintro ⟨rfl, h2, h3⟩
    exact Leads.pointer t hk h2 h3

theorem leads_item_iff (R : TypeInfo τ) (pkg : String) (t T : τ)
    (hk : R.Kind t = Kind.Slice ∨ R.Kind t = Kind.Array) :
    Leads R pkg t T ↔ Leads R pkg (R.Elem t) T := by
  constructor
  · intro h
    cases h with
    | direct _ h1 _ => rw [h1] at hk; exact absurd hk (by decide)
    | pointer _ h1 _ _ => rw [h1] at hk; exact absurd hk (by decide)
    | item _ _ _ h2 => exact h2
  · exact fun h => Leads.item t T hk h

theorem not_leads_of_other (R : TypeInfo τ) (pkg : String) (t T : τ)
    (h1 : R.Kind t ≠ Kind.Struct) (h2 : R.Kind t ≠ Kind.Ptr) (h3 : R.Kind t ≠ Kind.Slice)
    (h4 : R.Kind t ≠ Kind.Array) : ¬ Leads R pkg t T := by
  intro h
  cases h with
  | direct _ h _ => exact h1 h
  | pointer _ h _ _ => exact h2 h
  | item _ _ h _ => exact h.elim h3 h4

theorem struct_grows (R : TypeInfo τ) (f : structField τ) (g : generator τ)
    (hk : R.Kind f.Typ = Kind.Struct) :
    Grows g (_struct R f g).2 (fun T => Leads R g.pkgPath f.Typ T) := by
  by_cases hp : R.PkgPath f.Typ = g.pkgPath
  · have : (_struct R f g).2 = addType R f.Typ g := by simp [_struct, hk, hp]
    rw [this]
    exact (Grows.addType R f.Typ g).congr (fun T => (leads_struct_iff R _ _ T hk).symm)
  · have : (_struct R f g).2 = g := by simp [_struct, hk, hp]
    rw [this]
    refine (Grows.same g).congr (fun T => ?_)
    rw [leads_struct_iff R _ _ T hk]
    simp [hp]

theorem ptrStruct_grows (R : TypeInfo τ) (f : structField τ) (g : generator τ)
    (hk : R.Kind f.Typ = Kind.Struct) :
    Grows g (_ptrStruct R f g).2 (fun T => T = f.Typ ∧ R.PkgPath f.Typ = g.pkgPath) := by
  by_cases hp : R.PkgPath f.Typ = g.pkgPath
  · have : (_ptrStruct R f g).2 = addType R f.Typ (nextVar g).2 := by
      simp [_ptrStruct, hk, hp, nextVar_pkgPath]
    rw [this]
    refine ((Grows.nextVar g).trans (Grows.addType R f.Typ (nextVar g).2)).congr (fun T => ?_)
    simp [nextVar_pkgPath]
  · have : (_ptrStruct R f g).2 = (nextVar g).2 := by
      simp [_ptrStruct, hk, hp, nextVar_pkgPath]
    rw [this]
    refine (Grows.nextVar g).congr (fun T => ?_)
    simp [hp]

theorem ptr_grows (R : TypeInfo τ) (f : structField τ) (g : generator τ)
    (hk : R.Kind f.Typ = Kind.Ptr) :
    Grows g (_ptr R f g).2 (fun T => Leads R g.pkgPath f.Typ T) := by
  by_cases he : R.Kind (R.Elem f.Typ) = Kind.Struct
  · rw [ptr_of_struct_elem R f g hk he]
    refine (ptrStruct_grows R { Typ := R.Elem f.Typ, Name := f.Name, Tag := [] } g he).congr
      (fun T => ?_)
    rw [leads_ptr_iff R _ _ T hk]
    simp [he]
  · have h2 : (_ptr R f g).2 = g ∨ (_ptr R f g).2 = (nextVar g).2 := by
      by_cases hb : isBaseType (R.Kind (R.Elem f.Typ)) = true
      · right
        simp [_ptr, hk, he, hb, _ptrBaseType]
      · left
        simp [_ptr, hk, he, hb]
    have hno : ∀ T, False ↔ Leads R g.pkgPath f.Typ T := by
      intro T
      rw [leads_ptr_iff R _ _ T hk]
      simp [he]
    rcases h2 with h2 | h2 <;> rw [h2]
    · exact (Grows.same g).congr hno
    · exact (Grows.nextVar g).congr hno

theorem slice_snd (R : TypeInfo τ)
    (rec : structField τ → generator τ → String × Option (generator τ))
    (f : structField τ) (g : generator τ)
    (hk : R.Kind f.Typ = Kind.Slice ∨ R.Kind f.Typ = Kind.Array) :
    (_slice R rec f g).2
      = (rec ⟨f.Name ++ "[" ++ (nextVar g).1 ++ "]", R.Elem f.Typ, []⟩ (nextVar g).2).2 := by
  have hne : ¬ (R.Kind f.Typ ≠ Kind.Slice ∧ R.Kind f.Typ ≠ Kind.Array) := by
    rcases hk with hk | hk <;> simp [hk]
  unfold _slice
  rw [if_neg hne]
  simp only [_sliceItem, if_neg hne]
  rcases rec ⟨f.Name ++ "[" ++ (nextVar g).1 ++ "]", R.Elem f.Typ, []⟩ (nextVar g).2
    with ⟨s3, _ | g3⟩ <;> rfl

/-- Queue left by `field` when it returns: the keys it had and the structs the field leads
to; every flag reads as before. -/
theorem field_grows (R : TypeInfo τ) :
    ∀ (n : Nat) (f : structField τ) (g : generator τ) (s : String) (g1 : generator τ),
      field R n f g = (s, some g1) →
      Grows g g1 (fun T => (ParseBool (f.Tag.Get "noCopy")).1 = false
        ∧ Leads R g.pkgPath f.Typ T) := by
  intro n
  induction n with
  | zero =>
    intro f g s g1 h
    simp [field] at h
  | succ n ih =>
    intro f g s g1 h
    by_cases hs : (ParseBool (f.Tag.Get "noCopy")).1 = true
    · rw [field_of_skipped R n f g hs] at h
      simp only [Prod.mk.injEq, Option.some.injEq] at h
      rw [← h.2]
      exact (Grows.same g).congr (fun T => by simp [hs])
    · have hs : (ParseBool (f.Tag.Get "noCopy")).1 = false := by simpa using hs
      have slice_case : (R.Kind f.Typ = Kind.Slice ∨ R.Kind f.Typ = Kind.Array) →
          Grows g g1 (fun T => Leads R g.pkgPath f.Typ T) := by
        intro hk2
        rw [field_of_slice R n f g hs hk2] at h
        have h2 := congrArg Prod.snd h
        rw [slice_snd R _ f g hk2] at h2
        simp only at h2
        have hr : field R n ⟨f.Name ++ "[" ++ (nextVar g).1 ++ "]", R.Elem f.Typ, []⟩
            (nextVar g).2
            = ((field R n ⟨f.Name ++ "[" ++ (nextVar g).1 ++ "]", R.Elem f.Typ, []⟩
                (nextVar g).2).1, some g1) := by
          rw [← h2]
        have := ih _ _ _ _ hr
        refine ((Grows.nextVar g).trans this).congr (fun T => ?_)
        rw [leads_item_iff R _ _ T hk2]
        simp [nextVar_pkgPath, StructTag.Get, ParseBool]
      have key : Grows g g1 (fun T => Leads R g.pkgPath f.Typ T) := by
        rcases kind_cases (R.Kind f.Typ) with hk | hk | hk | hk | hk | hk
        · rw [field_of_base R n f g hs hk] at h
          simp only [Prod.mk.injEq, Option.some.injEq] at h
          rw [← h.2]
          obtain ⟨k1, k2, k3, k4, k5⟩ := (isBaseType_eq_true_iff _).1 hk
          exact (Grows.same g).congr
            (fun T => by simpa using not_leads_of_other R g.pkgPath f.Typ T k4 k3 k1 k5)
        · exact slice_case (Or.inl hk)
        · exact slice_case (Or.inr hk)
        · rw [field_of_ptr R n f g hs hk] at h
          simp only [Prod.mk.injEq, Option.some.injEq] at h
          rw [← h.2]
          exact ptr_grows R f g hk
        · rw [field_of_struct R n f g hs hk] at h
          simp only [Prod.mk.injEq, Option.some.injEq] at h
          rw [← h.2]
          exact struct_grows R f g hk
        · rw [field_of_map R n f g hs hk] at h
          simp only [Prod.mk.injEq, Option.some.injEq] at h
          rw [← h.2]
          exact (Grows.same g).congr
            (fun T => by
              simpa using not_leads_of_other R g.pkgPath f.Typ T (by simp [hk]) (by simp [hk])
                (by simp [hk]) (by simp [hk]))
      exact key.congr (fun T => by simp [hs])

/-! ## Returning from `field` and `_object` -/

/-- With stack above the nesting depth of its type, `field` returns. -/
theorem field_returns (R : TypeInfo τ) (rank : τ → Nat)
    (hrank : ∀ t, (R.Kind t = Kind.Slice ∨ R.Kind t = Kind.Array) → rank (R.Elem t) < rank t) :
    ∀ (n : Nat) (f : structField τ) (g : generator τ), rank f.Typ < n →
      ∃ g1, (field R n f g).2 = some g1 := by
  intro n
  induction n with
  | zero =>
    intro f g h
    exact absurd h (Nat.not_lt_zero _)
  | succ n ih =>
    intro f g h
    by_cases hs : (ParseBool (f.Tag.Get "noCopy")).1 = true
    · rw [field_of_skipped R n f g hs]
      exact ⟨g, rfl⟩
    · have hs : (ParseBool (f.Tag.Get "noCopy")).1 = false := by simpa using hs
      have slice_case : (R.Kind f.Typ = Kind.Slice ∨ R.Kind f.Typ = Kind.Array) →
          ∃ g1, (field R (n + 1) f g).2 = some g1 := by
        intro hk2
        rw [field_of_slice R n f g hs hk2, slice_snd R _ f g hk2]
        apply ih
        have := hrank f.Typ hk2
        simp only
        omega
      rcases kind_cases (R.Kind f.Typ) with hk | hk | hk | hk | hk | hk
      · rw [field_of_base R n f g hs hk]
        exact ⟨g, rfl⟩
      · exact slice_case (Or.inl hk)
      · exact slice_case (Or.inr hk)
      · rw [field_of_ptr R n f g hs hk]
        exact ⟨_, rfl⟩
      · rw [field_of_struct R n f g hs hk]
        exact ⟨_, rfl⟩
      · rw [field_of_map R n f g hs hk]
        exact ⟨g, rfl⟩

theorem fieldsLoop_cons (emit : structField τ → generator τ → String × Option (generator τ))
    (f : structField τ) (fs : List (structField τ)) (g : generator τ) :
    (fieldsLoop emit (f :: fs) g).2
      = match (emit f g).2 with
        | none => none
        | some g1 => (fieldsLoop emit fs g1).2 := by
  simp only [fieldsLoop]
  rcases emit f g with ⟨s1, _ | g1⟩ <;> rfl

theorem fieldsLoop_returns
    (emit : structField τ → generator τ → String × Option (generator τ))
    (fs : List (structField τ))
    (h : ∀ f ∈ fs, ∀ g, ∃ g1, (emit f g).2 = some g1) :
    ∀ g, ∃ g1, (fieldsLoop emit fs g).2 = some g1 := by
  induction fs with
  | nil => exact fun g => ⟨g, rfl⟩
  | cons f fs ih =>
    intro g
    obtain ⟨g1, h1⟩ := h f (List.mem_cons_self f fs) g
    rw [fieldsLoop_cons, h1]
    exact ih (fun f hf => h f (List.mem_cons_of_mem _ hf)) g1

theorem fieldsLoop_grows (R : TypeInfo τ) (n : Nat) (fs : List (structField τ)) :
    ∀ (g g1 : generator τ), (fieldsLoop (field R n) fs g).2 = some g1 →
      Grows g g1 (fun T => ∃ f ∈ fs, (ParseBool (f.Tag.Get "noCopy")).1 = false
        ∧ Leads R g.pkgPath f.Typ T) := by
  induction fs with
  | nil =>
    intro g g1 h
    simp only [fieldsLoop, Option.some.injEq] at h
    rw [← h]
    exact (Grows.same g).congr (fun T => by simp)
  | cons f fs ih =>
    intro g g1 h
    rw [fieldsLoop_cons] at h
    rcases hr : field R n f g with ⟨s1, _ | g2⟩
    · rw [hr] at h
      simp at h
    · rw [hr] at h
      simp only at h
      have h1 := field_grows R n f g s1 g2 hr
      have h2 := ih g2 g1 h
      rw [h1.1] at h2
      refine (h1.trans h2).congr (fun T => ?_)
      simp

theorem object_returns (R : TypeInfo τ) (n : Nat)
    (h : ∀ f g, ∃ g1, (field R n f g).2 = some g1) (t : τ) (g : generator τ) :
    ∃ g1, (_object R n t g).2 = some g1 := by
  unfold _object
  split
  · exact ⟨g, rfl⟩
  · exact fieldsLoop_returns _ _ (fun f _ g => h f g) g

/-- Queue left by `_object` on a type of the target package: the keys it had and the
types the struct refers to. -/
theorem object_grows (R : TypeInfo τ) (n : Nat) (t : τ) (g g1 : generator τ)
    (hp : R.PkgPath t = g.pkgPath) (h : (_object R n t g).2 = some g1) :
    Grows g g1 (fun T => Refers R g.pkgPath t T) := by
  unfold _object at h
  by_cases hk : R.Kind t = Kind.Struct
  · rw [if_neg (by simp [hk])] at h
    refine (fieldsLoop_grows R n _ g g1 h).congr (fun T => ?_)
    simp [Refers, hk, hp]
  · rw [if_pos hk] at h
    simp only [Option.some.injEq] at h
    rw [← h]
    exact (Grows.same g).congr (fun T => by simp [Refers, hk])

/-! ## The loop of `Run` -/

theorem foldl_append_eq (l : List String) (acc : String) :
    l.foldl (fun r s => r ++ s) acc = acc ++ l.foldl (fun r s => r ++ s) "" := by
  induction l generalizing acc with
  | nil => simp
  | cons a l ih =>
    simp only [List.foldl_cons]
    rw [ih (acc ++ a), ih ("" ++ a)]
    simp [String.append_assoc]

theorem join_cons (a : String) (l : List String) :
    String.join (a :: l) = a ++ String.join l := by
  simp only [String.join, List.foldl_cons]
  rw [foldl_append_eq]
  simp

theorem runLoop_none (R : TypeInfo τ) (O : Runtime τ) (D k : Nat) (g : generator τ)
    (hn : (nextType O g).1 = none) :
    runLoop R O D (k + 1) g = ("", some (nextType O g).2) ∧ runProcs R O D (k + 1) g = [] := by
  rcases h : nextType O g with ⟨_ | t, g1⟩
  · simp [runLoop, runProcs, h]
  · rw [h] at hn
    simp at hn

theorem runLoop_some (R : TypeInfo τ) (O : Runtime τ) (D k : Nat) (g : generator τ) (t : τ)
    (body : String) (g2 : generator τ) (hn : (nextType O g).1 = some t)
    (ho : _object R D t (nextType O g).2 = (body, some g2)) :
    runLoop R O D (k + 1) g
        = (procHeader R t ++ body ++ "return\n" ++ "\x7d\n" ++ (runLoop R O D k g2).1,
            (runLoop R O D k g2).2) ∧
      runProcs R O D (k + 1) g = (t, body) :: runProcs R O D k g2 := by
  rcases h : nextType O g with ⟨_ | u, g1⟩
  · rw [h] at hn
    simp at hn
  · rw [h] at hn ho
    simp only [Option.some.injEq] at hn
    subst hn
    simp only at ho
    simp [runLoop, runProcs, h, ho]

theorem runLoop_stuck (R : TypeInfo τ) (O : Runtime τ) (D k : Nat) (g : generator τ) (t : τ)
    (hn : (nextType O g).1 = some t) (ho : (_object R D t (nextType O g).2).2 = none) :
    (runLoop R O D (k + 1) g).2 = none := by
  rcases h : nextType O g with ⟨_ | u, g1⟩
  · rw [h] at hn
    simp at hn
  · rw [h] at hn ho
    simp only [Option.some.injEq] at hn
    subst hn
    simp only at ho
    rcases h2 : _object R D u g1 with ⟨body, _ | g2⟩
    · simp [runLoop, h, h2]
    · rw [h2] at ho
      simp at ho

/-- Invariants of the loop of `Run` when it returns: the text is the concatenation of the
procedures of the selected types; no type is selected twice; the selected types were
pending; at the end every entry is selected; the queue only grows; it contains what the
selected types refer to; and every entry stays in the package and in any set `Good` that
is closed under `Refers`. -/
theorem runLoop_spec (R : TypeInfo τ) (O : Runtime τ) (hO : O.Valid) (D : Nat) (pkg : String)
    (Good : τ → Prop) (hGood : ∀ S T, Good S → Refers R pkg S T → Good T) :
    ∀ (k : Nat) (g g1 : generator τ) (s : String),
      g.pkgPath = pkg → (∀ t ∈ keys g.types, R.PkgPath t = pkg ∧ Good t) →
      runLoop R O D k g = (s, some g1) →
        s = String.join ((runProcs R O D k g).map (procText R)) ∧
        ((runProcs R O D k g).map Prod.fst).Nodup ∧
        (∀ t ∈ (runProcs R O D k g).map Prod.fst, mapGet g.types t = false) ∧
        (∀ t, mapGet g1.types t = true ↔
          (mapGet g.types t = true ∨ t ∈ (runProcs R O D k g).map Prod.fst)) ∧
        (∀ t ∈ keys g1.types, mapGet g1.types t = true) ∧
        (∀ t ∈ keys g.types, t ∈ keys g1.types) ∧
        (∀ S ∈ (runProcs R O D k g).map Prod.fst, ∀ T, Refers R pkg S T →
          T ∈ keys g1.types) ∧
        (∀ t ∈ keys g1.types, R.PkgPath t = pkg ∧ Good t) := by
  intro k
  induction k with
  | zero =>
    intro g g1 s _ _ h
    simp [runLoop] at h
  | succ k ih =>
    intro g g1 s hpkg hkeys h
    cases hn : (nextType O g).1 with
    | none =>
      obtain ⟨e1, e2⟩ := runLoop_none R O D k g hn
      rw [e1, nextType_none O g hn] at h
      simp only [Prod.mk.injEq, Option.some.injEq] at h
      obtain ⟨hs, hg⟩ := h
      subst hg
      rw [e2]
      refine ⟨by rw [← hs]; rfl, by simp, by simp, by simp, ?_, fun t ht => ht, by simp, hkeys⟩
      exact (nextType_none_iff O hO g).1 hn
    | some t =>
      obtain ⟨ht1, ht2, ht3⟩ := nextType_some O hO g t hn
      rcases ho : _object R D t (nextType O g).2 with ⟨body, _ | g2⟩
      · have := runLoop_stuck R O D k g t hn (by rw [ho])
        rw [h] at this
        simp at this
      · obtain ⟨e1, e2⟩ := runLoop_some R O D k g t body g2 hn ho
        rw [e1] at h
        simp only [Prod.mk.injEq] at h
        obtain ⟨hs, hg⟩ := h
        have hrec : runLoop R O D k g2 = ((runLoop R O D k g2).1, some g1) := by
          rw [← hg]
        -- the queue after selecting `t`
        have hp1 : (nextType O g).2.pkgPath = pkg := by rw [ht3]; exact hpkg
        have hk1 : keys (nextType O g).2.types = keys g.types := by
          rw [ht3]; exact keys_mapSet_of_mem g.types t true ht1
        have hm1 : mapGet (nextType O g).2.types t = true := by
          rw [ht3]; exact mapGet_mapSet_self g.types t true
        have hm2 : ∀ u, u ≠ t → mapGet (nextType O g).2.types u = mapGet g.types u := by
          intro u hu
          rw [ht3]; exact mapGet_mapSet_ne g.types t u true hu
        -- the queue after `_object`
        have hgr := object_grows R D t (nextType O g).2 g2
          (by rw [hp1]; exact (hkeys t ht1).1) (by rw [ho])
        rw [hp1] at hgr
        obtain ⟨hp2, hm3, hk2⟩ := hgr
        have hkeys2 : ∀ u ∈ keys g2.types, R.PkgPath u = pkg ∧ Good u := by
          intro u hu
          rcases (hk2 u).1 hu with h1 | h1
          · rw [hk1] at h1
            exact hkeys u h1
          · obtain ⟨_, _, f, _, _, hl⟩ := id h1
            exact ⟨hl.target.2, hGood t u (hkeys t ht1).2 h1⟩
        obtain ⟨i1, i2, i3, i4, i5, i6, i7, i8⟩ :=
          ih g2 g1 (runLoop R O D k g2).1 (hp2.trans hp1) hkeys2 hrec
        rw [e2]
        have hnot : t ∉ (runProcs R O D k g2).map Prod.fst := by
          intro hin
          have := i3 t hin
          rw [hm3, hm1] at this
          exact absurd this (by decide)
        refine ⟨?_, ?_, ?_, ?_, i5, ?_, ?_, i8⟩
        · rw [← hs, i1]
          simp only [List.map_cons, join_cons, procText]
        · simp only [List.map_cons]
          exact List.nodup_cons.2 ⟨hnot, i2⟩
        · intro u hu
          simp only [List.map_cons, List.mem_cons] at hu
          rcases hu with hu | hu
          · rw [hu]; exact ht2
          · have h1 := i3 u hu
            rw [hm3] at h1
            have hne : u ≠ t := by
              intro e
              rw [e, hm1] at h1
              exact absurd h1 (by decide)
            rw [← hm2 u hne]
            exact h1
        · intro u
          rw [i4 u, hm3]
          simp only [List.map_cons, List.mem_cons]
          by_cases hu : u = t
          · subst hu
            simp [hm1]
          · rw [hm2 u hu]
            simp [hu]
        · intro u hu
          apply i6
          rw [hk2, hk1]
          exact Or.inl hu
        · intro S hS T hST
          simp only [List.map_cons, List.mem_cons] at hS
          rcases hS with hS | hS
          · subst hS
            apply i6
            rw [hk2]
            exact Or.inr hST
          · exact i7 S hS T hST

/-! ## Termination of the loop -/

theorem object_mapGet (R : TypeInfo τ) (n : Nat) (t : τ) (g g1 : generator τ)
    (h : (_object R n t g).2 = some g1) : ∀ u, mapGet g1.types u = mapGet g.types u := by
  unfold _object at h
  split at h
  · simp only [Option.some.injEq] at h
    rw [← h]
    exact fun _ => rfl
  · exact (fieldsLoop_grows R n _ g g1 h).2.1

theorem pendingCount_select [Fintype τ] (m : List (τ × Bool)) (t : τ)
    (h : mapGet m t = false) : pendingCount (mapSet m t true) < pendingCount m := by
  unfold pendingCount
  apply Finset.card_lt_card
  rw [Finset.ssubset_iff_of_subset]
  · refine ⟨t, by simp [h], by simp [mapGet_mapSet_self]⟩
  · intro u hu
    simp only [Finset.mem_filter, Finset.mem_univ, true_and] at hu ⊢
    by_cases hut : u = t
    · rw [hut]; exact h
    · rw [← mapGet_mapSet_ne m t u true hut]
      exact hu

theorem pendingCount_congr [Fintype τ] (m m1 : List (τ × Bool))
    (h : ∀ u, mapGet m1 u = mapGet m u) : pendingCount m1 = pendingCount m := by
  unfold pendingCount
  congr 1
  ext u
  simp [h u]

theorem pendingCount_le [Fintype τ] (m : List (τ × Bool)) :
    pendingCount m ≤ Fintype.card τ := by
  unfold pendingCount
  exact Finset.card_le_univ _

/-- With enough stack for every field and more iterations allowed than there are pending
types, the loop of `Run` returns. -/
theorem runLoop_returns [Fintype τ] (R : TypeInfo τ) (O : Runtime τ) (hO : O.Valid) (D : Nat)
    (hD : ∀ f g, ∃ g1, (field R D f g).2 = some g1) :
    ∀ (k : Nat) (g : generator τ), pendingCount g.types < k →
      ∃ g1, (runLoop R O D k g).2 = some g1 := by
  intro k
  induction k with
  | zero =>
    intro g h
    exact absurd h (Nat.not_lt_zero _)
  | succ k ih =>
    intro g h
    cases hn : (nextType O g).1 with
    | none =>
      rw [(runLoop_none R O D k g hn).1]
      exact ⟨_, rfl⟩
    | some t =>
      obtain ⟨_, ht2, ht3⟩ := nextType_some O hO g t hn
      obtain ⟨g2, h2⟩ := object_returns R D hD t (nextType O g).2
      have ho : _object R D t (nextType O g).2
          = ((_object R D t (nextType O g).2).1, some g2) := by
        rw [← h2]
      rw [(runLoop_some R O D k g t _ g2 hn ho).1]
      apply ih
      have e1 := pendingCount_congr _ _ (object_mapGet R D t _ g2 h2)
      have e2 := pendingCount_select g.types t ht2
      rw [ht3] at e1
      simp only at e1
      omega

theorem Run_fst (R : TypeInfo τ) (O : Runtime τ) (fuel : Nat) (out : String)
    (g : generator τ) :
    (Run R O fuel out g).1 = printHeader O g ++ (runLoop R O fuel fuel g).1 := by
  unfold Run
  rcases runLoop R O fuel fuel g with ⟨s, _ | g1⟩ <;> rfl

theorem Run_snd (R : TypeInfo τ) (O : Runtime τ) (fuel : Nat) (out : String)
    (g : generator τ) :
    (Run R O fuel out g).2
      = (runLoop R O fuel fuel g).2.map (fun g1 => { out := out, err := none, g := g1 }) := by
  unfold Run
  rcases runLoop R O fuel fuel g with ⟨s, _ | g1⟩ <;> rfl

/-- With finite element nesting over finitely many types there is a stack bound from
which `field` returns on every field. -/
theorem exists_depth [Fintype τ] (R : TypeInfo τ) (hfin : FiniteNesting R) :
    ∃ B, ∀ n, B ≤ n → ∀ f g, ∃ g1, (field R n f g).2 = some g1 := by
  obtain ⟨rank, hrank⟩ := hfin
  refine ⟨Finset.univ.sup rank + 1, fun n hn f g => ?_⟩
  apply field_returns R rank hrank
  have : rank f.Typ ≤ Finset.univ.sup rank := Finset.le_sup (Finset.mem_univ _)
  omega

theorem field_fields_irrelevant (R : TypeInfo τ) (F : τ → List (structField τ)) :
    ∀ (n : Nat) (f : structField τ) (g : generator τ),
      field { R with Fields := F } n f g = field R n f g := by
  intro n
  induction n with
  | zero => exact fun _ _ => rfl
  | succ n ih =>
    intro f g
    have e : field { R with Fields := F } n = field R n := funext (fun f => funext (ih f))
    rw [field_succ, field_succ, e]
    rfl

theorem field_no_recursion (R : TypeInfo τ) (n m : Nat) (f : structField τ)
    (g : generator τ) (h1 : R.Kind f.Typ ≠ Kind.Slice) (h2 : R.Kind f.Typ ≠ Kind.Array) :
    field R (n + 1) f g = field R (m + 1) f g := by
  rw [field_succ, field_succ, slice_of_not R _ f _ h1 h2, slice_of_not R _ f _ h1 h2]

theorem length_le_card_of_nodup [Fintype τ] (l : List τ) (P : τ → Prop) [DecidablePred P]
    (hn : l.Nodup) (hP : ∀ t ∈ l, P t) : l.length ≤ (Finset.univ.filter P).card := by
  rw [← List.toFinset_card_of_nodup hn]
  apply Finset.card_le_card
  intro t ht
  simp only [Finset.mem_filter, Finset.mem_univ, true_and]
  exact hP t (List.mem_toFinset.1 ht)

/-- C3 (amended): over finitely many types whose slice and array nesting is finite,
struct types referring to themselves or to each other included, `Run` on a generator
whose queue holds types of the target package returns once the bound on stack and
iterations is large enough; its loop selects no type twice and selects only types of
the target package, so it makes at most one iteration per such type; `field` does not
depend on the field lists of struct types, and recurses (depends on the stack bound)
only for slice and array kinds. -/
theorem Run_terminates [Fintype τ] (R : TypeInfo τ) (O : Runtime τ) (hO : O.Valid)
    (hfin : FiniteNesting R) (g : generator τ)
    (hq : ∀ t ∈ keys g.types, R.PkgPath t = g.pkgPath) (out : String) :
    (∃ N, ∀ fuel, N ≤ fuel →
      (∃ res, (Run R O fuel out g).2 = some res) ∧
      ((runProcs R O fuel fuel g).map Prod.fst).Nodup ∧
      (∀ t ∈ (runProcs R O fuel fuel g).map Prod.fst, R.PkgPath t = g.pkgPath) ∧
      (runProcs R O fuel fuel g).length
        ≤ (Finset.univ.filter (fun t => R.PkgPath t = g.pkgPath)).card) ∧
    (∀ (F : τ → List (structField τ)) (n : Nat) (f : structField τ) (g1 : generator τ),
      field { R with Fields := F } n f g1 = field R n f g1) ∧
    (∀ (n m : Nat) (f : structField τ) (g1 : generator τ),
      R.Kind f.Typ ≠ Kind.Slice → R.Kind f.Typ ≠ Kind.Array →
      field R (n + 1) f g1 = field R (m + 1) f g1) := by
  refine ⟨?_, field_fields_irrelevant R, fun n m f g1 => field_no_recursion R n m f g1⟩
  obtain ⟨B, hB⟩ := exists_depth R hfin
  refine ⟨max B (Fintype.card τ + 1), fun fuel hfuel => ?_⟩
  have hD := hB fuel (le_trans (le_max_left _ _) hfuel)
  have hk : pendingCount g.types < fuel := by
    have := pendingCount_le g.types
    have := le_trans (le_max_right B (Fintype.card τ + 1)) hfuel
    omega
  obtain ⟨g1, hg1⟩ := runLoop_returns R O hO fuel hD fuel g hk
  have hrun : runLoop R O fuel fuel g = ((runLoop R O fuel fuel g).1, some g1) := by
    rw [← hg1]
  obtain ⟨_, i2, _, i4, _, _, _, i8⟩ :=
    runLoop_spec R O hO fuel g.pkgPath (fun _ => True) (fun _ _ _ _ => trivial) fuel g g1 _ rfl
      (fun t ht => ⟨hq t ht, trivial⟩) hrun
  have hin : ∀ t ∈ (runProcs R O fuel fuel g).map Prod.fst, R.PkgPath t = g.pkgPath := by
    intro t ht
    have h1 : mapGet g1.types t = true := (i4 t).2 (Or.inr ht)
    have h2 : t ∈ keys g1.types := by
      by_contra hc
      rw [mapGet_of_not_mem g1.types t hc] at h1
      exact absurd h1 (by decide)
    exact (i8 t h2).1
  refine ⟨?_, i2, hin, ?_⟩
  · rw [Run_snd, hg1]
    exact ⟨_, rfl⟩
  · have := length_le_card_of_nodup _ (fun t => R.PkgPath t = g.pkgPath) i2 hin
    simpa using this

theorem Demo.finiteNesting : FiniteNesting Demo.info := by
  refine ⟨Demo.rank, fun t h => ?_⟩
  cases t <;> simp [Demo.info, Demo.rank] at h ⊢

/-- Witness of `Run_terminates`: the sample package seeded with `A`, whose structs `A`
and `B` refer to themselves and to each other. -/
theorem Run_terminates_witness :
    Demo.runtime.Valid ∧ FiniteNesting Demo.info ∧
    (∀ t ∈ keys (addType Demo.info Demo.Ty.A Demo.g0).types,
      Demo.info.PkgPath t = (addType Demo.info Demo.Ty.A Demo.g0).pkgPath) ∧
    (∃ N, ∀ fuel, N ≤ fuel →
      ∃ res, (Run Demo.info Demo.runtime fuel "" (addType Demo.info Demo.Ty.A Demo.g0)).2
        = some res) ∧
    (runProcs Demo.info Demo.runtime 3 3 (addType Demo.info Demo.Ty.A Demo.g0)).map Prod.fst
      = [Demo.Ty.A, Demo.Ty.B] :=
  ⟨Demo.runtime_valid, Demo.finiteNesting, by decide,
    (Run_terminates Demo.info Demo.runtime Demo.runtime_valid Demo.finiteNesting
      (addType Demo.info Demo.Ty.A Demo.g0) (by decide) "").1.imp
      (fun _ h fuel hf => (h fuel hf).1),
    by decide⟩

theorem Loop.field_diverges :
    ∀ (n : Nat) (name : String) (g : generator Loop.Ty),
      (field Loop.info n ⟨name, Loop.Ty.Tree, []⟩ g).2 = none := by
  intro n
  induction n with
  | zero => exact fun _ _ => rfl
  | succ n ih =>
    intro name g
    have hs : (ParseBool ((⟨name, Loop.Ty.Tree, []⟩ : structField Loop.Ty).Tag.Get
        "noCopy")).1 = false := rfl
    have hk : Loop.info.Kind (⟨name, Loop.Ty.Tree, []⟩ : structField Loop.Ty).Typ = Kind.Slice
        ∨ Loop.info.Kind (⟨name, Loop.Ty.Tree, []⟩ : structField Loop.Ty).Typ = Kind.Array :=
      Or.inl rfl
    rw [field_of_slice Loop.info n ⟨name, Loop.Ty.Tree, []⟩ g hs hk,
      slice_snd Loop.info _ ⟨name, Loop.Ty.Tree, []⟩ g hk]
    exact ih _ _

/-- C3 (counterexample): with `type Tree []Tree` and `type Node struct { Kids Tree }` in
the target package and the seed `Node`, `Run` returns at no bound on stack and
iterations: `field` on `Kids` calls itself on the element type `Tree` again and again. -/
theorem Run_diverges_on_recursive_slice :
    ¬ ∃ fuel, (Run Loop.info Loop.runtime fuel "" Loop.g0).2.isSome = true := by
  rintro ⟨fuel, h⟩
  have hnone : (runLoop Loop.info Loop.runtime fuel fuel Loop.g0).2 = none := by
    cases fuel with
    | zero => rfl
    | succ k =>
      apply runLoop_stuck Loop.info Loop.runtime (k + 1) k Loop.g0 Loop.Ty.Node (by decide)
      have e : _object Loop.info (k + 1) Loop.Ty.Node (nextType Loop.runtime Loop.g0).2
          = fieldsLoop (field Loop.info (k + 1)) [⟨"Kids", Loop.Ty.Tree, []⟩]
              (nextType Loop.runtime Loop.g0).2 := rfl
      rw [e, fieldsLoop_cons, Loop.field_diverges]
  rw [Run_snd, hnone] at h
  simp at h

/-! ## One procedure per reachable struct -/

theorem AddAll_grows (R : TypeInfo τ) (seeds : List τ) :
    ∀ (g0 g : generator τ), AddAll R (seeds.map some) g0 = some g →
      Grows g0 g (fun T => ∃ s ∈ seeds, T = seedType R s
        ∧ R.PkgPath (seedType R s) = g0.pkgPath) := by
  induction seeds with
  | nil =>
    intro g0 g h
    simp only [List.map_nil, AddAll, Option.some.injEq] at h
    rw [← h]
    exact (Grows.same g0).congr (fun T => by simp)
  | cons s seeds ih =>
    intro g0 g h
    have e : AddAll R ((s :: seeds).map some) g0
        = AddAll R (seeds.map some) (addType R (seedType R s) g0) := rfl
    rw [e] at h
    have h1 := Grows.addType R (seedType R s) g0
    have h2 := ih _ g h
    rw [addType_pkgPath] at h2
    refine (h1.trans h2).congr (fun T => ?_)
    simp

theorem reachable_kind (R : TypeInfo τ) (path : String) (seeds : List τ)
    (hseed : ∀ s ∈ seeds, R.PkgPath (seedType R s) = path →
      R.Kind (seedType R s) = Kind.Struct) (T : τ) (h : Reachable R path seeds T) :
    R.Kind T = Kind.Struct ∧ R.PkgPath T = path := by
  obtain ⟨s, hs, hp, hr⟩ := h
  induction hr with
  | refl => exact ⟨hseed s hs hp, hp⟩
  | tail _ hst _ =>
    obtain ⟨_, _, f, _, _, hl⟩ := hst
    exact hl.target

/-- C1 (amended): for every target package, every list of seeds whose types in the
package (after unwrapping one pointer) are structs, every valid iteration order of the
queue, over finitely many types of finite slice and array nesting: `Run` returns once the
bound on stack and iterations is large enough; what it prints is the header followed by
one procedure per selected type; no type is selected twice; the selected types are
exactly the types reachable from the seeds of the package through fields that are not
skipped (struct, pointer to struct, slice or array leading to one), and all of them are
structs of the package. -/
theorem Run_one_procedure_per_reachable [Fintype τ] (R : TypeInfo τ) (O : Runtime τ)
    (hO : O.Valid) (hfin : FiniteNesting R) (name path : String) (seeds : List τ)
    (g : generator τ)
    (hAdd : AddAll R (seeds.map some) (SetPkg name path NewGenerator) = some g)
    (hseed : ∀ s ∈ seeds, R.PkgPath (seedType R s) = path →
      R.Kind (seedType R s) = Kind.Struct) (out : String) :
    ∃ N, ∀ fuel, N ≤ fuel →
      (∃ res, (Run R O fuel out g).2 = some res) ∧
      (Run R O fuel out g).1
        = printHeader O g ++ String.join ((runProcs R O fuel fuel g).map (procText R)) ∧
      ((runProcs R O fuel fuel g).map Prod.fst).Nodup ∧
      (∀ T, T ∈ (runProcs R O fuel fuel g).map Prod.fst ↔ Reachable R path seeds T) ∧
      (∀ T, Reachable R path seeds T → R.Kind T = Kind.Struct ∧ R.PkgPath T = path) := by
  obtain ⟨hp0, hm0, hk0⟩ := AddAll_grows R seeds _ g hAdd
  have hp : g.pkgPath = path := hp0
  have hm : ∀ u, mapGet g.types u = false := fun u => (hm0 u).trans rfl
  have hk : ∀ T, T ∈ keys g.types ↔
      ∃ s ∈ seeds, T = seedType R s ∧ R.PkgPath (seedType R s) = path := by
    intro T
    rw [hk0 T]
    simp [SetPkg, NewGenerator, keys]
  have hkeys : ∀ t ∈ keys g.types, R.PkgPath t = path ∧ Reachable R path seeds t := by
    intro t ht
    obtain ⟨s, hs, e, hps⟩ := (hk t).1 ht
    rw [e]
    exact ⟨hps, s, hs, hps, Relation.ReflTransGen.refl⟩
  have hGood : ∀ S T, Reachable R path seeds S → Refers R path S T →
      Reachable R path seeds T := by
    rintro S T ⟨s, hs, hps, hr⟩ hST
    exact ⟨s, hs, hps, hr.tail hST⟩
  obtain ⟨B, hB⟩ := exists_depth R hfin
  refine ⟨max B (Fintype.card τ + 1), fun fuel hfuel => ?_⟩
  have hD := hB fuel (le_trans (le_max_left _ _) hfuel)
  have hcount : pendingCount g.types < fuel := by
    have := pendingCount_le g.types
    have := le_trans (le_max_right B (Fintype.card τ + 1)) hfuel
    omega
  obtain ⟨g1, hg1⟩ := runLoop_returns R O hO fuel hD fuel g hcount
  have hrun : runLoop R O fuel fuel g = ((runLoop R O fuel fuel g).1, some g1) := by
    rw [← hg1]
  obtain ⟨i1, i2, _, i4, i5, i6, i7, i8⟩ :=
    runLoop_spec R O hO fuel path (Reachable R path seeds) hGood fuel g g1 _ hp hkeys hrun
  have hsel : ∀ T, T ∈ keys g1.types → T ∈ (runProcs R O fuel fuel g).map Prod.fst := by
    intro T hT
    rcases (i4 T).1 (i5 T hT) with h | h
    · rw [hm T] at h
      exact absurd h (by decide)
    · exact h
  refine ⟨?_, ?_, i2, ?_, reachable_kind R path seeds hseed⟩
  · rw [Run_snd, hg1]
    exact ⟨_, rfl⟩
  · rw [Run_fst, i1]
  · intro T
    constructor
    · intro hT
      have h1 : mapGet g1.types T = true := (i4 T).2 (Or.inr hT)
      have h2 : T ∈ keys g1.types := by
        by_contra hc
        rw [mapGet_of_not_mem g1.types T hc] at h1
        exact absurd h1 (by decide)
      exact (i8 T h2).2
    · rintro ⟨s, hs, hps, hr⟩
      induction hr with
      | refl => exact hsel _ (i6 _ ((hk _).2 ⟨s, hs, rfl, hps⟩))
      | tail _ hst ih => exact hsel _ (i7 _ ih _ hst)

/-- Witness of `Run_one_procedure_per_reachable`: the sample package seeded with a `*A`
and an `A`; `B` is reached through `Next *B`, and `A` again through `Kids []A` and the
field `A` of `B`. -/
theorem Run_one_procedure_per_reachable_witness :
    Demo.runtimeRev.Valid ∧ FiniteNesting Demo.info ∧
    AddAll Demo.info ([Demo.Ty.ptrA, Demo.Ty.A].map some) (SetPkg "pkg" "pkg" NewGenerator)
      = some (addType Demo.info Demo.Ty.A Demo.g0) ∧
    (∀ s ∈ [Demo.Ty.ptrA, Demo.Ty.A], Demo.info.PkgPath (seedType Demo.info s) = "pkg" →
      Demo.info.Kind (seedType Demo.info s) = Kind.Struct) ∧
    (∃ N, ∀ fuel, N ≤ fuel →
      ∀ T, T ∈ (runProcs Demo.info Demo.runtimeRev fuel fuel
            (addType Demo.info Demo.Ty.A Demo.g0)).map Prod.fst
        ↔ Reachable Demo.info "pkg" [Demo.Ty.ptrA, Demo.Ty.A] T) ∧
    (runProcs Demo.info Demo.runtimeRev 3 3 (addType Demo.info Demo.Ty.A Demo.g0)).map
      Prod.fst = [Demo.Ty.A, Demo.Ty.B] :=
  ⟨Demo.runtimeRev_valid, Demo.finiteNesting, by decide, by decide,
    (Run_one_procedure_per_reachable Demo.info Demo.runtimeRev Demo.runtimeRev_valid
      Demo.finiteNesting "pkg" "pkg" [Demo.Ty.ptrA, Demo.Ty.A]
      (addType Demo.info Demo.Ty.A Demo.g0) (by decide) (by decide) "").imp
      (fun _ h fuel hf => (h fuel hf).2.2.2.1),
    by decide⟩

/-- C1 (counterexample): in the sample package, (1) with the single seed `C`
(`type C struct { Inner struct { B B } }`) the struct `B` of the package is reached from
the seed through fields that are not skipped and directly struct-typed, and yet `Run`
returns having selected `C` alone: the unnamed struct type of `Inner` has an empty package
path and is copied by value, not expanded; (2) with the single seed `MyInt`
(`type MyInt int`) the loop of `Run` selects `MyInt`, which is not a struct, and `Run`
prints a procedure header for it. -/
theorem Run_procedures_differ_from_reachable_structs :
    (Demo.info.Kind Demo.Ty.B = Kind.Struct ∧ Demo.info.PkgPath Demo.Ty.B = "pkg" ∧
      ReachableAny Demo.info [Demo.Ty.C] Demo.Ty.B ∧
      AddAll Demo.info [some Demo.Ty.C] (SetPkg "pkg" "pkg" NewGenerator)
        = some (addType Demo.info Demo.Ty.C Demo.g0) ∧
      (Run Demo.info Demo.runtime 2 "" (addType Demo.info Demo.Ty.C Demo.g0)).2.isSome = true ∧
      runProcs Demo.info Demo.runtime 2 2 (addType Demo.info Demo.Ty.C Demo.g0)
        = [(Demo.Ty.C, "out.Inner = in.Inner\n")]) ∧
    (AddAll Demo.info [some Demo.Ty.MyInt] (SetPkg "pkg" "pkg" NewGenerator)
        = some (addType Demo.info Demo.Ty.MyInt Demo.g0) ∧
      ¬ Demo.info.Kind Demo.Ty.MyInt = Kind.Struct ∧
      runProcs Demo.info Demo.runtime 2 2 (addType Demo.info Demo.Ty.MyInt Demo.g0)
        = [(Demo.Ty.MyInt, "")] ∧
      (Run Demo.info Demo.runtime 2 "" (addType Demo.info Demo.Ty.MyInt Demo.g0)).1
        = printHeader Demo.runtime (addType Demo.info Demo.Ty.MyInt Demo.g0)
          ++ ("func (in *MyInt) Copy() (out MyInt) \x7b\n" ++ "return\n" ++ "\x7d\n")) := by
  refine ⟨⟨rfl, rfl, ?_, by decide, by decide, by decide⟩, by decide⟩
  refine ⟨Demo.Ty.C, List.mem_singleton.2 rfl, ?_⟩
  have h1 : RefersAny Demo.info Demo.Ty.C Demo.Ty.anonB :=
    ⟨rfl, ⟨"Inner", Demo.Ty.anonB, []⟩, by simp [Demo.info], rfl, LeadsAny.direct _ rfl⟩
  have h2 : RefersAny Demo.info Demo.Ty.anonB Demo.Ty.B :=
    ⟨rfl, ⟨"B", Demo.Ty.B, []⟩, by simp [Demo.info], rfl, LeadsAny.direct _ rfl⟩
  exact (Relation.ReflTransGen.single h1).tail h2

/-! ## Pointer fields -/

theorem ptr_of_base_elem (R : TypeInfo τ) (f : structField τ) (g : generator τ)
    (h : R.Kind f.Typ = Kind.Ptr) (he : isBaseType (R.Kind (R.Elem f.Typ)) = true) :
    _ptr R f g =
      ("if " ++ f.in_ ++ " != nil \x7b\n"
          ++ ((nextVar g).1 ++ " := *" ++ f.in_ ++ "\n" ++ f.out ++ " = &" ++ (nextVar g).1
            ++ "\n")
          ++ "\x7d\n",
        (nextVar g).2) := by
  have hst : R.Kind (R.Elem f.Typ) ≠ Kind.Struct := ((isBaseType_eq_true_iff _).1 he).2.2.2.1
  simp [_ptr, h, he, hst, _ptrBaseType, structField.in_, structField.out]

theorem ptr_of_other_elem (R : TypeInfo τ) (f : structField τ) (g : generator τ)
    (h : R.Kind f.Typ = Kind.Ptr) (he : isBaseType (R.Kind (R.Elem f.Typ)) = false)
    (hst : R.Kind (R.Elem f.Typ) ≠ Kind.Struct) :
    _ptr R f g = ("if " ++ f.in_ ++ " != nil \x7b\n" ++ "\x7d\n", g) := by
  simp [_ptr, h, he, hst]

theorem ptrStruct_inunit (R : TypeInfo τ) (f : structField τ) (g : generator τ)
    (hk : R.Kind f.Typ = Kind.Struct) (hp : R.PkgPath f.Typ = g.pkgPath) :
    _ptrStruct R f g =
      ((nextVar g).1 ++ " := " ++ f.in_ ++ ".Copy()\n" ++ f.out ++ " = &" ++ (nextVar g).1
          ++ "\n",
        addType R f.Typ (nextVar g).2) := by
  simp [_ptrStruct, hk, hp, nextVar_pkgPath]

theorem ptrStruct_external (R : TypeInfo τ) (f : structField τ) (g : generator τ)
    (hk : R.Kind f.Typ = Kind.Struct) (hp : R.PkgPath f.Typ ≠ g.pkgPath) :
    _ptrStruct R f g =
      ((nextVar g).1 ++ " := *" ++ f.in_ ++ "\n" ++ f.out ++ " = &" ++ (nextVar g).1 ++ "\n",
        (nextVar g).2) := by
  simp [_ptrStruct, hk, hp, nextVar_pkgPath]

/-- C11: for a pointer field that is not skipped, `field` prints `if in.F != nil {`, then
a body, then `}`, and nothing else (no else branch). The body is, by the kind of the
pointee: for a base kind `v := *in.F` and `out.F = &v`; for a struct of the target
package `v := in.F.Copy()` and `out.F = &v`; for another struct `v := *in.F` and
`out.F = &v`; otherwise empty. In each case `v` is the name `nextVar` returns at this
call, `v` followed by the advanced counter, and the only assignment to `out.F` is of
`&v`. -/
theorem ptr_field_shape (R : TypeInfo τ) (n : Nat) (f : structField τ) (g : generator τ)
    (hs : (ParseBool (f.Tag.Get "noCopy")).1 = false) (hk : R.Kind f.Typ = Kind.Ptr) :
    (isBaseType (R.Kind (R.Elem f.Typ)) = true →
      field R (n + 1) f g
        = ("if " ++ f.in_ ++ " != nil \x7b\n"
            ++ ((nextVar g).1 ++ " := *" ++ f.in_ ++ "\n"
              ++ f.out ++ " = &" ++ (nextVar g).1 ++ "\n")
            ++ "\x7d\n",
          some (nextVar g).2)) ∧
    (R.Kind (R.Elem f.Typ) = Kind.Struct → R.PkgPath (R.Elem f.Typ) = g.pkgPath →
      field R (n + 1) f g
        = ("if " ++ f.in_ ++ " != nil \x7b\n"
            ++ ((nextVar g).1 ++ " := " ++ f.in_ ++ ".Copy()\n"
              ++ f.out ++ " = &" ++ (nextVar g).1 ++ "\n")
            ++ "\x7d\n",
          some (addType R (R.Elem f.Typ) (nextVar g).2))) ∧
    (R.Kind (R.Elem f.Typ) = Kind.Struct → R.PkgPath (R.Elem f.Typ) ≠ g.pkgPath →
      field R (n + 1) f g
        = ("if " ++ f.in_ ++ " != nil \x7b\n"
            ++ ((nextVar g).1 ++ " := *" ++ f.in_ ++ "\n"
              ++ f.out ++ " = &" ++ (nextVar g).1 ++ "\n")
            ++ "\x7d\n",
          some (nextVar g).2)) ∧
    (isBaseType (R.Kind (R.Elem f.Typ)) = false → R.Kind (R.Elem f.Typ) ≠ Kind.Struct →
      field R (n + 1) f g = ("if " ++ f.in_ ++ " != nil \x7b\n" ++ "\x7d\n", some g)) ∧
    (nextVar g).1 = "v" ++ toString (wrapInt64 (g.varIndex + 1)) ∧
    (nextVar g).2.varIndex = wrapInt64 (g.varIndex + 1) := by
  refine ⟨?_, ?_, ?_, ?_, rfl, rfl⟩
  · intro he
    rw [field_of_ptr R n f g hs hk, ptr_of_base_elem R f g hk he]
  · intro he hp
    rw [field_of_ptr R n f g hs hk, ptr_of_struct_elem R f g hk he,
      ptrStruct_inunit R _ g he hp]
    rfl
  · intro he hp
    rw [field_of_ptr R n f g hs hk, ptr_of_struct_elem R f g hk he,
      ptrStruct_external R _ g he hp]
    rfl
  · intro he hst
    rw [field_of_ptr R n f g hs hk, ptr_of_other_elem R f g hk he hst]

/-- Witness of `ptr_field_shape`: the field `Next *B` of the sample struct `A`. -/
theorem ptr_field_shape_witness :
    (ParseBool (StructTag.Get [] "noCopy")).1 = false ∧
    Demo.info.Kind Demo.Ty.ptrB = Kind.Ptr ∧
    field Demo.info 1 ⟨"Next", Demo.Ty.ptrB, []⟩ Demo.g0
      = ("if in.Next != nil \x7b\n" ++ ("v1 := in.Next.Copy()\n" ++ "out.Next = &v1\n")
          ++ "\x7d\n",
        some (addType Demo.info Demo.Ty.B (nextVar Demo.g0).2)) :=
  ⟨by decide, rfl,
    (ptr_field_shape Demo.info 0 ⟨"Next", Demo.Ty.ptrB, []⟩ Demo.g0 (by decide) rfl).2.1
      rfl rfl⟩

/-- C12: for a pointer field that is not skipped and whose pointee is a pointer, slice,
array or map, `field` prints exactly `if in.F != nil {` and `}` and returns with the
generator unchanged: no name is obtained from `nextVar` and nothing is enqueued,
whatever the pointee contains. -/
theorem ptr_field_unhandled (R : TypeInfo τ) (n : Nat) (f : structField τ) (g : generator τ)
    (hs : (ParseBool (f.Tag.Get "noCopy")).1 = false) (hk : R.Kind f.Typ = Kind.Ptr)
    (he : R.Kind (R.Elem f.Typ) = Kind.Ptr ∨ R.Kind (R.Elem f.Typ) = Kind.Slice
      ∨ R.Kind (R.Elem f.Typ) = Kind.Array ∨ R.Kind (R.Elem f.Typ) = Kind.Map) :
    field R (n + 1) f g = ("if " ++ f.in_ ++ " != nil \x7b\n" ++ "\x7d\n", some g) := by
  rw [field_of_ptr R n f g hs hk, ptr_of_other_elem R f g hk]
  · rcases he with he | he | he | he <;> simp [isBaseType, he]
  · rcases he with he | he | he | he <;> simp [he]

/-- Witness of `ptr_field_unhandled`: a field `P *[]A`, whose pointee holds structs of
the target package. -/
theorem ptr_field_unhandled_witness :
    (ParseBool (StructTag.Get [] "noCopy")).1 = false ∧
    Demo.info.Kind Demo.Ty.ptrSliceA = Kind.Ptr ∧
    Demo.info.Kind (Demo.info.Elem Demo.Ty.ptrSliceA) = Kind.Slice ∧
    field Demo.info 1 ⟨"P", Demo.Ty.ptrSliceA, []⟩ Demo.g0
      = ("if in.P != nil \x7b\n\x7d\n", some Demo.g0) :=
  ⟨by decide, rfl, rfl,
    ptr_field_unhandled Demo.info 0 ⟨"P", Demo.Ty.ptrSliceA, []⟩ Demo.g0 (by decide) rfl
      (Or.inr (Or.inl rfl))⟩

/-! ## Seeds and the writer of `Run` -/

/-- C17: `Add` of a value whose type is a pointer to the struct `T` leaves the generator
that `Add` of a value of type `T` leaves: the pointer is unwrapped before `addType`. -/
theorem Add_pointer_seed (R : TypeInfo τ) (p T : τ) (g : generator τ)
    (hp : R.Kind p = Kind.Ptr) (he : R.Elem p = T) (hT : R.Kind T = Kind.Struct) :
    Add R (some p) g = Add R (some T) g ∧ Add R (some T) g = some (addType R T g) := by
  have hne : ¬ R.Kind T = Kind.Ptr := by simp [hT]
  simp [Add, hp, he, hne]

/-- Witness of `Add_pointer_seed`: seeds of type `*A` and `A` of the sample package. -/
theorem Add_pointer_seed_witness :
    Demo.info.Kind Demo.Ty.ptrA = Kind.Ptr ∧ Demo.info.Elem Demo.Ty.ptrA = Demo.Ty.A ∧
    Demo.info.Kind Demo.Ty.A = Kind.Struct ∧
    Add Demo.info (some Demo.Ty.ptrA) Demo.g0 = Add Demo.info (some Demo.Ty.A) Demo.g0 ∧
    (Add Demo.info (some Demo.Ty.ptrA) Demo.g0).map (fun g => g.types)
      = some [(Demo.Ty.A, false)] :=
  ⟨rfl, rfl, rfl, (Add_pointer_seed Demo.info Demo.Ty.ptrA Demo.Ty.A Demo.g0 rfl rfl rfl).1,
    by decide⟩

/-- C18 (the code at a seeded generator): `Run` called with an empty writer on the sample
package seeded with `Canvas` returns a nil error and leaves the writer empty; the header
and the procedure are written to standard output. -/
theorem Run_writes_to_stdout :
    (Run Demo.info Demo.runtime 2 "" (addType Demo.info Demo.Ty.Canvas Demo.g0)).2.map
        (fun r => (r.out, r.err)) = some ("", none) ∧
    (Run Demo.info Demo.runtime 2 "" (addType Demo.info Demo.Ty.Canvas Demo.g0)).1
      = "// Code generated by rti-generator for copy struct. DO NOT EDIT.\n\n"
        ++ "package  pkg\n\nimport (\n)\n\n"
        ++ "func (in *Canvas) Copy() (out Canvas) \x7b\n"
        ++ "if len(out.Shapes) > 0 \x7b\n"
        ++ "out.Shapes = make([]interface\x7b\x7d, len(in.Shapes))\n"
        ++ "for v1 := range in.Shapes \x7b\n"
        ++ "out.Shapes[v1] = in.Shapes[v1]\n"
        ++ "\x7d\n" ++ "\x7d\n" ++ "return\n" ++ "\x7d\n" := by
  decide

/-! ## Slice and array fields -/

theorem sliceItem_of_coll (R : TypeInfo τ)
    (rec : structField τ → generator τ → String × Option (generator τ))
    (f : structField τ) (index : String) (g : generator τ)
    (hk : R.Kind f.Typ = Kind.Slice ∨ R.Kind f.Typ = Kind.Array) :
    _sliceItem R rec f index g = rec ⟨f.Name ++ "[" ++ index ++ "]", R.Elem f.Typ, []⟩ g := by
  have hne : ¬ (R.Kind f.Typ ≠ Kind.Slice ∧ R.Kind f.Typ ≠ Kind.Array) := by
    rcases hk with hk | hk <;> simp [hk]
  simp only [_sliceItem, if_neg hne]

theorem slice_fst_of_slice (R : TypeInfo τ)
    (rec : structField τ → generator τ → String × Option (generator τ))
    (f : structField τ) (g : generator τ) (hk : R.Kind f.Typ = Kind.Slice) :
    ∃ rest, (_slice R rec f g).1
      = "if len(" ++ f.out ++ ") > 0 \x7b\n"
        ++ (f.out ++ " = make([]" ++ slicePtr R f.Typ
          ++ (if R.PkgPath (sliceElem R f.Typ) ≠ g.pkgPath then R.String (sliceElem R f.Typ)
              else if R.Kind (sliceElem R f.Typ) = Kind.Interface then "interface\x7b\x7d"
              else R.Name (sliceElem R f.Typ))
          ++ ", len(" ++ f.in_ ++ "))\n")
        ++ rest := by
  have hne : ¬ (R.Kind f.Typ ≠ Kind.Slice ∧ R.Kind f.Typ ≠ Kind.Array) := by simp [hk]
  unfold _slice
  rw [if_neg hne]
  simp only [sliceItem_of_coll R rec f _ _ (Or.inl hk)]
  rcases rec ⟨f.Name ++ "[" ++ (nextVar g).1 ++ "]", R.Elem f.Typ, []⟩ (nextVar g).2
    with ⟨s3, _ | g3⟩
  · refine ⟨"for " ++ (nextVar g).1 ++ " := range " ++ f.in_ ++ " \x7b\n" ++ s3, ?_⟩
    simp [hk, sliceElem, slicePtr, String.append_assoc]
  · refine ⟨"for " ++ (nextVar g).1 ++ " := range " ++ f.in_ ++ " \x7b\n" ++ s3 ++ "\x7d\n"
      ++ "\x7d\n", ?_⟩
    simp [hk, sliceElem, slicePtr, String.append_assoc]

/-- The three branches of `_slice` for the element type written in `make`: for a slice
field that is not skipped, `field` prints the guard and then `out.F = make([]` followed
by `*` when the element type is a pointer, followed by the element type `e` after
stripping that one pointer, written as `e.String()`, the package-qualified form, when
the package path of `e` is not the target package path; as `e.Name()` when it is and
`e` is not of interface kind; and as `interface{}`, which is not the name of `e`, when
it is and `e` is of interface kind. -/
theorem slice_make_type (R : TypeInfo τ) (n : Nat) (f : structField τ) (g : generator τ)
    (hs : (ParseBool (f.Tag.Get "noCopy")).1 = false) (hk : R.Kind f.Typ = Kind.Slice) :
    (R.PkgPath (sliceElem R f.Typ) ≠ g.pkgPath →
      ∃ rest, (field R (n + 1) f g).1
        = "if len(" ++ f.out ++ ") > 0 \x7b\n"
          ++ (f.out ++ " = make([]" ++ slicePtr R f.Typ ++ R.String (sliceElem R f.Typ)
            ++ ", len(" ++ f.in_ ++ "))\n")
          ++ rest) ∧
    (R.PkgPath (sliceElem R f.Typ) = g.pkgPath →
      R.Kind (sliceElem R f.Typ) ≠ Kind.Interface →
      ∃ rest, (field R (n + 1) f g).1
        = "if len(" ++ f.out ++ ") > 0 \x7b\n"
          ++ (f.out ++ " = make([]" ++ slicePtr R f.Typ ++ R.Name (sliceElem R f.Typ)
            ++ ", len(" ++ f.in_ ++ "))\n")
          ++ rest) ∧
    (R.PkgPath (sliceElem R f.Typ) = g.pkgPath →
      R.Kind (sliceElem R f.Typ) = Kind.Interface →
      ∃ rest, (field R (n + 1) f g).1
        = "if len(" ++ f.out ++ ") > 0 \x7b\n"
          ++ (f.out ++ " = make([]" ++ slicePtr R f.Typ ++ "interface\x7b\x7d"
            ++ ", len(" ++ f.in_ ++ "))\n")
          ++ rest) ∧
    (slicePtr R f.Typ = "*" ∨ slicePtr R f.Typ = "") ∧
    (R.Kind (R.Elem f.Typ) = Kind.Ptr →
      slicePtr R f.Typ = "*" ∧ sliceElem R f.Typ = R.Elem (R.Elem f.Typ)) ∧
    (R.Kind (R.Elem f.Typ) ≠ Kind.Ptr →
      slicePtr R f.Typ = "" ∧ sliceElem R f.Typ = R.Elem f.Typ) := by
  obtain ⟨rest, hrest⟩ := slice_fst_of_slice R (field R n) f g hk
  rw [← field_of_slice R n f g hs (Or.inl hk)] at hrest
  refine ⟨?_, ?_, ?_, ?_, ?_, ?_⟩
  · intro hp
    refine ⟨rest, ?_⟩
    rw [hrest, if_pos hp]
  · intro hp hi
    refine ⟨rest, ?_⟩
    rw [hrest, if_neg (not_not.2 hp), if_neg hi]
  · intro hp hi
    refine ⟨rest, ?_⟩
    rw [hrest, if_neg (not_not.2 hp), if_pos hi]
  · unfold slicePtr
    split
    · exact Or.inl rfl
    · exact Or.inr rfl
  · intro h
    simp [slicePtr, sliceElem, h]
  · intro h
    simp [slicePtr, sliceElem, h]

/-- C19 (the code departs from the claim): `Shape` is an interface type declared in the
target package `pkg`, with the unqualified name `Shape`; for the non-skipped field
`Shapes []Shape` the element type written in `make` is `interface{}`, not the
unqualified name `Shape`, so the slice allocated is not of the type of the field. -/
theorem slice_make_type_of_inunit_interface :
    Demo.info.PkgPath Demo.Ty.Shape = Demo.g0.pkgPath ∧
    Demo.info.Kind Demo.Ty.Shape = Kind.Interface ∧
    Demo.info.Name Demo.Ty.Shape = "Shape" ∧
    (field Demo.info 2 ⟨"Shapes", Demo.Ty.sliceShape, []⟩ Demo.g0).1
      = "if len(out.Shapes) > 0 \x7b\n"
        ++ "out.Shapes = make([]interface\x7b\x7d, len(in.Shapes))\n"
        ++ "for v1 := range in.Shapes \x7b\n"
        ++ "out.Shapes[v1] = in.Shapes[v1]\n"
        ++ "\x7d\n" ++ "\x7d\n" := by
  decide

theorem slice_of_array (R : TypeInfo τ)
    (rec : structField τ → generator τ → String × Option (generator τ))
    (f : structField τ) (g : generator τ) (hk : R.Kind f.Typ = Kind.Array)
    (body : String) (g3 : generator τ)
    (hr : rec ⟨f.Name ++ "[" ++ (nextVar g).1 ++ "]", R.Elem f.Typ, []⟩ (nextVar g).2
      = (body, some g3)) :
    _slice R rec f g
      = ("for " ++ (nextVar g).1 ++ " := range " ++ f.in_ ++ " \x7b\n" ++ body ++ "\x7d\n",
          some g3) := by
  have hne : ¬ (R.Kind f.Typ ≠ Kind.Slice ∧ R.Kind f.Typ ≠ Kind.Array) := by simp [hk]
  unfold _slice
  rw [if_neg hne]
  simp only [sliceItem_of_coll R rec f _ _ (Or.inr hk), hr]
  simp [hk, String.append_assoc]

/-- C13 (amended): for a field of array kind that is not skipped and whose element
nesting is finite (below the stack bound), `field` returns and prints exactly the loop
header `for v := range in.F {`, the text `field` prints for the element `F[v]`, and
`}`: no length guard and no `make` for the field itself. -/
theorem array_field_shape (R : TypeInfo τ) (n : Nat) (f : structField τ) (g : generator τ)
    (hs : (ParseBool (f.Tag.Get "noCopy")).1 = false) (hk : R.Kind f.Typ = Kind.Array)
    (rank : τ → Nat)
    (hrank : ∀ t, (R.Kind t = Kind.Slice ∨ R.Kind t = Kind.Array) → rank (R.Elem t) < rank t)
    (hn : rank f.Typ ≤ n) :
    ∃ body g3,
      field R n ⟨f.Name ++ "[" ++ (nextVar g).1 ++ "]", R.Elem f.Typ, []⟩ (nextVar g).2
        = (body, some g3) ∧
      field R (n + 1) f g
        = ("for " ++ (nextVar g).1 ++ " := range " ++ f.in_ ++ " \x7b\n" ++ body ++ "\x7d\n",
            some g3) := by
  have hlt : rank (R.Elem f.Typ) < n := lt_of_lt_of_le (hrank f.Typ (Or.inr hk)) hn
  obtain ⟨g3, h3⟩ := field_returns R rank hrank n
    ⟨f.Name ++ "[" ++ (nextVar g).1 ++ "]", R.Elem f.Typ, []⟩ (nextVar g).2 hlt
  have hr : field R n ⟨f.Name ++ "[" ++ (nextVar g).1 ++ "]", R.Elem f.Typ, []⟩ (nextVar g).2
      = ((field R n ⟨f.Name ++ "[" ++ (nextVar g).1 ++ "]", R.Elem f.Typ, []⟩
          (nextVar g).2).1, some g3) := by
    rw [← h3]
  refine ⟨_, g3, hr, ?_⟩
  rw [field_of_slice R n f g hs (Or.inr hk)]
  exact slice_of_array R (field R n) f g hk _ g3 hr

/-- Witness of `array_field_shape`: the field `Grid [2][]int` of the sample struct `B`. -/
theorem array_field_shape_witness :
    (ParseBool (StructTag.Get [] "noCopy")).1 = false ∧
    Demo.info.Kind Demo.Ty.arrSliceInt = Kind.Array ∧
    (∃ body g3, field Demo.info 3 ⟨"Grid", Demo.Ty.arrSliceInt, []⟩ Demo.g0
      = ("for v1 := range in.Grid \x7b\n" ++ body ++ "\x7d\n", some g3)) ∧
    (field Demo.info 3 ⟨"Grid", Demo.Ty.arrSliceInt, []⟩ Demo.g0).1
      = "for v1 := range in.Grid \x7b\n"
        ++ "if len(out.Grid[v1]) > 0 \x7b\n"
        ++ "out.Grid[v1] = make([]int, len(in.Grid[v1]))\n"
        ++ "for v2 := range in.Grid[v1] \x7b\n"
        ++ "out.Grid[v1][v2] = in.Grid[v1][v2]\n"
        ++ "\x7d\n" ++ "\x7d\n" ++ "\x7d\n" :=
  ⟨by decide, rfl,
    (array_field_shape Demo.info 2 ⟨"Grid", Demo.Ty.arrSliceInt, []⟩ Demo.g0 (by decide) rfl
      Demo.rank (fun t h => by cases t <;> simp [Demo.info, Demo.rank] at h ⊢)
      (by decide)).imp (fun _ h => h.imp (fun _ h2 => h2.2)),
    by decide⟩

/-- C13 (counterexample): with `type Tree []Tree`, `field` on the array field
`Pair [2]Tree` returns at no stack bound, so the closing `}` of the loop is never
printed; with stack for two calls it has printed the loop header and the beginning of
the element's statements. -/
theorem array_field_of_recursive_slice :
    (¬ ∃ n, (field Loop.info n ⟨"Pair", Loop.Ty.arrTree, []⟩ Loop.g0).2.isSome = true) ∧
    (field Loop.info 2 ⟨"Pair", Loop.Ty.arrTree, []⟩ Loop.g0).1
      = "for v1 := range in.Pair \x7b\n"
        ++ "if len(out.Pair[v1]) > 0 \x7b\n"
        ++ "out.Pair[v1] = make([]Tree, len(in.Pair[v1]))\n"
        ++ "for v2 := range in.Pair[v1] \x7b\n" := by
  refine ⟨?_, by decide⟩
  rintro ⟨n, h⟩
  cases n with
  | zero => simp [field] at h
  | succ n =>
    have hs : (ParseBool ((⟨"Pair", Loop.Ty.arrTree, []⟩ : structField Loop.Ty).Tag.Get
        "noCopy")).1 = false := rfl
    have hk : Loop.info.Kind (⟨"Pair", Loop.Ty.arrTree, []⟩ : structField Loop.Ty).Typ
          = Kind.Slice
        ∨ Loop.info.Kind (⟨"Pair", Loop.Ty.arrTree, []⟩ : structField Loop.Ty).Typ
          = Kind.Array := Or.inr rfl
    rw [field_of_slice Loop.info n ⟨"Pair", Loop.Ty.arrTree, []⟩ Loop.g0 hs hk,
      slice_snd Loop.info _ ⟨"Pair", Loop.Ty.arrTree, []⟩ Loop.g0 hk] at h
    have := Loop.field_diverges n ("Pair" ++ "[" ++ (nextVar Loop.g0).1 ++ "]")
      (nextVar Loop.g0).2
    have e : Loop.info.Elem (⟨"Pair", Loop.Ty.arrTree, []⟩ : structField Loop.Ty).Typ
        = Loop.Ty.Tree := rfl
    simp only [e] at h
    rw [this] at h
    simp at h

/-! ## The header -/

theorem runLoop_text (R : TypeInfo τ) (O : Runtime τ) (D : Nat) :
    ∀ (k : Nat) (g g1 : generator τ), (runLoop R O D k g).2 = some g1 →
      (runLoop R O D k g).1 = String.join ((runProcs R O D k g).map (procText R)) := by
  intro k
  induction k with
  | zero =>
    intro g g1 h
    simp [runLoop] at h
  | succ k ih =>
    intro g g1 h
    cases hn : (nextType O g).1 with
    | none =>
      obtain ⟨e1, e2⟩ := runLoop_none R O D k g hn
      rw [e1, e2]
      rfl
    | some t =>
      rcases ho : _object R D t (nextType O g).2 with ⟨body, _ | g2⟩
      · have := runLoop_stuck R O D k g t hn (by rw [ho])
        rw [h] at this
        simp at this
      · obtain ⟨e1, e2⟩ := runLoop_some R O D k g t body g2 hn ho
        rw [e1] at h ⊢
        rw [e2]
        simp only at h ⊢
        rw [ih g2 g1 h]
        simp only [List.map_cons, join_cons, procText]

theorem byAlias_of_mem (order : List (String × String))
    (hnd : (order.map Prod.snd).Nodup) (e : String × String) (he : e ∈ order) :
    (match order.reverse.find? (fun x => decide (x.2 = e.2)) with
      | some x => x.1
      | none => "") = e.1 := by
  cases h : order.reverse.find? (fun x => decide (x.2 = e.2)) with
  | none =>
    have := List.find?_eq_none.1 h e (List.mem_reverse.2 he)
    simp at this
  | some x =>
    have hx1 : x ∈ order := List.mem_reverse.1 (List.mem_of_find?_eq_some h)
    have hx2 : x.2 = e.2 := by simpa using List.find?_some h
    have := List.inj_on_of_nodup_map hnd hx1 he hx2
    rw [this]

/-- C15 (amended): `Run` prints the header first and once, before the text of its loop,
which is the concatenation of the procedures when the loop returns; and for an import
table whose aliases are pairwise distinct the import block has one line per entry of the
table, showing the alias and the quoted path of that entry, the lines being in ascending
order of alias. -/
theorem header_import_block (R : TypeInfo τ) (O : Runtime τ) (hO : O.Valid) (fuel : Nat)
    (out : String) (g : generator τ) (hal : (g.imports.map Prod.snd).Nodup) :
    (Run R O fuel out g).1 = printHeader O g ++ (runLoop R O fuel fuel g).1 ∧
    ((Run R O fuel out g).2.isSome = true →
      (Run R O fuel out g).1
        = printHeader O g ++ String.join ((runProcs R O fuel fuel g).map (procText R))) ∧
    ∃ entries : List (String × String),
      entries.Perm g.imports ∧
      (entries.map Prod.snd).Sorted (fun a b => a ≤ b) ∧
      printHeader O g
        = "// Code generated by rti-generator for copy struct. DO NOT EDIT.\n" ++ "\n"
          ++ ("package " ++ " " ++ g.pkgName ++ "\n") ++ "\n"
          ++ "import (\n"
          ++ String.join (entries.map (fun e => "  " ++ e.2 ++ " " ++ O.quote e.1 ++ "\n"))
          ++ ")\n" ++ "\n" := by
  refine ⟨Run_fst R O fuel out g, ?_, ?_⟩
  · intro h
    rw [Run_snd] at h
    cases hr : (runLoop R O fuel fuel g).2 with
    | none => simp [hr] at h
    | some g1 => rw [Run_fst, runLoop_text R O fuel fuel g g1 hr]
  · have hperm := hO.2 g.imports
    have hnd : ((O.rangeImports g.imports).map Prod.snd).Nodup :=
      ((hperm.map Prod.snd).nodup_iff).2 hal
    have hF : ∀ e ∈ O.rangeImports g.imports,
        ((match (O.rangeImports g.imports).reverse.find? (fun x => decide (x.2 = e.2)) with
          | some x => x.1
          | none => ""), e.2) = e := by
      intro e he
      rw [byAlias_of_mem _ hnd e he]
    refine ⟨(((O.rangeImports g.imports).map Prod.snd).insertionSort (fun a b => a ≤ b)).map
      (fun a => ((match (O.rangeImports g.imports).reverse.find? (fun x => decide (x.2 = a))
          with
          | some x => x.1
          | none => ""), a)), ?_, ?_, ?_⟩
    · refine List.Perm.trans ?_ hperm
      refine ((List.perm_insertionSort _ _).map _).trans ?_
      rw [List.map_map]
      have : List.map ((fun a =>
          ((match (O.rangeImports g.imports).reverse.find? (fun x => decide (x.2 = a)) with
            | some x => x.1
            | none => ""), a)) ∘ Prod.snd) (O.rangeImports g.imports)
          = List.map id (O.rangeImports g.imports) :=
        List.map_congr_left (fun e he => hF e he)
      rw [this, List.map_id]
    · rw [List.map_map]
      have : (Prod.snd ∘ fun a =>
          ((match (O.rangeImports g.imports).reverse.find? (fun x => decide (x.2 = a)) with
            | some x => x.1
            | none => ""), a)) = id := rfl
      rw [this, List.map_id]
      exact List.sorted_insertionSort _ _
    · simp only [printHeader, List.map_map]
      rfl

/-- Witness of `header_import_block`: a table of two imports, visited in reverse order. -/
theorem header_import_block_witness :
    Demo.runtimeRev.Valid ∧
    (([("b/zeta", "zeta"), ("a/alpha", "alpha")] : List (String × String)).map
      Prod.snd).Nodup ∧
    (∃ entries : List (String × String),
      entries.Perm [("b/zeta", "zeta"), ("a/alpha", "alpha")] ∧
      printHeader Demo.runtimeRev
          { Demo.g0 with imports := [("b/zeta", "zeta"), ("a/alpha", "alpha")] }
        = "// Code generated by rti-generator for copy struct. DO NOT EDIT.\n" ++ "\n"
          ++ ("package " ++ " " ++ "pkg" ++ "\n") ++ "\n"
          ++ "import (\n"
          ++ String.join (entries.map
              (fun e => "  " ++ e.2 ++ " " ++ Demo.runtimeRev.quote e.1 ++ "\n"))
          ++ ")\n" ++ "\n") ∧
    printHeader Demo.runtimeRev
        { Demo.g0 with imports := [("b/zeta", "zeta"), ("a/alpha", "alpha")] }
      = "// Code generated by rti-generator for copy struct. DO NOT EDIT.\n\n"
        ++ "package  pkg\n\n"
        ++ "import (\n  alpha \"a/alpha\"\n  zeta \"b/zeta\"\n)\n\n" :=
  ⟨Demo.runtimeRev_valid, by decide,
    (header_import_block Demo.info Demo.runtimeRev Demo.runtimeRev_valid 0 ""
      { Demo.g0 with imports := [("b/zeta", "zeta"), ("a/alpha", "alpha")] }
      (by decide)).2.2.imp (fun _ h => ⟨h.1, h.2.2⟩),
    by
      simp [printHeader, Demo.runtimeRev, Demo.g0, SetPkg, NewGenerator, List.insertionSort,
        List.orderedInsert, String.join]
      decide⟩

/-- C15 (counterexample): with the import table `a/util ↦ util`, `b/util ↦ util` the block
of imports has two lines, both showing the path `b/util`: no line shows the path
`a/util` of the first entry. -/
theorem header_with_shared_alias :
    printHeader Demo.runtime { Demo.g0 with imports := [("a/util", "util"), ("b/util", "util")] }
      = "// Code generated by rti-generator for copy struct. DO NOT EDIT.\n\n"
        ++ "package  pkg\n\n"
        ++ "import (\n  util \"b/util\"\n  util \"b/util\"\n)\n\n" := by
  simp [printHeader, Demo.runtime, Demo.g0, SetPkg, NewGenerator, List.insertionSort,
    List.orderedInsert, String.join]
  decide

/-! ## Two runs on the same seeds -/

theorem AddAll_imports (R : TypeInfo τ) (seeds : List τ) :
    ∀ (g0 g : generator τ), AddAll R (seeds.map some) g0 = some g → g.imports = g0.imports := by
  induction seeds with
  | nil =>
    intro g0 g h
    simp only [List.map_nil, AddAll, Option.some.injEq] at h
    rw [← h]
  | cons s seeds ih =>
    intro g0 g h
    have e : AddAll R ((s :: seeds).map some) g0
        = AddAll R (seeds.map some) (addType R (seedType R s) g0) := rfl
    rw [e] at h
    rw [ih _ g h]
    unfold addType
    split
    · rfl
    · split <;> rfl

theorem printHeader_of_no_imports (O : Runtime τ) (hO : O.Valid) (g : generator τ)
    (h : g.imports = []) :
    printHeader O g
      = "// Code generated by rti-generator for copy struct. DO NOT EDIT.\n" ++ "\n"
        ++ ("package " ++ " " ++ g.pkgName ++ "\n") ++ "\n" ++ "import (\n" ++ ")\n" ++ "\n" := by
  have h1 : O.rangeImports g.imports = [] := by
    have := hO.2 g.imports
    rw [h] at this ⊢
    exact List.perm_nil.1 this
  simp [printHeader, h1, String.join, List.insertionSort]

theorem nextType_congr (O1 O2 : Runtime τ) (h : O1.rangeTypes = O2.rangeTypes)
    (g : generator τ) : nextType O1 g = nextType O2 g := by
  unfold nextType
  rw [h]

theorem runLoop_congr (R : TypeInfo τ) (O1 O2 : Runtime τ)
    (h : O1.rangeTypes = O2.rangeTypes) (D : Nat) :
    ∀ (k : Nat) (g : generator τ), runLoop R O1 D k g = runLoop R O2 D k g := by
  intro k
  induction k with
  | zero => exact fun _ => rfl
  | succ k ih =>
    intro g
    simp only [runLoop, nextType_congr O1 O2 h g, ih]

/-- What a run on a freshly seeded generator does, whatever the valid iteration order:
it returns from some bound on; its text is the concatenation of the procedures of the
selected types; no type is selected twice; the selected types are the reachable ones;
and every key of the final queue has been selected. -/
theorem seeded_run [Fintype τ] (R : TypeInfo τ) (O : Runtime τ) (hO : O.Valid)
    (hfin : FiniteNesting R) (name path : String) (seeds : List τ) (g : generator τ)
    (hAdd : AddAll R (seeds.map some) (SetPkg name path NewGenerator) = some g) :
    ∃ N, ∀ fuel, N ≤ fuel →
      ∃ g1, (runLoop R O fuel fuel g).2 = some g1 ∧
        ((runProcs R O fuel fuel g).map Prod.fst).Nodup ∧
        (∀ T, T ∈ (runProcs R O fuel fuel g).map Prod.fst ↔ Reachable R path seeds T) ∧
        (∀ T ∈ keys g1.types, T ∈ (runProcs R O fuel fuel g).map Prod.fst) ∧
        g.pkgPath = path ∧ (∀ t ∈ keys g.types, R.PkgPath t = path) := by
  obtain ⟨hp0, hm0, hk0⟩ := AddAll_grows R seeds _ g hAdd
  have hp : g.pkgPath = path := hp0
  have hm : ∀ u, mapGet g.types u = false := fun u => (hm0 u).trans rfl
  have hk : ∀ T, T ∈ keys g.types ↔
      ∃ s ∈ seeds, T = seedType R s ∧ R.PkgPath (seedType R s) = path := by
    intro T
    rw [hk0 T]
    simp [SetPkg, NewGenerator, keys]
  have hkeys : ∀ t ∈ keys g.types, R.PkgPath t = path ∧ Reachable R path seeds t := by
    intro t ht
    obtain ⟨s, hs, e, hps⟩ := (hk t).1 ht
    rw [e]
    exact ⟨hps, s, hs, hps, Relation.ReflTransGen.refl⟩
  have hGood : ∀ S T, Reachable R path seeds S → Refers R path S T →
      Reachable R path seeds T := by
    rintro S T ⟨s, hs, hps, hr⟩ hST
    exact ⟨s, hs, hps, hr.tail hST⟩
  obtain ⟨B, hB⟩ := exists_depth R hfin
  refine ⟨max B (Fintype.card τ + 1), fun fuel hfuel => ?_⟩
  have hD := hB fuel (le_trans (le_max_left _ _) hfuel)
  have hcount : pendingCount g.types < fuel := by
    have := pendingCount_le g.types
    have := le_trans (le_max_right B (Fintype.card τ + 1)) hfuel
    omega
  obtain ⟨g1, hg1⟩ := runLoop_returns R O hO fuel hD fuel g hcount
  have hrun : runLoop R O fuel fuel g = ((runLoop R O fuel fuel g).1, some g1) := by
    rw [← hg1]
  obtain ⟨_, i2, _, i4, i5, i6, i7, i8⟩ :=
    runLoop_spec R O hO fuel path (Reachable R path seeds) hGood fuel g g1 _ hp hkeys hrun
  have hsel : ∀ T, T ∈ keys g1.types → T ∈ (runProcs R O fuel fuel g).map Prod.fst := by
    intro T hT
    rcases (i4 T).1 (i5 T hT) with h | h
    · rw [hm T] at h
      exact absurd h (by decide)
    · exact h
  refine ⟨g1, hg1, i2, ?_, hsel, hp, fun t ht => (hkeys t ht).1⟩
  intro T
  constructor
  · intro hT
    have h1 : mapGet g1.types T = true := (i4 T).2 (Or.inr hT)
    have h2 : T ∈ keys g1.types := by
      by_contra hc
      rw [mapGet_of_not_mem g1.types T hc] at h1
      exact absurd h1 (by decide)
    exact (i8 T h2).2
  · rintro ⟨s, hs, hps, hr⟩
    induction hr with
    | refl => exact hsel _ (i6 _ ((hk _).2 ⟨s, hs, rfl, hps⟩))
    | tail _ hst ih => exact hsel _ (i7 _ ih _ hst)

/-- C16 (amended): two runs on the same seeds, each from a fresh generator, over a finite
set of types whose slice/array nesting is finite, under valid iteration orders `O1` and
`O2` of the queue. They print the same header. When `nextType` visits the queue in the
same order in both (`O1.rangeTypes = O2.rangeTypes`) the two runs are equal at every
bound: text, temporary names and returned values. Whatever the two orders, from some
bound on both runs return, the output of each is that common header followed by the
procedures of the types it selected, one after the other and nothing else, neither run
selects a type twice, and the types selected by the two runs are the same up to their
order. -/
theorem Run_twice [Fintype τ] (R : TypeInfo τ) (O1 O2 : Runtime τ) (h1 : O1.Valid)
    (h2 : O2.Valid) (hfin : FiniteNesting R) (name path : String) (seeds : List τ)
    (g : generator τ)
    (hAdd : AddAll R (seeds.map some) (SetPkg name path NewGenerator) = some g)
    (out : String) :
    printHeader O1 g = printHeader O2 g ∧
    (O1.rangeTypes = O2.rangeTypes → ∀ fuel, Run R O1 fuel out g = Run R O2 fuel out g) ∧
    ∃ N, ∀ fuel, N ≤ fuel →
      (Run R O1 fuel out g).2.isSome = true ∧ (Run R O2 fuel out g).2.isSome = true ∧
      (Run R O1 fuel out g).1
        = printHeader O1 g ++ String.join ((runProcs R O1 fuel fuel g).map (procText R)) ∧
      (Run R O2 fuel out g).1
        = printHeader O1 g ++ String.join ((runProcs R O2 fuel fuel g).map (procText R)) ∧
      ((runProcs R O1 fuel fuel g).map Prod.fst).Nodup ∧
      ((runProcs R O2 fuel fuel g).map Prod.fst).Nodup ∧
      ((runProcs R O1 fuel fuel g).map Prod.fst).Perm
        ((runProcs R O2 fuel fuel g).map Prod.fst) := by
  have himp : g.imports = [] := AddAll_imports R seeds _ g hAdd
  have hhdr : printHeader O1 g = printHeader O2 g := by
    rw [printHeader_of_no_imports O1 h1 g himp, printHeader_of_no_imports O2 h2 g himp]
  refine ⟨hhdr, ?_, ?_⟩
  · intro h fuel
    unfold Run
    rw [hhdr, runLoop_congr R O1 O2 h fuel fuel g]
  · obtain ⟨N1, hN1⟩ := seeded_run R O1 h1 hfin name path seeds g hAdd
    obtain ⟨N2, hN2⟩ := seeded_run R O2 h2 hfin name path seeds g hAdd
    refine ⟨max N1 N2, fun fuel hfuel => ?_⟩
    obtain ⟨g1, a1, a2, a3, _⟩ := hN1 fuel (le_trans (le_max_left _ _) hfuel)
    obtain ⟨g2, b1, b2, b3, _⟩ := hN2 fuel (le_trans (le_max_right _ _) hfuel)
    refine ⟨by rw [Run_snd, a1]; rfl, by rw [Run_snd, b1]; rfl, ?_, ?_, a2, b2, ?_⟩
    · rw [Run_fst, runLoop_text R O1 fuel fuel g g1 a1]
    · rw [Run_fst, runLoop_text R O2 fuel fuel g g2 b1, hhdr]
    · rw [List.perm_ext_iff_of_nodup a2 b2]
      intro T
      rw [a3 T, b3 T]

/-- Witness of `Run_twice`: the sample package seeded with `A` and `B`, the queue visited
in insertion order in one run and in reverse insertion order in the other. -/
theorem Run_twice_witness :
    Demo.runtime.Valid ∧ Demo.runtimeRev.Valid ∧ FiniteNesting Demo.info ∧
    AddAll Demo.info ([Demo.Ty.A, Demo.Ty.B].map some) (SetPkg "pkg" "pkg" NewGenerator)
      = some (addType Demo.info Demo.Ty.B (addType Demo.info Demo.Ty.A Demo.g0)) ∧
    (∃ N, ∀ fuel, N ≤ fuel →
      (Run Demo.info Demo.runtimeRev fuel ""
          (addType Demo.info Demo.Ty.B (addType Demo.info Demo.Ty.A Demo.g0))).1
        = printHeader Demo.runtime
            (addType Demo.info Demo.Ty.B (addType Demo.info Demo.Ty.A Demo.g0))
          ++ String.join ((runProcs Demo.info Demo.runtimeRev fuel fuel
              (addType Demo.info Demo.Ty.B (addType Demo.info Demo.Ty.A Demo.g0))).map
            (procText Demo.info)) ∧
      ((runProcs Demo.info Demo.runtime fuel fuel
          (addType Demo.info Demo.Ty.B (addType Demo.info Demo.Ty.A Demo.g0))).map
        Prod.fst).Perm
        ((runProcs Demo.info Demo.runtimeRev fuel fuel
          (addType Demo.info Demo.Ty.B (addType Demo.info Demo.Ty.A Demo.g0))).map
        Prod.fst)) ∧
    (runProcs Demo.info Demo.runtime 3 3
        (addType Demo.info Demo.Ty.B (addType Demo.info Demo.Ty.A Demo.g0))).map Prod.fst
      = [Demo.Ty.A, Demo.Ty.B] ∧
    (runProcs Demo.info Demo.runtimeRev 3 3
        (addType Demo.info Demo.Ty.B (addType Demo.info Demo.Ty.A Demo.g0))).map Prod.fst
      = [Demo.Ty.B, Demo.Ty.A] :=
  ⟨Demo.runtime_valid, Demo.runtimeRev_valid, Demo.finiteNesting, by decide,
    (Run_twice Demo.info Demo.runtime Demo.runtimeRev Demo.runtime_valid
      Demo.runtimeRev_valid Demo.finiteNesting "pkg" "pkg" [Demo.Ty.A, Demo.Ty.B]
      (addType Demo.info Demo.Ty.B (addType Demo.info Demo.Ty.A Demo.g0)) (by decide)
      "").2.2.imp (fun _ h fuel hf => ⟨(h fuel hf).2.2.2.1, (h fuel hf).2.2.2.2.2.2⟩),
    by decide, by decide⟩

/-- C16 (counterexample): the sample package seeded with `A` and `B` from a fresh
generator, run once with the queue visited in insertion order and once in reverse
insertion order: both runs return and their outputs differ (the procedure of `A` comes
first in one, that of `B` in the other). -/
theorem Run_output_depends_on_selection :
    AddAll Demo.info [some Demo.Ty.A, some Demo.Ty.B] (SetPkg "pkg" "pkg" NewGenerator)
      = some (addType Demo.info Demo.Ty.B (addType Demo.info Demo.Ty.A Demo.g0)) ∧
    (Run Demo.info Demo.runtime 3 ""
      (addType Demo.info Demo.Ty.B (addType Demo.info Demo.Ty.A Demo.g0))).2.isSome = true ∧
    (Run Demo.info Demo.runtimeRev 3 ""
      (addType Demo.info Demo.Ty.B (addType Demo.info Demo.Ty.A Demo.g0))).2.isSome = true ∧
    (Run Demo.info Demo.runtime 3 ""
      (addType Demo.info Demo.Ty.B (addType Demo.info Demo.Ty.A Demo.g0))).1
      ≠ (Run Demo.info Demo.runtimeRev 3 ""
        (addType Demo.info Demo.Ty.B (addType Demo.info Demo.Ty.A Demo.g0))).1 := by
  decide

/-! ## Decimal rendering and the counter of temporaries -/

theorem toDigitsCore_append (fuel : Nat) :
    ∀ (n : Nat) (ds : List Char),
      Nat.toDigitsCore 10 fuel n ds = Nat.toDigitsCore 10 fuel n [] ++ ds := by
  induction fuel with
  | zero => exact fun _ _ => rfl
  | succ fuel ih =>
    intro n ds
    simp only [Nat.toDigitsCore]
    split
    · rfl
    · rw [ih (n / 10) (Nat.digitChar (n % 10) :: ds), ih (n / 10) [Nat.digitChar (n % 10)]]
      simp

theorem toDigitsCore_succ (fuel n : Nat) :
    Nat.toDigitsCore 10 (fuel + 1) n []
      = if n / 10 = 0 then [Nat.digitChar (n % 10)]
        else Nat.toDigitsCore 10 fuel (n / 10) [] ++ [Nat.digitChar (n % 10)] := by
  simp only [Nat.toDigitsCore]
  split
  · rfl
  · rw [toDigitsCore_append]

theorem digitChar_injective : ∀ a < 10, ∀ b < 10, Nat.digitChar a = Nat.digitChar b → a = b := by
  decide

theorem digitChar_ne_minus : ∀ a < 10, Nat.digitChar a ≠ '-' := by
  decide

theorem toDigitsCore_ne_nil (fuel n : Nat) : Nat.toDigitsCore 10 (fuel + 1) n [] ≠ [] := by
  rw [toDigitsCore_succ]
  split <;> simp

theorem toDigitsCore_injective :
    ∀ (n m f1 f2 : Nat), n < f1 → m < f2 →
      Nat.toDigitsCore 10 f1 n [] = Nat.toDigitsCore 10 f2 m [] → n = m := by
  intro n
  induction n using Nat.strong_induction_on with
  | _ n ih =>
    intro m f1 f2 h1 h2 h
    obtain ⟨f1, rfl⟩ : ∃ k, f1 = k + 1 := ⟨f1 - 1, by omega⟩
    obtain ⟨f2, rfl⟩ : ∃ k, f2 = k + 1 := ⟨f2 - 1, by omega⟩
    rw [toDigitsCore_succ, toDigitsCore_succ] at h
    by_cases hn : n / 10 = 0
    · by_cases hm : m / 10 = 0
      · rw [if_pos hn, if_pos hm] at h
        have := digitChar_injective (n % 10) (Nat.mod_lt _ (by decide)) (m % 10)
          (Nat.mod_lt _ (by decide)) (by simpa using h)
        omega
      · rw [if_pos hn, if_neg hm] at h
        have hlen := congrArg List.length h
        simp only [List.length_singleton, List.length_append] at hlen
        have hf2 : 0 < f2 := by omega
        obtain ⟨k, rfl⟩ : ∃ k, f2 = k + 1 := ⟨f2 - 1, by omega⟩
        have := toDigitsCore_ne_nil k (m / 10)
        have : (Nat.toDigitsCore 10 (k + 1) (m / 10) []).length ≠ 0 := by
          simpa [List.length_eq_zero] using this
        omega
    · by_cases hm : m / 10 = 0
      · rw [if_neg hn, if_pos hm] at h
        have hlen := congrArg List.length h
        simp only [List.length_singleton, List.length_append] at hlen
        obtain ⟨k, rfl⟩ : ∃ k, f1 = k + 1 := ⟨f1 - 1, by omega⟩
        have := toDigitsCore_ne_nil k (n / 10)
        have : (Nat.toDigitsCore 10 (k + 1) (n / 10) []).length ≠ 0 := by
          simpa [List.length_eq_zero] using this
        omega
      · rw [if_neg hn, if_neg hm] at h
        obtain ⟨e1, e2⟩ := List.append_inj' h rfl
        have hd := digitChar_injective (n % 10) (Nat.mod_lt _ (by decide)) (m % 10)
          (Nat.mod_lt _ (by decide)) (by simpa using e2)
        have hq := ih (n / 10) (by omega) (m / 10) f1 f2 (by omega) (by omega) e1
        omega

theorem toDigitsCore_head :
    ∀ (n f : Nat), n < f → ∃ d, d < 10 ∧ ∃ tl, Nat.toDigitsCore 10 f n [] = Nat.digitChar d :: tl := by
  intro n
  induction n using Nat.strong_induction_on with
  | _ n ih =>
    intro f h
    obtain ⟨f, rfl⟩ : ∃ k, f = k + 1 := ⟨f - 1, by omega⟩
    rw [toDigitsCore_succ]
    by_cases hn : n / 10 = 0
    · rw [if_pos hn]
      exact ⟨n % 10, Nat.mod_lt _ (by decide), [], rfl⟩
    · rw [if_neg hn]
      obtain ⟨d, hd, tl, htl⟩ := ih (n / 10) (by omega) f (by omega)
      exact ⟨d, hd, tl ++ [Nat.digitChar (n % 10)], by rw [htl]; rfl⟩

theorem natRepr_injective (n m : Nat) (h : Nat.repr n = Nat.repr m) : n = m := by
  have h1 : Nat.toDigits 10 n = Nat.toDigits 10 m := by
    have := congrArg String.data h
    simpa [Nat.repr, List.asString] using this
  exact toDigitsCore_injective n m (n + 1) (m + 1) (by omega) (by omega) h1

theorem natRepr_ne_minus (n : Nat) (s : String) : Nat.repr n ≠ "-" ++ s := by
  intro h
  obtain ⟨d, hd, tl, htl⟩ := toDigitsCore_head n (n + 1) (by omega)
  have h1 := congrArg String.data h
  simp only [Nat.repr, List.asString, Nat.toDigits, String.data_append] at h1
  rw [htl] at h1
  have h2 : Nat.digitChar d = '-' := by
    have := congrArg List.head? h1
    simpa using this
  exact digitChar_ne_minus d hd h2

theorem string_append_left_cancel (a b c : String) (h : a ++ b = a ++ c) : b = c := by
  have := congrArg String.data h
  simp only [String.data_append] at this
  exact String.ext (List.append_cancel_left this)

/-- The decimal rendering of integers (`%d`) is injective. -/
theorem intToString_injective (x y : Int) (h : toString x = toString y) : x = y := by
  cases x with
  | ofNat n =>
    cases y with
    | ofNat m =>
      have : Nat.repr n = Nat.repr m := h
      rw [natRepr_injective n m this]
    | negSucc m =>
      have : Nat.repr n = "-" ++ Nat.repr (m + 1) := h
      exact absurd this (natRepr_ne_minus n _)
  | negSucc n =>
    cases y with
    | ofNat m =>
      have : "-" ++ Nat.repr (n + 1) = Nat.repr m := h
      exact absurd this.symm (natRepr_ne_minus m _)
    | negSucc m =>
      have : "-" ++ Nat.repr (n + 1) = "-" ++ Nat.repr (m + 1) := h
      have := natRepr_injective _ _ (string_append_left_cancel _ _ _ this)
      have : n = m := by omega
      rw [this]

theorem wrapInt64_of_range (x : Int) (h1 : -(2 : Int) ^ 63 ≤ x) (h2 : x < (2 : Int) ^ 63) :
    wrapInt64 x = x := by
  unfold wrapInt64
  have e : (x + 2 ^ 63) % 2 ^ 64 = x + 2 ^ 63 := by
    apply Int.emod_eq_of_lt
    · omega
    · have : (2 : Int) ^ 64 = 2 ^ 63 + 2 ^ 63 := by norm_num
      omega
  rw [e]
  omega

theorem bump_add (c : Int) (a : Nat) : ∀ b, bump (bump c a) b = bump c (a + b) := by
  intro b
  induction b with
  | zero => rfl
  | succ b ih =>
    show wrapInt64 (bump (bump c a) b + 1) = wrapInt64 (bump c (a + b) + 1)
    rw [ih]

theorem bump_of_range (c : Int) (h1 : -(2 : Int) ^ 63 ≤ c) :
    ∀ k : Nat, c + (k : Int) < (2 : Int) ^ 63 → bump c k = c + k := by
  intro k
  induction k with
  | zero => intro _; simp [bump]
  | succ k ih =>
    intro h
    have hk : c + (k : Int) < (2 : Int) ^ 63 := by
      have : ((k + 1 : Nat) : Int) = (k : Int) + 1 := by push_cast; ring
      omega
    show wrapInt64 (bump c k + 1) = c + ((k + 1 : Nat) : Int)
    rw [ih hk, wrapInt64_of_range]
    · push_cast; ring
    · omega
    · have : ((k + 1 : Nat) : Int) = (k : Int) + 1 := by push_cast; ring
      omega

theorem mintNames_add (c : Int) (a b : Nat) :
    mintNames c (a + b) = mintNames c a ++ mintNames (bump c a) b := by
  unfold mintNames
  rw [List.range_add, List.map_append, List.map_map]
  congr 1
  apply List.map_congr_left
  intro k _
  simp only [Function.comp]
  rw [bump_add, Nat.add_assoc]

theorem mintNames_length (c : Int) (m : Nat) : (mintNames c m).length = m := by
  simp [mintNames]

/-! ## Events of the handlers, by the kind of the field -/

theorem minted_append (e1 e2 : List (Event τ)) : minted (e1 ++ e2) = minted e1 ++ minted e2 := by
  induction e1 with
  | nil => rfl
  | cons e es ih =>
    cases e with
    | mint v => simp [minted, ih]
    | call t => simp [minted, ih]

theorem callees_append (e1 e2 : List (Event τ)) :
    callees (e1 ++ e2) = callees e1 ++ callees e2 := by
  induction e1 with
  | nil => rfl
  | cons e es ih =>
    cases e with
    | mint v => simp [callees, ih]
    | call t => simp [callees, ih]

theorem fieldEvents_succ (R : TypeInfo τ) (n : Nat) (f : structField τ) (g : generator τ) :
    fieldEvents R (n + 1) f g =
      if (ParseBool (f.Tag.Get "noCopy")).1 then []
      else
        match (_slice R (field R n) f (_baseType R f g).2).2 with
        | none => sliceEvents R (fieldEvents R n) f (_baseType R f g).2
        | some g2 =>
          sliceEvents R (fieldEvents R n) f (_baseType R f g).2 ++ ptrEvents R f g2
            ++ structEvents R f (_ptr R f g2).2 := by
  rfl

theorem baseType_snd (R : TypeInfo τ) (f : structField τ) (g : generator τ) :
    (_baseType R f g).2 = g := by
  unfold _baseType
  split <;> rfl

theorem fieldEvents_of_skipped (R : TypeInfo τ) (n : Nat) (f : structField τ)
    (g : generator τ) (hs : (ParseBool (f.Tag.Get "noCopy")).1 = true) :
    fieldEvents R (n + 1) f g = [] := by
  rw [fieldEvents_succ]
  simp [hs]

theorem fieldEvents_of_coll (R : TypeInfo τ) (n : Nat) (f : structField τ) (g : generator τ)
    (hs : (ParseBool (f.Tag.Get "noCopy")).1 = false)
    (hk : R.Kind f.Typ = Kind.Slice ∨ R.Kind f.Typ = Kind.Array) :
    fieldEvents R (n + 1) f g
      = Event.mint (nextVar g).1
        :: fieldEvents R n ⟨f.Name ++ "[" ++ (nextVar g).1 ++ "]", R.Elem f.Typ, []⟩
            (nextVar g).2 := by
  have hne : ¬ (R.Kind f.Typ ≠ Kind.Slice ∧ R.Kind f.Typ ≠ Kind.Array) := by
    rcases hk with hk | hk <;> simp [hk]
  have hp : R.Kind f.Typ ≠ Kind.Ptr := by rcases hk with hk | hk <;> simp [hk]
  have hst : R.Kind f.Typ ≠ Kind.Struct := by rcases hk with hk | hk <;> simp [hk]
  have hse : sliceEvents R (fieldEvents R n) f g
      = Event.mint (nextVar g).1
        :: fieldEvents R n ⟨f.Name ++ "[" ++ (nextVar g).1 ++ "]", R.Elem f.Typ, []⟩
            (nextVar g).2 := by
    simp only [sliceEvents, if_neg hne]
  rw [fieldEvents_succ]
  simp only [hs, Bool.false_eq_true, if_false, baseType_snd, hse]
  cases (_slice R (field R n) f g).2 with
  | none => rfl
  | some g2 => simp [ptrEvents, structEvents, hp, hst]

theorem fieldEvents_of_not_coll (R : TypeInfo τ) (n : Nat) (f : structField τ)
    (g : generator τ) (hs : (ParseBool (f.Tag.Get "noCopy")).1 = false)
    (h1 : R.Kind f.Typ ≠ Kind.Slice) (h2 : R.Kind f.Typ ≠ Kind.Array) :
    fieldEvents R (n + 1) f g = ptrEvents R f g ++ structEvents R f (_ptr R f g).2 := by
  rw [fieldEvents_succ]
  simp [hs, baseType_snd, slice_of_not R _ f g h1 h2, sliceEvents, h1, h2]

theorem ptrEvents_of_not (R : TypeInfo τ) (f : structField τ) (g : generator τ)
    (h : R.Kind f.Typ ≠ Kind.Ptr) : ptrEvents R f g = [] := by
  simp [ptrEvents, h]

theorem structEvents_of_not (R : TypeInfo τ) (f : structField τ) (g : generator τ)
    (h : R.Kind f.Typ ≠ Kind.Struct) : structEvents R f g = [] := by
  simp [structEvents, h]

theorem ptrEvents_cases (R : TypeInfo τ) (f : structField τ) (g : generator τ)
    (hk : R.Kind f.Typ = Kind.Ptr) :
    (ptrEvents R f g = [] ∧ ((_ptr R f g).2 = g)) ∨
    (ptrEvents R f g = [Event.mint (nextVar g).1] ∧ (_ptr R f g).2 = (nextVar g).2) ∨
    (ptrEvents R f g = [Event.mint (nextVar g).1, Event.call (R.Elem f.Typ)] ∧
      (_ptr R f g).2 = addType R (R.Elem f.Typ) (nextVar g).2 ∧
      R.Kind (R.Elem f.Typ) = Kind.Struct ∧ R.PkgPath (R.Elem f.Typ) = g.pkgPath) := by
  by_cases he : R.Kind (R.Elem f.Typ) = Kind.Struct
  · have hb : isBaseType (R.Kind (R.Elem f.Typ)) = false := by simp [isBaseType, he]
    rw [ptr_of_struct_elem R f g hk he]
    by_cases hp : R.PkgPath (R.Elem f.Typ) = g.pkgPath
    · right; right
      rw [ptrStruct_inunit R _ g he hp]
      refine ⟨?_, rfl, he, hp⟩
      simp [ptrEvents, hk, he, isBaseType, ptrStructEvents, hp, nextVar_pkgPath]
    · right; left
      rw [ptrStruct_external R _ g he hp]
      refine ⟨?_, rfl⟩
      simp [ptrEvents, hk, he, isBaseType, ptrStructEvents, hp, nextVar_pkgPath]
  · by_cases hb : isBaseType (R.Kind (R.Elem f.Typ)) = true
    · right; left
      rw [ptr_of_base_elem R f g hk hb]
      refine ⟨?_, rfl⟩
      simp [ptrEvents, hk, he, hb, ptrBaseTypeEvents]
    · left
      have hb : isBaseType (R.Kind (R.Elem f.Typ)) = false := by simpa using hb
      rw [ptr_of_other_elem R f g hk hb he]
      refine ⟨?_, rfl⟩
      simp [ptrEvents, hk, he, hb]

theorem struct_snd_varIndex (R : TypeInfo τ) (f : structField τ) (g : generator τ) :
    (_struct R f g).2.varIndex = g.varIndex := by
  unfold _struct
  split
  · rfl
  · split
    · exact addType_varIndex R _ g
    · rfl

theorem minted_structEvents (R : TypeInfo τ) (f : structField τ) (g : generator τ) :
    minted (structEvents R f g) = [] := by
  unfold structEvents
  split
  · rfl
  · split <;> rfl

/-! ## The names minted are those of successive counter values -/

theorem mintNames_one (g : generator τ) :
    mintNames g.varIndex 1 = [(nextVar g).1] := rfl

theorem nextVar_varIndex (g : generator τ) : (nextVar g).2.varIndex = bump g.varIndex 1 := rfl

/-- During `field` the names minted are those of successive calls of `nextVar` from the
counter at entry, and the counter at return has advanced by their number. -/
theorem field_counts (R : TypeInfo τ) :
    ∀ (n : Nat) (f : structField τ) (g : generator τ),
      minted (fieldEvents R n f g)
          = mintNames g.varIndex (minted (fieldEvents R n f g)).length ∧
        ∀ g1, (field R n f g).2 = some g1 →
          g1.varIndex = bump g.varIndex (minted (fieldEvents R n f g)).length := by
  intro n
  induction n with
  | zero =>
    intro f g
    exact ⟨rfl, fun g1 h => by simp [field] at h⟩
  | succ n ih =>
    intro f g
    by_cases hs : (ParseBool (f.Tag.Get "noCopy")).1 = true
    · rw [fieldEvents_of_skipped R n f g hs, field_of_skipped R n f g hs]
      refine ⟨rfl, fun g1 h => ?_⟩
      simp only [Option.some.injEq] at h
      rw [← h]
      rfl
    · have hs : (ParseBool (f.Tag.Get "noCopy")).1 = false := by simpa using hs
      by_cases hk : R.Kind f.Typ = Kind.Slice ∨ R.Kind f.Typ = Kind.Array
      · rw [fieldEvents_of_coll R n f g hs hk, field_of_slice R n f g hs hk,
          slice_snd R _ f g hk]
        obtain ⟨a, b⟩ := ih ⟨f.Name ++ "[" ++ (nextVar g).1 ++ "]", R.Elem f.Typ, []⟩
          (nextVar g).2
        rw [nextVar_varIndex] at a b
        refine ⟨?_, fun g1 h => ?_⟩
        · simp only [minted, List.length_cons]
          rw [Nat.add_comm, mintNames_add, mintNames_one, ← a]
          rfl
        · simp only [minted, List.length_cons]
          rw [b g1 h, bump_add, Nat.add_comm]
      · have h1 : R.Kind f.Typ ≠ Kind.Slice := fun h => hk (Or.inl h)
        have h2 : R.Kind f.Typ ≠ Kind.Array := fun h => hk (Or.inr h)
        rw [fieldEvents_of_not_coll R n f g hs h1 h2]
        have hfield : (field R (n + 1) f g).2 = some (_struct R f (_ptr R f g).2).2 := by
          rw [field_succ]
          simp [hs, baseType_snd, slice_of_not R _ f g h1 h2]
        rw [hfield, minted_append, minted_structEvents, List.append_nil]
        by_cases hp : R.Kind f.Typ = Kind.Ptr
        · rcases ptrEvents_cases R f g hp with ⟨e1, e2⟩ | ⟨e1, e2⟩ | ⟨e1, e2, _⟩
          · rw [e1, e2]
            refine ⟨rfl, fun g1 h => ?_⟩
            simp only [Option.some.injEq] at h
            rw [← h, struct_snd_varIndex]
            rfl
          · rw [e1, e2]
            refine ⟨rfl, fun g1 h => ?_⟩
            simp only [Option.some.injEq] at h
            rw [← h, struct_snd_varIndex]
            rfl
          · rw [e1, e2]
            refine ⟨rfl, fun g1 h => ?_⟩
            simp only [Option.some.injEq] at h
            rw [← h, struct_snd_varIndex, addType_varIndex]
            rfl
        · rw [ptrEvents_of_not R f g hp, ptr_of_not R f g hp]
          refine ⟨rfl, fun g1 h => ?_⟩
          simp only [Option.some.injEq] at h
          rw [← h, struct_snd_varIndex]
          rfl

theorem fieldsEvents_counts (R : TypeInfo τ) (n : Nat) (fs : List (structField τ)) :
    ∀ (g : generator τ),
      minted (fieldsEvents (field R n) (fieldEvents R n) fs g)
          = mintNames g.varIndex
              (minted (fieldsEvents (field R n) (fieldEvents R n) fs g)).length ∧
        ∀ g1, (fieldsLoop (field R n) fs g).2 = some g1 →
          g1.varIndex = bump g.varIndex
            (minted (fieldsEvents (field R n) (fieldEvents R n) fs g)).length := by
  induction fs with
  | nil =>
    intro g
    refine ⟨rfl, fun g1 h => ?_⟩
    simp only [fieldsLoop, Option.some.injEq] at h
    rw [← h]
    rfl
  | cons f fs ih =>
    intro g
    obtain ⟨a, b⟩ := field_counts R n f g
    simp only [fieldsEvents]
    rw [fieldsLoop_cons]
    cases hr : (field R n f g).2 with
    | none =>
      simp only [List.append_nil]
      exact ⟨a, fun g1 h => by simp at h⟩
    | some g2 =>
      simp only
      obtain ⟨a2, b2⟩ := ih g2
      rw [b g2 hr] at a2 b2
      refine ⟨?_, fun g1 h => ?_⟩
      · rw [minted_append, List.length_append, mintNames_add, ← a, ← a2]
      · rw [minted_append, List.length_append, b2 g1 h, bump_add]

theorem object_counts (R : TypeInfo τ) (n : Nat) (t : τ) (g : generator τ) :
    minted (objectEvents R n t g)
        = mintNames g.varIndex (minted (objectEvents R n t g)).length ∧
      ∀ g1, (_object R n t g).2 = some g1 →
        g1.varIndex = bump g.varIndex (minted (objectEvents R n t g)).length := by
  unfold objectEvents _object
  split
  · refine ⟨rfl, fun g1 h => ?_⟩
    simp only [Option.some.injEq] at h
    rw [← h]
    rfl
  · exact fieldsEvents_counts R n _ g

theorem nextType_varIndex (O : Runtime τ) (g : generator τ) :
    (nextType O g).2.varIndex = g.varIndex := by
  unfold nextType
  split <;> rfl

theorem runEvents_none (R : TypeInfo τ) (O : Runtime τ) (D k : Nat) (g : generator τ)
    (hn : (nextType O g).1 = none) : runEvents R O D (k + 1) g = [] := by
  rcases h : nextType O g with ⟨_ | t, g1⟩
  · simp [runEvents, h]
  · rw [h] at hn
    simp at hn

theorem runEvents_some (R : TypeInfo τ) (O : Runtime τ) (D k : Nat) (g : generator τ) (t : τ)
    (hn : (nextType O g).1 = some t) :
    runEvents R O D (k + 1) g
      = objectEvents R D t (nextType O g).2 ++
        match (_object R D t (nextType O g).2).2 with
        | none => []
        | some g2 => runEvents R O D k g2 := by
  rcases h : nextType O g with ⟨_ | u, g1⟩
  · rw [h] at hn
    simp at hn
  · rw [h] at hn
    simp only [Option.some.injEq] at hn
    subst hn
    simp [runEvents, h]

theorem runLoop_snd_some (R : TypeInfo τ) (O : Runtime τ) (D k : Nat) (g : generator τ)
    (t : τ) (hn : (nextType O g).1 = some t) :
    (runLoop R O D (k + 1) g).2
      = match (_object R D t (nextType O g).2).2 with
        | none => none
        | some g2 => (runLoop R O D k g2).2 := by
  rcases ho : _object R D t (nextType O g).2 with ⟨body, _ | g2⟩
  · exact runLoop_stuck R O D k g t hn (by rw [ho])
  · rw [(runLoop_some R O D k g t body g2 hn ho).1]

theorem run_counts (R : TypeInfo τ) (O : Runtime τ) (D : Nat) :
    ∀ (k : Nat) (g : generator τ),
      minted (runEvents R O D k g)
          = mintNames g.varIndex (minted (runEvents R O D k g)).length ∧
        ∀ g1, (runLoop R O D k g).2 = some g1 →
          g1.varIndex = bump g.varIndex (minted (runEvents R O D k g)).length := by
  intro k
  induction k with
  | zero =>
    intro g
    exact ⟨rfl, fun g1 h => by simp [runLoop] at h⟩
  | succ k ih =>
    intro g
    cases hn : (nextType O g).1 with
    | none =>
      rw [runEvents_none R O D k g hn, (runLoop_none R O D k g hn).1]
      refine ⟨rfl, fun g1 h => ?_⟩
      simp only [Option.some.injEq] at h
      rw [← h, nextType_varIndex]
      rfl
    | some t =>
      rw [runEvents_some R O D k g t hn, runLoop_snd_some R O D k g t hn]
      obtain ⟨a, b⟩ := object_counts R D t (nextType O g).2
      rw [nextType_varIndex] at a b
      cases hr : (_object R D t (nextType O g).2).2 with
      | none =>
        simp only [List.append_nil]
        exact ⟨a, fun g1 h => by simp at h⟩
      | some g2 =>
        simp only
        obtain ⟨a2, b2⟩ := ih g2
        rw [b g2 hr] at a2 b2
        refine ⟨?_, fun g1 h => ?_⟩
        · rw [minted_append, List.length_append, mintNames_add, ← a, ← a2]
        · rw [minted_append, List.length_append, b2 g1 h, bump_add]

/-- C14 (amended): at every bound, for a run from a counter `c` in the range of `int64`
that the run does not carry past `2^63 - 1`: the `k`-th name minted (`k` from 1) is `v`
followed by the decimal `c + k`; the names minted are pairwise distinct, over all the
procedures of the run; selecting the next type leaves the counter as it is; and when
`Run` returns the counter is `c` plus the number of names minted, so it was never
decreased or reset. -/
theorem Run_temp_names (R : TypeInfo τ) (O : Runtime τ) (fuel : Nat) (out : String)
    (g : generator τ) (hlo : -(2 : Int) ^ 63 ≤ g.varIndex)
    (hhi : g.varIndex + ((minted (runEvents R O fuel fuel g)).length : Int) < (2 : Int) ^ 63) :
    minted (runEvents R O fuel fuel g)
      = (List.range (minted (runEvents R O fuel fuel g)).length).map
          (fun (k : Nat) => "v" ++ toString (g.varIndex + ((k : Int) + 1))) ∧
    (minted (runEvents R O fuel fuel g)).Nodup ∧
    (nextType O g).2.varIndex = g.varIndex ∧
    (∀ res, (Run R O fuel out g).2 = some res →
      res.g.varIndex = g.varIndex + ((minted (runEvents R O fuel fuel g)).length : Int)) := by
  obtain ⟨a, b⟩ := run_counts R O fuel fuel g
  have hnames : minted (runEvents R O fuel fuel g)
      = (List.range (minted (runEvents R O fuel fuel g)).length).map
          (fun (k : Nat) => "v" ++ toString (g.varIndex + ((k : Int) + 1))) := by
    conv_lhs => rw [a]
    unfold mintNames
    apply List.map_congr_left
    intro k hk
    have hk : k < (minted (runEvents R O fuel fuel g)).length := List.mem_range.1 hk
    have hb := bump_of_range g.varIndex hlo (k + 1) (by push_cast; omega)
    rw [hb]
    push_cast
    rfl
  refine ⟨hnames, ?_, nextType_varIndex O g, ?_⟩
  · rw [hnames]
    apply List.Nodup.map _ (List.nodup_range _)
    intro k1 k2 h
    have h2 := intToString_injective _ _ (string_append_left_cancel _ _ _ h)
    omega
  · intro res hres
    rw [Run_snd] at hres
    cases hr : (runLoop R O fuel fuel g).2 with
    | none => simp [hr] at hres
    | some g1 =>
      rw [hr] at hres
      simp only [Option.map_some', Option.some.injEq] at hres
      rw [← hres]
      simp only
      rw [b g1 hr]
      exact bump_of_range g.varIndex hlo _ hhi

/-- Witness of `Run_temp_names`: the sample package seeded with `A`, from the counter 0:
six names over the procedures of `A` and `B`. -/
theorem Run_temp_names_witness :
    -(2 : Int) ^ 63 ≤ (addType Demo.info Demo.Ty.A Demo.g0).varIndex ∧
    (addType Demo.info Demo.Ty.A Demo.g0).varIndex
      + ((minted (runEvents Demo.info Demo.runtime 3 3
          (addType Demo.info Demo.Ty.A Demo.g0))).length : Int) < (2 : Int) ^ 63 ∧
    (minted (runEvents Demo.info Demo.runtime 3 3
      (addType Demo.info Demo.Ty.A Demo.g0))).Nodup ∧
    minted (runEvents Demo.info Demo.runtime 3 3 (addType Demo.info Demo.Ty.A Demo.g0))
      = ["v1", "v2", "v3", "v4", "v5", "v6"] :=
  ⟨by decide, by decide,
    (Run_temp_names Demo.info Demo.runtime 3 "" (addType Demo.info Demo.Ty.A Demo.g0)
      (by decide) (by decide)).2.1,
    by decide⟩

/-- C14 (counterexample): a run of the sample package seeded with `A` from the counter
`2^63 - 2`: the second name minted is `v-9223372036854775808`, not `v` followed by
`2^63`, and the counter ends below its starting value. -/
theorem Run_temp_names_wrap :
    minted (runEvents Demo.info Demo.runtime 3 3
        { addType Demo.info Demo.Ty.A Demo.g0 with varIndex := 9223372036854775806 })
      = ["v9223372036854775807", "v-9223372036854775808", "v-9223372036854775807",
          "v-9223372036854775806", "v-9223372036854775805", "v-9223372036854775804"] ∧
    (Run Demo.info Demo.runtime 3 ""
        { addType Demo.info Demo.Ty.A Demo.g0 with varIndex := 9223372036854775806 }).2.map
        (fun r => r.g.varIndex) = some (-9223372036854775804) := by
  decide

/-! ## Calls of `Copy()` in the event trace -/

theorem callees_structEvents (R : TypeInfo τ) (f : structField τ) (g : generator τ) (T : τ)
    (h : T ∈ callees (structEvents R f g)) :
    T = f.Typ ∧ R.Kind f.Typ = Kind.Struct ∧ R.PkgPath f.Typ = g.pkgPath ∧
      _struct R f g = (f.out ++ " = " ++ f.in_ ++ ".Copy()\n", addType R f.Typ g) := by
  unfold structEvents at h
  by_cases hk : R.Kind f.Typ = Kind.Struct
  · by_cases hp : R.PkgPath f.Typ = g.pkgPath
    · simp [hk, hp, callees] at h
      exact ⟨h, hk, hp, by simp [_struct, hk, hp]⟩
    · simp [hk, hp, callees] at h
  · simp [hk, callees] at h

theorem callees_ptrStructEvents (R : TypeInfo τ) (f : structField τ) (g : generator τ)
    (T : τ) (h : T ∈ callees (ptrStructEvents R f g)) :
    T = f.Typ ∧ R.Kind f.Typ = Kind.Struct ∧ R.PkgPath f.Typ = g.pkgPath ∧
      (_ptrStruct R f g).2 = addType R f.Typ (nextVar g).2 := by
  unfold ptrStructEvents at h
  by_cases hk : R.Kind f.Typ = Kind.Struct
  · by_cases hp : R.PkgPath f.Typ = g.pkgPath
    · simp [hk, hp, callees, nextVar_pkgPath] at h
      exact ⟨h, hk, hp, by rw [ptrStruct_inunit R f g hk hp]⟩
    · simp [hk, hp, callees, nextVar_pkgPath] at h
  · simp [hk, callees] at h

/-- A call of `Copy()` printed during `field` is on a struct the field leads to. -/
theorem field_callee_leads (R : TypeInfo τ) :
    ∀ (n : Nat) (f : structField τ) (g : generator τ) (T : τ),
      T ∈ callees (fieldEvents R n f g) →
        (ParseBool (f.Tag.Get "noCopy")).1 = false ∧ Leads R g.pkgPath f.Typ T := by
  intro n
  induction n with
  | zero =>
    intro f g T h
    simp [fieldEvents, callees] at h
  | succ n ih =>
    intro f g T h
    by_cases hs : (ParseBool (f.Tag.Get "noCopy")).1 = true
    · rw [fieldEvents_of_skipped R n f g hs] at h
      simp [callees] at h
    · have hs : (ParseBool (f.Tag.Get "noCopy")).1 = false := by simpa using hs
      refine ⟨hs, ?_⟩
      by_cases hk : R.Kind f.Typ = Kind.Slice ∨ R.Kind f.Typ = Kind.Array
      · rw [fieldEvents_of_coll R n f g hs hk] at h
        simp only [callees] at h
        exact Leads.item _ _ hk (ih _ _ _ h).2
      · have h1 : R.Kind f.Typ ≠ Kind.Slice := fun h => hk (Or.inl h)
        have h2 : R.Kind f.Typ ≠ Kind.Array := fun h => hk (Or.inr h)
        rw [fieldEvents_of_not_coll R n f g hs h1 h2, callees_append, List.mem_append] at h
        rcases h with h | h
        · by_cases hp : R.Kind f.Typ = Kind.Ptr
          · rcases ptrEvents_cases R f g hp with ⟨e1, _⟩ | ⟨e1, _⟩ | ⟨e1, _, e3, e4⟩
            · rw [e1] at h
              simp [callees] at h
            · rw [e1] at h
              simp [callees] at h
            · rw [e1] at h
              simp only [callees, List.mem_singleton] at h
              rw [h]
              exact Leads.pointer _ hp e3 e4
          · rw [ptrEvents_of_not R f g hp] at h
            simp [callees] at h
        · obtain ⟨e1, e2, e3, _⟩ := callees_structEvents R f _ T h
          have hp : R.Kind f.Typ ≠ Kind.Ptr := by simp [e2]
          rw [ptr_of_not R f g hp] at e3
          rw [e1]
          exact Leads.direct _ e2 e3

theorem fields_callee (R : TypeInfo τ) (n : Nat) (fs : List (structField τ)) :
    ∀ (g : generator τ) (T : τ),
      T ∈ callees (fieldsEvents (field R n) (fieldEvents R n) fs g) →
        ∃ f ∈ fs, (ParseBool (f.Tag.Get "noCopy")).1 = false ∧ Leads R g.pkgPath f.Typ T := by
  induction fs with
  | nil =>
    intro g T h
    simp [fieldsEvents, callees] at h
  | cons f fs ih =>
    intro g T h
    simp only [fieldsEvents, callees_append, List.mem_append] at h
    rcases h with h | h
    · exact ⟨f, List.mem_cons_self f fs, field_callee_leads R n f g T h⟩
    · cases hr : (field R n f g).2 with
      | none =>
        rw [hr] at h
        simp [callees] at h
      | some g1 =>
        rw [hr] at h
        simp only at h
        have heq : field R n f g = ((field R n f g).1, some g1) := by rw [← hr]
        have hp := (field_grows R n f g _ g1 heq).1
        obtain ⟨f2, hf2, a, b⟩ := ih g1 T h
        rw [hp] at b
        exact ⟨f2, List.mem_cons_of_mem _ hf2, a, b⟩

theorem object_callee (R : TypeInfo τ) (n : Nat) (t : τ) (g : generator τ) (T : τ)
    (hp : R.PkgPath t = g.pkgPath) (h : T ∈ callees (objectEvents R n t g)) :
    Refers R g.pkgPath t T := by
  unfold objectEvents at h
  by_cases hk : R.Kind t = Kind.Struct
  · rw [if_neg (by simp [hk])] at h
    obtain ⟨f, hf, a, b⟩ := fields_callee R n _ g T h
    exact ⟨hk, hp, f, hf, a, b⟩
  · rw [if_pos hk] at h
    simp [callees] at h

theorem runProcs_fst_some (R : TypeInfo τ) (O : Runtime τ) (D k : Nat) (g : generator τ)
    (t : τ) (hn : (nextType O g).1 = some t) :
    (runProcs R O D (k + 1) g).map Prod.fst
      = t :: match (_object R D t (nextType O g).2).2 with
        | none => []
        | some g2 => (runProcs R O D k g2).map Prod.fst := by
  rcases h : nextType O g with ⟨_ | u, g1⟩
  · rw [h] at hn
    simp at hn
  · rw [h] at hn
    simp only [Option.some.injEq] at hn
    subst hn
    rcases h2 : _object R D u g1 with ⟨body, _ | g2⟩ <;> simp [runProcs, h, h2]

/-- Every call of `Copy()` printed during the loop of `Run` is on a type that a selected
type refers to. -/
theorem run_callee (R : TypeInfo τ) (O : Runtime τ) (hO : O.Valid) (D : Nat) (pkg : String) :
    ∀ (k : Nat) (g : generator τ), g.pkgPath = pkg →
      (∀ t ∈ keys g.types, R.PkgPath t = pkg) →
      ∀ T ∈ callees (runEvents R O D k g),
        ∃ S ∈ (runProcs R O D k g).map Prod.fst, Refers R pkg S T := by
  intro k
  induction k with
  | zero =>
    intro g _ _ T h
    simp [runEvents, callees] at h
  | succ k ih =>
    intro g hpkg hkeys T h
    cases hn : (nextType O g).1 with
    | none =>
      rw [runEvents_none R O D k g hn] at h
      simp [callees] at h
    | some t =>
      obtain ⟨ht1, _, ht3⟩ := nextType_some O hO g t hn
      have hp1 : (nextType O g).2.pkgPath = pkg := by rw [ht3]; exact hpkg
      have hk1 : keys (nextType O g).2.types = keys g.types := by
        rw [ht3]; exact keys_mapSet_of_mem g.types t true ht1
      rw [runEvents_some R O D k g t hn, callees_append, List.mem_append] at h
      rw [runProcs_fst_some R O D k g t hn]
      rcases h with h | h
      · have := object_callee R D t (nextType O g).2 T (by rw [hp1]; exact hkeys t ht1) h
        rw [hp1] at this
        exact ⟨t, List.mem_cons_self _ _, this⟩
      · cases hr : (_object R D t (nextType O g).2).2 with
        | none =>
          rw [hr] at h
          simp [callees] at h
        | some g2 =>
          rw [hr] at h
          simp only at h ⊢
          have hgr := object_grows R D t (nextType O g).2 g2
            (by rw [hp1]; exact hkeys t ht1) hr
          rw [hp1] at hgr
          obtain ⟨hp2, _, hk2⟩ := hgr
          have hkeys2 : ∀ u ∈ keys g2.types, R.PkgPath u = pkg := by
            intro u hu
            rcases (hk2 u).1 hu with h1 | h1
            · rw [hk1] at h1
              exact hkeys u h1
            · obtain ⟨_, _, f, _, _, hl⟩ := h1
              exact hl.target.2
          obtain ⟨S, hS, hST⟩ := ih g2 (hp2.trans hp1) hkeys2 T h
          exact ⟨S, List.mem_cons_of_mem _ hS, hST⟩

/-! ## The printed text as a list of statements -/

theorem renderAll_append (R : TypeInfo τ) (p q : List (Piece τ)) :
    renderAll R (p ++ q) = renderAll R p ++ renderAll R q := by
  induction p with
  | nil => simp [renderAll]
  | cons a p ih => simp [renderAll, ih, String.append_assoc]

theorem copyCallees_append (p q : List (Piece τ)) :
    copyCallees (p ++ q) = copyCallees p ++ copyCallees q := by
  induction p with
  | nil => rfl
  | cons a p ih => cases a <;> simp [copyCallees, ih]

theorem struct_render (R : TypeInfo τ) (f : structField τ) (g : generator τ) :
    renderAll R (structPieces R f g) = (_struct R f g).1 := by
  unfold structPieces _struct
  split
  · rfl
  · split <;> simp [renderAll, Piece.render]

theorem ptrStruct_render (R : TypeInfo τ) (f : structField τ) (g : generator τ) :
    renderAll R (ptrStructPieces R f g) = (_ptrStruct R f g).1 := by
  unfold ptrStructPieces _ptrStruct
  split
  · rfl
  · simp only
    split <;> simp [renderAll, Piece.render]

theorem baseType_render (R : TypeInfo τ) (f : structField τ) (g : generator τ) :
    renderAll R (baseTypePieces R f) = (_baseType R f g).1 := by
  unfold baseTypePieces _baseType
  split <;> simp [renderAll, Piece.render]

theorem ptrBaseType_render (R : TypeInfo τ) (f : structField τ) (g : generator τ) :
    renderAll R (ptrBaseTypePieces R f g) = (_ptrBaseType R f g).1 := by
  unfold ptrBaseTypePieces _ptrBaseType
  split <;> simp [renderAll, Piece.render]

theorem ptr_render (R : TypeInfo τ) (f : structField τ) (g : generator τ) :
    renderAll R (ptrPieces R f g) = (_ptr R f g).1 := by
  unfold ptrPieces _ptr
  split
  · rfl
  · by_cases he : R.Kind (R.Elem f.Typ) = Kind.Struct
    · simp [he, isBaseType, renderAll, renderAll_append, Piece.render, ptrStruct_render,
        String.append_assoc]
    · by_cases hb : isBaseType (R.Kind (R.Elem f.Typ)) = true <;>
        simp [hb, he, renderAll, renderAll_append, Piece.render, ptrBaseType_render,
          String.append_assoc]

theorem slice_render (R : TypeInfo τ)
    (recPieces : structField τ → generator τ → List (Piece τ))
    (recField : structField τ → generator τ → String × Option (generator τ))
    (hrec : ∀ f g, renderAll R (recPieces f g) = (recField f g).1)
    (f : structField τ) (g : generator τ) :
    renderAll R (slicePieces R recPieces recField f g) = (_slice R recField f g).1 := by
  by_cases hk : R.Kind f.Typ = Kind.Slice ∨ R.Kind f.Typ = Kind.Array
  · have hne : ¬ (R.Kind f.Typ ≠ Kind.Slice ∧ R.Kind f.Typ ≠ Kind.Array) := by
      rcases hk with hk | hk <;> simp [hk]
    have h3 := hrec ⟨f.Name ++ "[" ++ (nextVar g).1 ++ "]", R.Elem f.Typ, []⟩ (nextVar g).2
    unfold slicePieces _slice
    rw [if_neg hne, if_neg hne]
    simp only [sliceItem_of_coll R recField f _ _ hk]
    rcases hr : recField ⟨f.Name ++ "[" ++ (nextVar g).1 ++ "]", R.Elem f.Typ, []⟩ (nextVar g).2
      with ⟨s3, _ | g3⟩
    · rw [hr] at h3
      simp only [String.append_assoc] at h3
      by_cases hs : R.Kind f.Typ = Kind.Slice <;>
        simp [hs, renderAll, renderAll_append, Piece.render, h3, String.append_assoc]
    · rw [hr] at h3
      simp only [String.append_assoc] at h3
      by_cases hs : R.Kind f.Typ = Kind.Slice <;>
        simp [hs, renderAll, renderAll_append, Piece.render, h3, String.append_assoc]
  · have hne : R.Kind f.Typ ≠ Kind.Slice ∧ R.Kind f.Typ ≠ Kind.Array := by
      constructor
      · exact fun h => hk (Or.inl h)
      · exact fun h => hk (Or.inr h)
    simp [slicePieces, _slice, hne, renderAll]

theorem field_render (R : TypeInfo τ) :
    ∀ (n : Nat) (f : structField τ) (g : generator τ),
      renderAll R (fieldPieces R n f g) = (field R n f g).1 := by
  intro n
  induction n with
  | zero =>
    intro f g
    rfl
  | succ n ih =>
    intro f g
    have hsl := slice_render R (fieldPieces R n) (field R n) ih f (_baseType R f g).2
    simp only [fieldPieces, field]
    by_cases hs : (ParseBool (f.Tag.Get "noCopy")).1 = true
    · simp [hs, renderAll]
    · simp only [hs, if_false]
      rcases hr : _slice R (field R n) f (_baseType R f g).2 with ⟨s2, _ | g2⟩
      · rw [hr] at hsl
        simp [renderAll_append, baseType_render R f g, hsl]
      · rw [hr] at hsl
        simp [renderAll_append, baseType_render R f g, hsl, ptr_render, struct_render,
          String.append_assoc]

theorem fields_render (R : TypeInfo τ)
    (emit : structField τ → generator τ → String × Option (generator τ))
    (pieces : structField τ → generator τ → List (Piece τ))
    (h : ∀ f g, renderAll R (pieces f g) = (emit f g).1) (fs : List (structField τ)) :
    ∀ (g : generator τ),
      renderAll R (fieldsPieces emit pieces fs g) = (fieldsLoop emit fs g).1 := by
  induction fs with
  | nil =>
    intro g
    rfl
  | cons f fs ih =>
    intro g
    have hf := h f g
    simp only [fieldsPieces, fieldsLoop]
    rcases hr : emit f g with ⟨s1, _ | g1⟩
    · rw [hr] at hf
      simp [renderAll_append, hf, renderAll]
    · rw [hr] at hf
      simp [renderAll_append, hf, ih]

theorem object_render (R : TypeInfo τ) (n : Nat) (t : τ) (g : generator τ) :
    renderAll R (objectPieces R n t g) = (_object R n t g).1 := by
  unfold objectPieces _object
  split
  · rfl
  · exact fields_render R _ _ (field_render R n) _ g

theorem run_render (R : TypeInfo τ) (O : Runtime τ) (D : Nat) :
    ∀ (k : Nat) (g : generator τ),
      renderAll R (runPieces R O D k g) = (runLoop R O D k g).1 := by
  intro k
  induction k with
  | zero =>
    intro g
    rfl
  | succ k ih =>
    intro g
    simp only [runPieces, runLoop]
    rcases hn : nextType O g with ⟨_ | t, g1⟩
    · rfl
    · have ho := object_render R D t g1
      rcases hr : _object R D t g1 with ⟨body, _ | g2⟩
      · rw [hr] at ho
        simp [hr, renderAll, renderAll_append, Piece.render, ho]
      · rw [hr] at ho
        simp [hr, renderAll, renderAll_append, Piece.render, ho, ih, String.append_assoc]
        rw [← String.append_assoc "return\n" "\x7d\n"]
        rfl

/-! ## The calls of `Copy()` among the printed statements -/

theorem struct_calls (R : TypeInfo τ) (f : structField τ) (g : generator τ) :
    copyCallees (structPieces R f g) = callees (structEvents R f g) := by
  unfold structPieces structEvents
  split
  · rfl
  · split <;> rfl

theorem ptrStruct_calls (R : TypeInfo τ) (f : structField τ) (g : generator τ) :
    copyCallees (ptrStructPieces R f g) = callees (ptrStructEvents R f g) := by
  unfold ptrStructPieces ptrStructEvents
  split
  · rfl
  · simp only
    split <;> rfl

theorem baseType_calls (R : TypeInfo τ) (f : structField τ) :
    copyCallees (baseTypePieces R f) = [] := by
  unfold baseTypePieces
  split <;> rfl

theorem ptrBaseType_calls (R : TypeInfo τ) (f : structField τ) (g : generator τ) :
    copyCallees (ptrBaseTypePieces R f g) = [] ∧ callees (ptrBaseTypeEvents R f g) = [] := by
  unfold ptrBaseTypePieces ptrBaseTypeEvents
  split <;> exact ⟨rfl, rfl⟩

theorem ptr_calls (R : TypeInfo τ) (f : structField τ) (g : generator τ) :
    copyCallees (ptrPieces R f g) = callees (ptrEvents R f g) := by
  unfold ptrPieces ptrEvents
  split
  · rfl
  · by_cases he : R.Kind (R.Elem f.Typ) = Kind.Struct
    · simp [he, isBaseType, copyCallees, copyCallees_append, callees, ptrStruct_calls]
    · by_cases hb : isBaseType (R.Kind (R.Elem f.Typ)) = true <;>
        simp [hb, he, copyCallees, copyCallees_append, callees, callees_append,
          (ptrBaseType_calls R _ g).1, (ptrBaseType_calls R _ g).2]

theorem slice_calls (R : TypeInfo τ)
    (recPieces : structField τ → generator τ → List (Piece τ))
    (recEvents : structField τ → generator τ → List (Event τ))
    (recField : structField τ → generator τ → String × Option (generator τ))
    (hrec : ∀ f g, copyCallees (recPieces f g) = callees (recEvents f g))
    (f : structField τ) (g : generator τ) :
    copyCallees (slicePieces R recPieces recField f g)
      = callees (sliceEvents R recEvents f g) := by
  unfold slicePieces sliceEvents
  split
  · rfl
  · simp only [copyCallees_append, copyCallees, callees, hrec]
    by_cases hs : R.Kind f.Typ = Kind.Slice <;>
      cases (recField ⟨f.Name ++ "[" ++ (nextVar g).1 ++ "]", R.Elem f.Typ, []⟩
        (nextVar g).2).2 <;>
      simp [hs, copyCallees]

theorem field_calls (R : TypeInfo τ) :
    ∀ (n : Nat) (f : structField τ) (g : generator τ),
      copyCallees (fieldPieces R n f g) = callees (fieldEvents R n f g) := by
  intro n
  induction n with
  | zero =>
    intro f g
    rfl
  | succ n ih =>
    intro f g
    have hsl := slice_calls R (fieldPieces R n) (fieldEvents R n) (field R n) ih f
      (_baseType R f g).2
    rw [fieldEvents_succ]
    simp only [fieldPieces]
    by_cases hs : (ParseBool (f.Tag.Get "noCopy")).1 = true
    · simp [hs, copyCallees, callees]
    · simp only [hs, if_false]
      cases (_slice R (field R n) f (_baseType R f g).2).2 with
      | none => simp [copyCallees_append, baseType_calls, hsl]
      | some g2 =>
        simp [copyCallees_append, callees_append, baseType_calls, hsl, ptr_calls,
          struct_calls]

theorem fields_calls
    (emit : structField τ → generator τ → String × Option (generator τ))
    (pieces : structField τ → generator τ → List (Piece τ))
    (events : structField τ → generator τ → List (Event τ))
    (h : ∀ f g, copyCallees (pieces f g) = callees (events f g))
    (fs : List (structField τ)) :
    ∀ (g : generator τ),
      copyCallees (fieldsPieces emit pieces fs g) = callees (fieldsEvents emit events fs g) := by
  induction fs with
  | nil =>
    intro g
    rfl
  | cons f fs ih =>
    intro g
    simp only [fieldsPieces, fieldsEvents, copyCallees_append, callees_append, h]
    cases (emit f g).2 with
    | none => rfl
    | some g1 => simp [ih]

theorem object_calls (R : TypeInfo τ) (n : Nat) (t : τ) (g : generator τ) :
    copyCallees (objectPieces R n t g) = callees (objectEvents R n t g) := by
  unfold objectPieces objectEvents
  split
  · rfl
  · exact fields_calls _ _ _ (field_calls R n) _ g

theorem runPieces_none (R : TypeInfo τ) (O : Runtime τ) (D k : Nat) (g : generator τ)
    (hn : (nextType O g).1 = none) : runPieces R O D (k + 1) g = [] := by
  rcases h : nextType O g with ⟨_ | u, g1⟩
  · simp [runPieces, h]
  · rw [h] at hn
    simp at hn

theorem runPieces_some (R : TypeInfo τ) (O : Runtime τ) (D k : Nat) (g : generator τ) (t : τ)
    (hn : (nextType O g).1 = some t) :
    runPieces R O D (k + 1) g
      = Piece.funcHeader t :: objectPieces R D t (nextType O g).2 ++
        match (_object R D t (nextType O g).2).2 with
        | none => []
        | some g2 => Piece.ret :: Piece.closing :: runPieces R O D k g2 := by
  rcases h : nextType O g with ⟨_ | u, g1⟩
  · rw [h] at hn
    simp at hn
  · rw [h] at hn
    simp only [Option.some.injEq] at hn
    subst hn
    cases h2 : (_object R D u g1).2 <;> simp [runPieces, h, h2]

theorem run_calls (R : TypeInfo τ) (O : Runtime τ) (D : Nat) :
    ∀ (k : Nat) (g : generator τ),
      copyCallees (runPieces R O D k g) = callees (runEvents R O D k g) := by
  intro k
  induction k with
  | zero =>
    intro g
    rfl
  | succ k ih =>
    intro g
    cases hn : (nextType O g).1 with
    | none => rw [runPieces_none R O D k g hn, runEvents_none R O D k g hn]; rfl
    | some t =>
      rw [runPieces_some R O D k g t hn, runEvents_some R O D k g t hn]
      rw [List.cons_append, callees_append]
      simp only [copyCallees]
      rw [copyCallees_append, object_calls]
      cases (_object R D t (nextType O g).2).2 with
      | none => rfl
      | some g2 => simp [copyCallees, ih]

/-! ## The procedure headers among the printed statements -/

theorem procHeaders_append (p q : List (Piece τ)) :
    procHeaders (p ++ q) = procHeaders p ++ procHeaders q := by
  induction p with
  | nil => rfl
  | cons a p ih => cases a <;> simp [procHeaders, ih]

theorem struct_headers (R : TypeInfo τ) (f : structField τ) (g : generator τ) :
    procHeaders (structPieces R f g) = [] := by
  unfold structPieces
  split
  · rfl
  · split <;> rfl

theorem ptrStruct_headers (R : TypeInfo τ) (f : structField τ) (g : generator τ) :
    procHeaders (ptrStructPieces R f g) = [] := by
  unfold ptrStructPieces
  split
  · rfl
  · simp only
    split <;> rfl

theorem baseType_headers (R : TypeInfo τ) (f : structField τ) :
    procHeaders (baseTypePieces R f) = [] := by
  unfold baseTypePieces
  split <;> rfl

theorem ptrBaseType_headers (R : TypeInfo τ) (f : structField τ) (g : generator τ) :
    procHeaders (ptrBaseTypePieces R f g) = [] := by
  unfold ptrBaseTypePieces
  split <;> rfl

theorem ptr_headers (R : TypeInfo τ) (f : structField τ) (g : generator τ) :
    procHeaders (ptrPieces R f g) = [] := by
  unfold ptrPieces
  split
  · rfl
  · by_cases he : R.Kind (R.Elem f.Typ) = Kind.Struct
    · simp [he, isBaseType, procHeaders, procHeaders_append, ptrStruct_headers]
    · by_cases hb : isBaseType (R.Kind (R.Elem f.Typ)) = true <;>
        simp [hb, he, procHeaders, procHeaders_append, ptrBaseType_headers]

theorem slice_headers (R : TypeInfo τ)
    (recPieces : structField τ → generator τ → List (Piece τ))
    (recField : structField τ → generator τ → String × Option (generator τ))
    (hrec : ∀ f g, procHeaders (recPieces f g) = [])
    (f : structField τ) (g : generator τ) :
    procHeaders (slicePieces R recPieces recField f g) = [] := by
  unfold slicePieces
  split
  · rfl
  · simp only [procHeaders_append, procHeaders, hrec]
    by_cases hs : R.Kind f.Typ = Kind.Slice <;>
      cases (recField ⟨f.Name ++ "[" ++ (nextVar g).1 ++ "]", R.Elem f.Typ, []⟩
        (nextVar g).2).2 <;>
      simp [hs, procHeaders]

theorem field_headers (R : TypeInfo τ) :
    ∀ (n : Nat) (f : structField τ) (g : generator τ), procHeaders (fieldPieces R n f g) = [] := by
  intro n
  induction n with
  | zero =>
    intro f g
    rfl
  | succ n ih =>
    intro f g
    have hsl := slice_headers R (fieldPieces R n) (field R n) ih f (_baseType R f g).2
    simp only [fieldPieces]
    by_cases hs : (ParseBool (f.Tag.Get "noCopy")).1 = true
    · simp [hs, procHeaders]
    · simp only [hs, if_false]
      cases (_slice R (field R n) f (_baseType R f g).2).2 with
      | none => simp [procHeaders_append, baseType_headers, hsl]
      | some g2 =>
        simp [procHeaders_append, baseType_headers, hsl, ptr_headers, struct_headers]

theorem fields_headers
    (emit : structField τ → generator τ → String × Option (generator τ))
    (pieces : structField τ → generator τ → List (Piece τ))
    (h : ∀ f g, procHeaders (pieces f g) = []) (fs : List (structField τ)) :
    ∀ (g : generator τ), procHeaders (fieldsPieces emit pieces fs g) = [] := by
  induction fs with
  | nil =>
    intro g
    rfl
  | cons f fs ih =>
    intro g
    simp only [fieldsPieces, procHeaders_append, h]
    cases (emit f g).2 with
    | none => rfl
    | some g1 => simp [ih]

theorem object_headers (R : TypeInfo τ) (n : Nat) (t : τ) (g : generator τ) :
    procHeaders (objectPieces R n t g) = [] := by
  unfold objectPieces
  split
  · rfl
  · exact fields_headers _ _ (field_headers R n) _ g

/-- The procedure headers printed by the loop of `Run` are those of the selected types,
in the order of their selection. -/
theorem run_headers (R : TypeInfo τ) (O : Runtime τ) (D : Nat) :
    ∀ (k : Nat) (g : generator τ),
      procHeaders (runPieces R O D k g) = (runProcs R O D k g).map Prod.fst := by
  intro k
  induction k with
  | zero =>
    intro g
    rfl
  | succ k ih =>
    intro g
    cases hn : (nextType O g).1 with
    | none =>
      rw [runPieces_none R O D k g hn]
      rcases h2 : nextType O g with ⟨_ | u, g1⟩
      · simp [runProcs, h2, procHeaders]
      · rw [h2] at hn
        simp at hn
    | some t =>
      rw [runPieces_some R O D k g t hn, runProcs_fst_some R O D k g t hn, List.cons_append]
      simp only [procHeaders]
      rw [procHeaders_append, object_headers]
      cases (_object R D t (nextType O g).2).2 with
      | none => rfl
      | some g2 => simp [procHeaders, ih]

/-! ## Calls of `Copy()` and the procedures emitted -/

/-- The three cases of `_struct`: the field is a struct of the target package, the one
statement printed is the call of `Copy()` on it and `addType` is called on its type; the
field is another struct, the one statement printed is the plain assignment and the
generator is left as it is; the field is no struct, nothing is printed. -/
theorem struct_branches (R : TypeInfo τ) (f : structField τ) (g : generator τ) :
    (R.Kind f.Typ = Kind.Struct ∧ R.PkgPath f.Typ = g.pkgPath ∧
      structPieces R f g = [Piece.copyAssign f.out f.in_ f.Typ] ∧
      _struct R f g = (f.out ++ " = " ++ f.in_ ++ ".Copy()\n", addType R f.Typ g)) ∨
    (R.Kind f.Typ = Kind.Struct ∧ R.PkgPath f.Typ ≠ g.pkgPath ∧
      structPieces R f g = [Piece.assign f.out f.in_] ∧
      _struct R f g = (f.out ++ " = " ++ f.in_ ++ "\n", g)) ∨
    (R.Kind f.Typ ≠ Kind.Struct ∧ structPieces R f g = [] ∧ _struct R f g = ("", g)) := by
  by_cases hk : R.Kind f.Typ = Kind.Struct
  · by_cases hp : R.PkgPath f.Typ = g.pkgPath
    · left
      simp [structPieces, _struct, hk, hp]
    · right; left
      simp [structPieces, _struct, hk, hp]
  · right; right
    simp [structPieces, _struct, hk]

/-- The three cases of `_ptrStruct`, with `v` the name `nextVar` returns. -/
theorem ptrStruct_branches (R : TypeInfo τ) (f : structField τ) (g : generator τ) :
    (R.Kind f.Typ = Kind.Struct ∧ R.PkgPath f.Typ = g.pkgPath ∧
      ptrStructPieces R f g = [Piece.tmpCopy (nextVar g).1 f.in_ f.out f.Typ] ∧
      _ptrStruct R f g
        = ((nextVar g).1 ++ " := " ++ f.in_ ++ ".Copy()\n" ++ f.out ++ " = &" ++ (nextVar g).1
            ++ "\n",
          addType R f.Typ (nextVar g).2)) ∨
    (R.Kind f.Typ = Kind.Struct ∧ R.PkgPath f.Typ ≠ g.pkgPath ∧
      ptrStructPieces R f g = [Piece.tmpDeref (nextVar g).1 f.in_ f.out] ∧
      _ptrStruct R f g
        = ((nextVar g).1 ++ " := *" ++ f.in_ ++ "\n" ++ f.out ++ " = &" ++ (nextVar g).1
            ++ "\n",
          (nextVar g).2)) ∨
    (R.Kind f.Typ ≠ Kind.Struct ∧ ptrStructPieces R f g = [] ∧ _ptrStruct R f g = ("", g)) := by
  by_cases hk : R.Kind f.Typ = Kind.Struct
  · by_cases hp : R.PkgPath f.Typ = g.pkgPath
    · left
      refine ⟨hk, hp, ?_, ptrStruct_inunit R f g hk hp⟩
      simp [ptrStructPieces, hk, hp, nextVar_pkgPath]
    · right; left
      refine ⟨hk, hp, ?_, ptrStruct_external R f g hk hp⟩
      simp [ptrStructPieces, hk, hp, nextVar_pkgPath]
  · right; right
    simp [ptrStructPieces, _ptrStruct, hk]

/-- The statements of `_baseType` and of `_ptrBaseType`: none, or the one plain
assignment, or the one copy of the pointee through a temporary. -/
theorem baseType_branches (R : TypeInfo τ) (f : structField τ) (g : generator τ) :
    (baseTypePieces R f = [] ∨ baseTypePieces R f = [Piece.assign f.out f.in_]) ∧
    (ptrBaseTypePieces R f g = [] ∨
      ptrBaseTypePieces R f g = [Piece.tmpDeref (nextVar g).1 f.in_ f.out]) := by
  unfold baseTypePieces ptrBaseTypePieces
  constructor
  · split
    · exact Or.inl rfl
    · exact Or.inr rfl
  · split
    · exact Or.inl rfl
    · exact Or.inr rfl

/-- C20 (amended): for every list of seeds added to a fresh generator and every valid
iteration order of the queue, over a finite set of types whose slice/array nesting is
finite. At every bound the text printed by `Run` is the header, which is the fixed
comment, package clause and empty block of imports, followed by the rendering of the
statements `runPieces`, one per call of `Printf` or `Println`, and the procedure headers
among these statements are those of the selected types. From some bound on `Run` returns,
its text is the header followed by one complete procedure per selected type, and every
type on whose value one of the statements calls `.Copy()` has its procedure header among
the statements of that same output. The statement printed by `_struct`, and by
`_ptrStruct`, is such a call exactly when the field is a struct of the target package,
and then `addType` is called on the type of the field; for another struct the statement
is the plain copy, without a call, and the generator is left as it is (but for the
counter of temporaries); for a field that is no struct nothing is printed. The
statements of `_baseType` and `_ptrBaseType` are plain copies. -/
theorem Run_calls_have_procedures [Fintype τ] (R : TypeInfo τ) (O : Runtime τ)
    (hO : O.Valid) (hfin : FiniteNesting R) (name path : String) (seeds : List τ)
    (g : generator τ)
    (hAdd : AddAll R (seeds.map some) (SetPkg name path NewGenerator) = some g)
    (out : String) :
    (∀ fuel,
      (Run R O fuel out g).1 = printHeader O g ++ renderAll R (runPieces R O fuel fuel g) ∧
      procHeaders (runPieces R O fuel fuel g) = (runProcs R O fuel fuel g).map Prod.fst) ∧
    printHeader O g
      = "// Code generated by rti-generator for copy struct. DO NOT EDIT.\n" ++ "\n"
        ++ ("package " ++ " " ++ g.pkgName ++ "\n") ++ "\n" ++ "import (\n" ++ ")\n" ++ "\n" ∧
    (∃ N, ∀ fuel, N ≤ fuel →
      (Run R O fuel out g).2.isSome = true ∧
      (Run R O fuel out g).1
        = printHeader O g ++ String.join ((runProcs R O fuel fuel g).map (procText R)) ∧
      ∀ T ∈ copyCallees (runPieces R O fuel fuel g),
        T ∈ procHeaders (runPieces R O fuel fuel g)) ∧
    (∀ (f : structField τ) (g1 : generator τ),
      (R.Kind f.Typ = Kind.Struct ∧ R.PkgPath f.Typ = g1.pkgPath ∧
        structPieces R f g1 = [Piece.copyAssign f.out f.in_ f.Typ] ∧
        _struct R f g1 = (f.out ++ " = " ++ f.in_ ++ ".Copy()\n", addType R f.Typ g1)) ∨
      (R.Kind f.Typ = Kind.Struct ∧ R.PkgPath f.Typ ≠ g1.pkgPath ∧
        structPieces R f g1 = [Piece.assign f.out f.in_] ∧
        _struct R f g1 = (f.out ++ " = " ++ f.in_ ++ "\n", g1)) ∨
      (R.Kind f.Typ ≠ Kind.Struct ∧ structPieces R f g1 = [] ∧ _struct R f g1 = ("", g1))) ∧
    (∀ (f : structField τ) (g1 : generator τ),
      (R.Kind f.Typ = Kind.Struct ∧ R.PkgPath f.Typ = g1.pkgPath ∧
        ptrStructPieces R f g1 = [Piece.tmpCopy (nextVar g1).1 f.in_ f.out f.Typ] ∧
        _ptrStruct R f g1
          = ((nextVar g1).1 ++ " := " ++ f.in_ ++ ".Copy()\n" ++ f.out ++ " = &"
              ++ (nextVar g1).1 ++ "\n",
            addType R f.Typ (nextVar g1).2)) ∨
      (R.Kind f.Typ = Kind.Struct ∧ R.PkgPath f.Typ ≠ g1.pkgPath ∧
        ptrStructPieces R f g1 = [Piece.tmpDeref (nextVar g1).1 f.in_ f.out] ∧
        _ptrStruct R f g1
          = ((nextVar g1).1 ++ " := *" ++ f.in_ ++ "\n" ++ f.out ++ " = &"
              ++ (nextVar g1).1 ++ "\n",
            (nextVar g1).2)) ∨
      (R.Kind f.Typ ≠ Kind.Struct ∧ ptrStructPieces R f g1 = [] ∧
        _ptrStruct R f g1 = ("", g1))) ∧
    (∀ (f : structField τ) (g1 : generator τ),
      (baseTypePieces R f = [] ∨ baseTypePieces R f = [Piece.assign f.out f.in_]) ∧
      (ptrBaseTypePieces R f g1 = [] ∨
        ptrBaseTypePieces R f g1 = [Piece.tmpDeref (nextVar g1).1 f.in_ f.out])) := by
  refine ⟨fun fuel => ⟨?_, run_headers R O fuel fuel g⟩, ?_, ?_, struct_branches R,
    ptrStruct_branches R, baseType_branches R⟩
  · rw [Run_fst, run_render]
  · exact printHeader_of_no_imports O hO g (AddAll_imports R seeds _ g hAdd)
  · obtain ⟨N, hN⟩ := seeded_run R O hO hfin name path seeds g hAdd
    refine ⟨N, fun fuel hfuel => ?_⟩
    obtain ⟨g1, a1, _, a3, _, a5, a6⟩ := hN fuel hfuel
    refine ⟨by rw [Run_snd, a1]; rfl, ?_, ?_⟩
    · rw [Run_fst, runLoop_text R O fuel fuel g g1 a1]
    · intro T hT
      rw [run_calls] at hT
      rw [run_headers]
      obtain ⟨S, hS, hST⟩ := run_callee R O hO fuel path fuel g a5 a6 T hT
      obtain ⟨s, hs, hps, hr⟩ := (a3 S).1 hS
      exact (a3 T).2 ⟨s, hs, hps, hr.tail hST⟩

/-- Witness of `Run_calls_have_procedures`: the sample package seeded with `A`; the
calls are on `B` and `A`, and the procedure headers printed are those of `A` and `B`. -/
theorem Run_calls_have_procedures_witness :
    Demo.runtime.Valid ∧ FiniteNesting Demo.info ∧
    AddAll Demo.info ([Demo.Ty.A].map some) (SetPkg "pkg" "pkg" NewGenerator)
      = some (addType Demo.info Demo.Ty.A Demo.g0) ∧
    (∃ N, ∀ fuel, N ≤ fuel →
      ∀ T ∈ copyCallees (runPieces Demo.info Demo.runtime fuel fuel
          (addType Demo.info Demo.Ty.A Demo.g0)),
        T ∈ procHeaders (runPieces Demo.info Demo.runtime fuel fuel
          (addType Demo.info Demo.Ty.A Demo.g0))) ∧
    copyCallees (runPieces Demo.info Demo.runtime 3 3 (addType Demo.info Demo.Ty.A Demo.g0))
      = [Demo.Ty.B, Demo.Ty.A, Demo.Ty.B, Demo.Ty.A] ∧
    procHeaders (runPieces Demo.info Demo.runtime 3 3 (addType Demo.info Demo.Ty.A Demo.g0))
      = [Demo.Ty.A, Demo.Ty.B] :=
  ⟨Demo.runtime_valid, Demo.finiteNesting, by decide,
    (Run_calls_have_procedures Demo.info Demo.runtime Demo.runtime_valid Demo.finiteNesting
      "pkg" "pkg" [Demo.Ty.A] (addType Demo.info Demo.Ty.A Demo.g0) (by decide)
      "").2.2.1.imp (fun _ h fuel hf => (h fuel hf).2.2),
    by decide, by decide⟩

theorem Loop.object_root_diverges (n : Nat) (g : generator Loop.Ty) :
    (_object Loop.info (n + 1) Loop.Ty.Root g).2 = none := by
  have e : _object Loop.info (n + 1) Loop.Ty.Root g
      = fieldsLoop (field Loop.info (n + 1))
          [⟨"Leaf", Loop.Ty.Leaf, []⟩, ⟨"Kids", Loop.Ty.Tree, []⟩, ⟨"Pair", Loop.Ty.arrTree, []⟩]
          g := rfl
  have h1 : (field Loop.info (n + 1) ⟨"Leaf", Loop.Ty.Leaf, []⟩ g).2
      = some (_struct Loop.info ⟨"Leaf", Loop.Ty.Leaf, []⟩ g).2 := by
    rw [field_of_struct Loop.info n ⟨"Leaf", Loop.Ty.Leaf, []⟩ g rfl rfl]
  rw [e, fieldsLoop_cons, h1]
  simp only
  rw [fieldsLoop_cons, Loop.field_diverges]

theorem Loop.root_calls_leaf (n : Nat) :
    Loop.Ty.Leaf ∈ copyCallees (runPieces Loop.info Loop.runtime (n + 1) (n + 1)
      (addType Loop.info Loop.Ty.Root (SetPkg "pkg" "pkg" NewGenerator))) := by
  have e : objectPieces Loop.info (n + 1) Loop.Ty.Root
      (nextType Loop.runtime
        (addType Loop.info Loop.Ty.Root (SetPkg "pkg" "pkg" NewGenerator))).2
      = Piece.copyAssign "out.Leaf" "in.Leaf" Loop.Ty.Leaf
        :: match (field Loop.info (n + 1) ⟨"Leaf", Loop.Ty.Leaf, []⟩
            (nextType Loop.runtime
              (addType Loop.info Loop.Ty.Root (SetPkg "pkg" "pkg" NewGenerator))).2).2 with
          | none => []
          | some g1 => fieldsPieces (field Loop.info (n + 1)) (fieldPieces Loop.info (n + 1))
              [⟨"Kids", Loop.Ty.Tree, []⟩, ⟨"Pair", Loop.Ty.arrTree, []⟩] g1 := rfl
  rw [runPieces_some Loop.info Loop.runtime (n + 1) n _ Loop.Ty.Root (by decide), e]
  exact List.mem_cons_self _ _

/-- C20 (counterexample): with `type Tree []Tree`, `type Leaf struct{}` and
`type Root struct { Leaf Leaf; Kids Tree; Pair [2]Tree }` in the target package and the
seed `Root`, the statements printed by `Run` are the header of the procedure of `Root`,
the call `out.Leaf = in.Leaf.Copy()` and then the guard, the allocation and the loop
header of the field `Kids`, from which `field` never returns. At every bound the call on
a `Leaf` is among the statements printed, at no bound is a procedure header of `Leaf`
printed, and `Run` returns at no bound. -/
theorem Copy_call_without_procedure :
    AddAll Loop.info [some Loop.Ty.Root] (SetPkg "pkg" "pkg" NewGenerator)
      = some (addType Loop.info Loop.Ty.Root (SetPkg "pkg" "pkg" NewGenerator)) ∧
    runPieces Loop.info Loop.runtime 1 1
        (addType Loop.info Loop.Ty.Root (SetPkg "pkg" "pkg" NewGenerator))
      = [Piece.funcHeader Loop.Ty.Root,
          Piece.copyAssign "out.Leaf" "in.Leaf" Loop.Ty.Leaf,
          Piece.lenGuard "out.Kids",
          Piece.makeSlice "out.Kids" "" "Tree" "in.Kids",
          Piece.forRange "v1" "in.Kids"] ∧
    (Run Loop.info Loop.runtime 1 ""
        (addType Loop.info Loop.Ty.Root (SetPkg "pkg" "pkg" NewGenerator))).1
      = "// Code generated by rti-generator for copy struct. DO NOT EDIT.\n\n"
        ++ "package  pkg\n\nimport (\n)\n\n"
        ++ "func (in *Root) Copy() (out Root) \x7b\n"
        ++ "out.Leaf = in.Leaf.Copy()\n"
        ++ "if len(out.Kids) > 0 \x7b\n"
        ++ "out.Kids = make([]Tree, len(in.Kids))\n"
        ++ "for v1 := range in.Kids \x7b\n" ∧
    (¬ ∃ fuel, Loop.Ty.Leaf ∉ copyCallees (runPieces Loop.info Loop.runtime (fuel + 1)
        (fuel + 1) (addType Loop.info Loop.Ty.Root (SetPkg "pkg" "pkg" NewGenerator)))) ∧
    (¬ ∃ fuel, Loop.Ty.Leaf ∈ procHeaders (runPieces Loop.info Loop.runtime fuel fuel
        (addType Loop.info Loop.Ty.Root (SetPkg "pkg" "pkg" NewGenerator)))) ∧
    ¬ ∃ fuel, (Run Loop.info Loop.runtime fuel ""
        (addType Loop.info Loop.Ty.Root (SetPkg "pkg" "pkg" NewGenerator))).2.isSome = true := by
  refine ⟨by decide, by decide, by decide, ?_, ?_, ?_⟩
  · rintro ⟨fuel, h⟩
    exact h (Loop.root_calls_leaf fuel)
  · rintro ⟨fuel, h⟩
    rw [run_headers] at h
    cases fuel with
    | zero => simp [runProcs] at h
    | succ k =>
      rw [runProcs_fst_some Loop.info Loop.runtime (k + 1) k _ Loop.Ty.Root (by decide),
        Loop.object_root_diverges] at h
      simp at h
  · rintro ⟨fuel, h⟩
    have hnone : (runLoop Loop.info Loop.runtime fuel fuel
        (addType Loop.info Loop.Ty.Root (SetPkg "pkg" "pkg" NewGenerator))).2 = none := by
      cases fuel with
      | zero => rfl
      | succ k =>
        exact runLoop_stuck Loop.info Loop.runtime (k + 1) k _ Loop.Ty.Root (by decide)
          (Loop.object_root_diverges k _)
    rw [Run_snd, hnone] at h
    simp at h

end gen
